import Mathlib

/-!
# sctools: the configuration assembler (scas.c) and disassembler (scdis.c)

A shallow embedding of the text-to-binary assembler and of the binary-to-text
disassembler of Soarer's Keyboard Converter tools.

Conventions of the embedding

* A C string is the list of its bytes without the terminating NUL, so `*p == 0`
  reads `p = []`; a `char *` that may be NULL is an `Option`.
* `unsigned char` and `unsigned short` values are naturals, reduced modulo 256
  or 65536 where the source casts or stores them; `int` values are integers.
* Global variables of scas.c are the fields of `State`; every command handler
  maps a state and its argument string to a return code and a new state.
* The output stream of scdis.c is the list of bytes written to it.
* `malloc` and `realloc` are assumed to succeed and file writes to complete.
* The pointer `macro_list` is the one pointer of scas.c that is released and
  not reset; the state carries its standing (`Pointer`). A call that hands a
  released block to `free` gives `UNDEFINED` in place of a return code, and
  `scas_main` gives no output for a run in which a released block was used.
-/

namespace Sctools

/-! ## Bytes and C library helpers -/

/-- The bytes of an ASCII literal. -/
def bytes (s : String) : List Nat := s.data.map Char.toNat

/-- Modelled from the spec: token.h is not part of the sources at hand; the
not-found sentinel is a value distinct from every valid code and from 0. -/
def INVALID_NUMBER : Int := -1

/-- C locale `isspace`: space, and the control characters 9 to 13. -/
def isspace (c : Nat) : Bool := c == 32 || (9 ≤ c && c ≤ 13)

/-- C locale `isdigit`. -/
def isdigit (c : Nat) : Bool := 48 ≤ c && c ≤ 57

/-- Conversion of a value to `unsigned char`. -/
def u8 (x : Int) : Nat := (x % 256).toNat

/-- Conversion of a value to `unsigned short`. -/
def u16 (x : Int) : Nat := (x % 65536).toNat

/-- Conversion of a natural to a 32-bit `int`. -/
def to_int32 (n : Nat) : Int :=
  if n % 4294967296 < 2147483648 then ((n % 4294967296 : Nat) : Int)
  else ((n % 4294967296 : Nat) : Int) - 4294967296

/-- The value of the leading decimal digits of `p`, accumulated onto `acc`. -/
def digits_value : List Nat → Nat → Nat
  | [], acc => acc
  | c :: q, acc => if isdigit c then digits_value q (acc * 10 + (c - 48)) else acc

/-- `atoi` as the source uses it: every call is guarded by `isdigit(*p)`, so
no whitespace or sign is ever skipped. The value is `(int) strtol(p, 0, 10)`:
saturated at `LONG_MAX`, then truncated to 32 bits. -/
def atoi (p : List Nat) : Int := to_int32 (min (digits_value p 0) 9223372036854775807)

/-- The value of a hexadecimal digit, if `c` is one. -/
def hex_digit (c : Nat) : Option Nat :=
  if 48 ≤ c ∧ c ≤ 57 then some (c - 48)
  else if 65 ≤ c ∧ c ≤ 70 then some (c - 55)
  else if 97 ≤ c ∧ c ≤ 102 then some (c - 87)
  else none

/-- The value of the leading hexadecimal digits of `p`, accumulated onto `acc`. -/
def hex_value : List Nat → Nat → Nat
  | [], acc => acc
  | c :: q, acc =>
    match hex_digit c with
    | some d => hex_value q (acc * 16 + d)
    | none => acc

/-- `strtol(p, NULL, 16)` without saturation: leading whitespace, an optional
sign, an optional `0x` prefix in front of a digit, then hexadecimal digits. -/
def strtol16 (p : List Nat) : Int :=
  let p := p.dropWhile isspace
  let (neg, p) := match p with
    | 45 :: q => (true, q)
    | 43 :: q => (false, q)
    | _ => (false, p)
  let p := match p with
    | 48 :: x :: d :: q =>
      if (x = 120 ∨ x = 88) ∧ (hex_digit d).isSome then d :: q else p
    | _ => p
  if neg then - (hex_value p 0 : Int) else (hex_value p 0 : Int)

/-! ## scas.c: the tokenizer -/

def skip_whitespace (p : List Nat) : List Nat := p.dropWhile isspace

def skip_non_whitespace (p : List Nat) : List Nat := p.dropWhile (fun c => !isspace c)

def skip_to_end_quote (p : List Nat) : List Nat :=
  match p with
  | 34 :: _ => p
  | _ => p.dropWhile (fun c => c != 34 && c != 92)

def skip_token (p : List Nat) : List Nat :=
  match p with
  | [] => p
  | _ =>
    let p1 := skip_whitespace p
    let p2 := match p1 with
      | 34 :: q =>
        (match skip_to_end_quote q with
         | 34 :: r => r
         | r => r)
      | _ => skip_non_whitespace p1
    skip_whitespace p2

/-- The token is copied from the first non-blank byte (an opening quote
included) up to the byte where the scan stopped; NULL when that is empty. -/
def get_token (p : List Nat) : Option (List Nat) :=
  match p with
  | [] => none
  | _ =>
    let p1 := skip_whitespace p
    let p2 := match p1 with
      | 34 :: q => skip_to_end_quote q
      | _ => skip_non_whitespace p1
    let len := p1.length - p2.length
    if len = 0 then none else some (p1.take len)

/-! ## scas.c: argument parsers -/

/-- What the code at hand leaves open: the tables of hid_tokens.c, which is not
part of the sources, the files the assembler can open, and what a read of
`metas[i]` with `4 ≤ i`, past the end of that array of scdis.c, yields. -/
structure Env where
  lookup_hid_token_by_name : Option (List Nat) → Int
  lookup_hid_token_by_value : Int → List Nat
  lookup_meta_token : List Nat → Int
  fopen : Option (List Nat) → Option (List Nat)
  metas_overrun : Nat → Option (List Nat)

/-- The C expression `x & ~m` on `int` values, computed as `x - (x & m)`: the
bits of `x` that `m` clears are exactly those of `x & m`. -/
def and_not (x m : Int) : Int := x - Int.land x m

/-- The macro of hid_tokens.h: `!((X) & ((X) >> 4))`. -/
def is_meta_handed (x : Int) : Bool := Int.land x (Int.shiftRight x 4) == 0

def parse_int (p : Option (List Nat)) (minval maxval : Int) : Int :=
  match p with
  | none => INVALID_NUMBER
  | some [] => INVALID_NUMBER
  | some p =>
    let p1 := skip_whitespace p
    let num := match p1 with
      | c :: _ => if isdigit c then atoi p1 else INVALID_NUMBER
      | [] => INVALID_NUMBER
    if num < minval ∨ num > maxval then INVALID_NUMBER else num

def parse_hid (env : Env) (p : List Nat) : Int :=
  match get_token p with
  | none => INVALID_NUMBER
  | some t => env.lookup_hid_token_by_name (some t)

/-- The loop of `parse_meta_match`; every iteration that continues consumes at
least one byte of `p`, so `fuel = p.length` iterations suffice. The result is
`(ret, desired_meta, matched_meta)`. -/
def parse_meta_match_loop (env : Env) : Nat → List Nat → Int → Int → Nat × Int × Int
  | 0, _, desired_meta, matched_meta => (1, desired_meta, matched_meta)
  | fuel + 1, p, desired_meta, matched_meta =>
    match p with
    | [] => (1, desired_meta, matched_meta)
    | c :: q =>
      let inverted := c == 45
      let p1 := if inverted then q else p
      let m := match get_token p1 with
        | some t => env.lookup_meta_token t
        | none => INVALID_NUMBER
      if m = INVALID_NUMBER then (0, desired_meta, matched_meta)
      else if inverted then
        parse_meta_match_loop env fuel (skip_token p1)
          (and_not desired_meta m) (Int.lor matched_meta m)
      else
        parse_meta_match_loop env fuel (skip_token p1)
          (Int.lor desired_meta m)
          (if is_meta_handed m then Int.lor matched_meta m
           else Int.lor matched_meta (Int.land m 15))

def parse_meta_match (env : Env) (p : List Nat) : Nat × Int × Int :=
  parse_meta_match_loop env p.length p 0 0

/-- The loop of `parse_meta_handed`, with `fuel = p.length`. -/
def parse_meta_handed_loop (env : Env) : Nat → List Nat → Int → Int
  | 0, _, ret => ret
  | fuel + 1, p, ret =>
    match p with
    | [] => ret
    | _ =>
      let m := match get_token p with
        | some t => env.lookup_meta_token t
        | none => INVALID_NUMBER
      if m = INVALID_NUMBER then INVALID_NUMBER
      else parse_meta_handed_loop env fuel (skip_token p) (Int.lor ret m)

def parse_meta_handed (env : Env) (p : List Nat) : Int :=
  parse_meta_handed_loop env p.length p 0

/-! ## macro_tokens.c -/

def Q_PUSH_META : Int := 128

def MACRO_ARG_NONE : Int := 0
def MACRO_ARG_HID : Int := 1
def MACRO_ARG_META : Int := 2
def MACRO_ARG_DELAY : Int := 3

def macro_token_list : List (List Nat × Int) :=
  [ (bytes "NOP", 0), (bytes "PRESS", 1), (bytes "MAKE", 2), (bytes "BREAK", 3),
    (bytes "ASSIGN_META", 4), (bytes "SET_META", 5), (bytes "CLEAR_META", 6),
    (bytes "TOGGLE_META", 7), (bytes "POP_META", 8), (bytes "POP_ALL_META", 9),
    (bytes "DELAY", 10), (bytes "CLEAR_ALL", 11), (bytes "BOOT", 12),
    (bytes "PUSH_META", 128) ]

def lookup_macro_token_by_value (value : Int) : List Nat :=
  match macro_token_list.find? (fun e => e.2 == value) with
  | some e => e.1
  | none => bytes "INVALID"

def lookup_macro_token_by_name (name : Option (List Nat)) : Int :=
  match name with
  | none => INVALID_NUMBER
  | some n =>
    match macro_token_list.find? (fun e => e.1 == n) with
    | some e => e.2
    | none => INVALID_NUMBER

def get_macro_arg_type (cmd : Int) : Int :=
  let c := and_not cmd Q_PUSH_META
  if c = 1 ∨ c = 2 ∨ c = 3 then MACRO_ARG_HID
  else if c = 4 ∨ c = 5 ∨ c = 6 ∨ c = 7 then MACRO_ARG_META
  else if c = 10 then MACRO_ARG_DELAY
  else if c = 0 ∨ c = 8 ∨ c = 9 ∨ c = 11 ∨ c = 12 then MACRO_ARG_NONE
  else INVALID_NUMBER

/-- The result is `(return value, *cmd, *val)`. -/
def parse_macro_cmd (env : Env) (p : List Nat) : Bool × Nat × Nat :=
  let c := match get_token p with
    | some t => lookup_macro_token_by_name (some t)
    | none => INVALID_NUMBER
  if c = INVALID_NUMBER then (true, u8 c, u8 c)
  else
    let p1 := skip_token p
    let q := match get_token p1 with
      | some t => lookup_macro_token_by_name (some t)
      | none => INVALID_NUMBER
    if c = Q_PUSH_META ∧ q = INVALID_NUMBER then (true, u8 c, u8 q)
    else
      let c2 := if c = Q_PUSH_META then Int.lor c q else c
      let p2 := if c = Q_PUSH_META then skip_token p1 else p1
      let t := get_token p2
      let a := get_macro_arg_type c2
      let v :=
        if a = MACRO_ARG_HID then env.lookup_hid_token_by_name t
        else if a = MACRO_ARG_META then parse_meta_handed env p2
        else if a = MACRO_ARG_DELAY then parse_int t 0 255
        else if a = MACRO_ARG_NONE then 0
        else INVALID_NUMBER
      (v == INVALID_NUMBER, u8 c2, u8 v)

/-! ## scas.c: scan-set tokens -/

def lookup_set_token (t : Option (List Nat)) : Int :=
  match t with
  | none => INVALID_NUMBER
  | some t =>
    if t = bytes "set1" then 1
    else if t = bytes "set2" then 2
    else if t = bytes "set3" then 3
    else if t = bytes "set2ext" then 4
    else if t = bytes "any" then 5
    else INVALID_NUMBER

def parse_single_set (p : List Nat) : Int :=
  match get_token p with
  | some t => lookup_set_token (some t)
  | none => INVALID_NUMBER

/-- The loop of `parse_multi_set`, with `fuel = p.length`: `skip_token`
consumes at least one byte of a non-empty string. -/
def parse_multi_set_loop : Nat → List Nat → Int → Int
  | 0, _, val => val
  | fuel + 1, p, val =>
    match p with
    | [] => val
    | _ =>
      match get_token p with
      | some t =>
        let s := lookup_set_token (some t)
        if s = INVALID_NUMBER then s
        else if s ≠ 0 then
          parse_multi_set_loop fuel (skip_token p)
            (Int.lor val ((1 <<< (s - 1).toNat : Nat) : Int))
        else parse_multi_set_loop fuel (skip_token p) 0
      | none => parse_multi_set_loop fuel (skip_token p) val

def parse_multi_set (p : List Nat) : Int := parse_multi_set_loop p.length p 0

def parse_function_n (p : List Nat) : Int :=
  match p with
  | 70 :: 78 :: c :: q =>
    if isdigit c then
      (if atoi (c :: q) < 1 ∨ atoi (c :: q) > 8 then INVALID_NUMBER else atoi (c :: q))
    else INVALID_NUMBER
  | _ => INVALID_NUMBER

def parse_hex (p : List Nat) (minval maxval : Int) : Int :=
  let v := strtol16 p
  if v ≤ minval ∨ v ≥ maxval then INVALID_NUMBER else v

/-! ## scas.c: compilation state -/

def BLOCK_NONE : Nat := 255
def BLOCK_LAYERDEF : Nat := 0
def BLOCK_REMAP : Nat := 1
def BLOCK_MACRO : Nat := 2

def ERR_FILE_NOT_FOUND : Int := 1
def ERR_INVALID_COMMAND : Int := 2
def ERR_INVALID_ARGS : Int := 3
def ERR_BLOCK_TOO_LARGE : Int := 4
def ERR_MACRO_TOO_LONG : Int := 5
def ERR_FILE_WRITE : Int := 6

/-- The record `struct macro`; `commands` holds the 16-bit command words, and
its length is the field `commands.len` of the source. -/
structure Macro where
  hid_code : Nat
  desired_meta : Nat
  matched_meta : Nat
  press_flags : Nat
  release_flags : Nat
  commands : List Nat
deriving DecidableEq, Repr

/-- The record `struct block`. `bytes` holds the bytes written so far into the
255-byte buffer: `len` counts them modulo 256, and every write goes to index
`len`, so a write appends. -/
structure Block where
  bytes : List Nat
  len : Nat
deriving DecidableEq, Repr

/-- The standing of the address held in the pointer variable `macro_list`:
`null` is the initial NULL, `live` a block that `realloc` returned and that has
not been released, `freed` a block that `free` has released while the variable
still holds its address, and `undefined` what is left once a released block has
been handed to `realloc` or to `free`, for which the C library defines no
behaviour. -/
inductive Pointer where
  | null | live | freed | undefined
deriving DecidableEq, Repr

/-- The global variables of scas.c. The four `pair_lists` hold 16-bit words
`(a << 8) | b`; their pointers are reset to NULL by `pair_list_clear` and need no
field. `macro_list` holds the records and `macro_list_len` is its length;
`macro_list_ptr` is the standing of the pointer itself, which
`macro_list_clear` releases and does not reset. -/
structure State where
  current_force_flags : Nat
  current_select : Nat
  current_scanset : Nat
  current_keyboard_id : Nat
  current_layer : Nat
  current_macro_phase : Int
  current_macro_release_meta : Nat
  current_hid_code : Nat
  current_desired_meta : Nat
  current_matched_meta : Nat
  block_type : Nat
  layerdef_list : List Nat
  remap_list : List Nat
  press_mcmd_list : List Nat
  release_mcmd_list : List Nat
  macro_list : List Macro
  macro_list_ptr : Pointer
  block_list : List Block
deriving DecidableEq, Repr

/-- The initial values of the global variables. -/
def State.init : State :=
  { current_force_flags := 0, current_select := 0, current_scanset := 0,
    current_keyboard_id := 0, current_layer := 0, current_macro_phase := -1,
    current_macro_release_meta := 1, current_hid_code := 0,
    current_desired_meta := 0, current_matched_meta := 0, block_type := BLOCK_NONE,
    layerdef_list := [], remap_list := [], press_mcmd_list := [],
    release_mcmd_list := [], macro_list := [], macro_list_ptr := .null,
    block_list := [] }

/-- Not a value of the source. It is the result the handlers give to a call
that hands `free` a block already released: the C library defines no behaviour
for it, and the call does not return where the library detects the double free
and ends the process with `abort`. Being different from 0, it stops the loops
over the lines and the files like an error does. -/
def UNDEFINED : Int := -2

/-- The word `pair_list_push` stores for the bytes `a` and `b`. -/
def pair (a b : Nat) : Nat := ((a % 256) <<< 8) ||| (b % 256)

def block_alloc : Block := { bytes := [], len := 0 }

/-- The macro `block_append`: store the byte at index `len`, increment the
one-byte `len`, and take `goto ret` (second component `true`) when it wrapped
to 0. The store that makes `len` wrap goes to index 255, one byte past the
`malloc(255)` of `block_alloc`; the handlers drop the block on that path. -/
def block_append (b : Block) (x : Nat) : Block × Bool :=
  ({ bytes := b.bytes ++ [x % 256], len := (b.len + 1) % 256 }, (b.len + 1) % 256 == 0)

/-- A run of `block_append`, one per byte of `xs` in order, which stops at the
first one that takes `goto ret`. -/
def block_append_list : Block → List Nat → Block × Bool
  | b, [] => (b, false)
  | b, x :: xs =>
    if (block_append b x).2 then (block_append b x)
    else block_append_list (block_append b x).1 xs

/-! ## scas.c: command handlers -/

def cmd_force (st : State) (args : List Nat) : Int × State :=
  let set := parse_single_set args
  if set ≠ INVALID_NUMBER then
    (0, { st with current_force_flags :=
            (st.current_force_flags &&& 240) ||| u8 (Int.land set 255) })
  else (ERR_INVALID_ARGS, st)

def cmd_select (st : State) (args : List Nat) : Int × State :=
  let s := if get_token args = some (bytes "any") then 0 else parse_int (some args) 1 7
  if s ≠ INVALID_NUMBER then (0, { st with current_select := u8 s })
  else (ERR_INVALID_ARGS, st)

def cmd_scanset (st : State) (args : List Nat) : Int × State :=
  let s := parse_multi_set args
  if s ≠ INVALID_NUMBER then (0, { st with current_scanset := u8 s })
  else (ERR_INVALID_ARGS, st)

/-- On a value `parse_hex` rejects, the handler returns `INVALID_NUMBER` itself. -/
def cmd_keyboard_id (st : State) (args : List Nat) : Int × State :=
  match get_token args with
  | none => (ERR_INVALID_ARGS, st)
  | some t =>
    if t = bytes "any" then (0, { st with current_keyboard_id := 0 })
    else
      let v := parse_hex args 0 65535
      if v ≠ INVALID_NUMBER then (0, { st with current_keyboard_id := u16 v })
      else (v, st)

def cmd_layer (st : State) (args : List Nat) : Int × State :=
  let v := parse_int (some args) 0 255
  if v ≠ INVALID_NUMBER then (0, { st with current_layer := u8 v })
  else (ERR_INVALID_ARGS, st)

/-- The `for` loop of `cmd_layerdef`, with `fuel = p.length`; the result is the
string where the loop stopped and `fn_combo`. -/
def cmd_layerdef_loop : Nat → List Nat → Nat → List Nat × Nat
  | 0, p, fn_combo => (p, fn_combo)
  | fuel + 1, p, fn_combo =>
    match p with
    | [] => (p, fn_combo)
    | _ =>
      let fn := parse_function_n p
      if fn = INVALID_NUMBER then (p, fn_combo)
      else cmd_layerdef_loop fuel (skip_token p)
             (fn_combo ||| ((1 <<< (fn - 1).toNat) % 256))

def cmd_layerdef (st : State) (p : List Nat) : Int × State :=
  let r := cmd_layerdef_loop p.length (skip_whitespace (skip_whitespace p)) 0
  if r.2 = 0 then (ERR_INVALID_ARGS, st)
  else
    let n := parse_int (some r.1) 1 255
    if n = INVALID_NUMBER then (ERR_INVALID_ARGS, st)
    else (0, { st with layerdef_list := st.layerdef_list ++ [pair r.2 (u8 n)] })

def cmd_remap (env : Env) (st : State) (p : List Nat) : Int × State :=
  let p1 := skip_whitespace p
  let v1 := parse_hid env p1
  if v1 = INVALID_NUMBER then (ERR_INVALID_ARGS, st)
  else
    let v2 := parse_hid env (skip_token p1)
    if v2 = INVALID_NUMBER then (ERR_INVALID_ARGS, st)
    else (0, { st with remap_list := st.remap_list ++ [pair (u8 v1) (u8 v2)] })

def cmd_macro (env : Env) (st : State) (args : List Nat) : Int × State :=
  let hid_code := env.lookup_hid_token_by_name (get_token args)
  if hid_code = INVALID_NUMBER then (ERR_INVALID_ARGS, st)
  else
    let r := parse_meta_match env (skip_token args)
    if r.1 = 0 then (ERR_INVALID_ARGS, st)
    else
      (0, { st with current_macro_phase := 0, current_macro_release_meta := 1,
                    current_hid_code := u8 hid_code, current_desired_meta := u8 r.2.1,
                    current_matched_meta := u8 r.2.2 })

def cmd_onbreak (st : State) (args : List Nat) : Int × State :=
  if st.current_macro_phase ≠ 0 then (ERR_INVALID_COMMAND, st)
  else
    match get_token args with
    | none => (0, { st with current_macro_phase := 1, current_macro_release_meta := 1 })
    | some t =>
      if t = bytes "norestoremeta" then
        (0, { st with current_macro_phase := 1, current_macro_release_meta := 0 })
      else (ERR_INVALID_COMMAND, { st with current_macro_phase := 1 })

def cmd_macrostep (env : Env) (st : State) (args : List Nat) : Int × State :=
  let r := parse_macro_cmd env args
  if r.1 then (ERR_INVALID_ARGS, st)
  else if st.current_macro_phase ≠ 0 then
    (0, { st with release_mcmd_list := st.release_mcmd_list ++ [pair r.2.1 r.2.2] })
  else (0, { st with press_mcmd_list := st.press_mcmd_list ++ [pair r.2.1 r.2.2] })

/-- The pointer that `macro_list_push` stores in `macro_list`: the result of
`realloc(macro_list, ...)`, taken to succeed. On NULL and on a live block it
is a live block; on a released block the call is undefined. -/
def macro_list_push_ptr : Pointer → Pointer
  | .null => .live
  | .live => .live
  | .freed => .undefined
  | .undefined => .undefined

/-- The two `memcpy` calls copy `press_flags` words of the press list and
`release_flags & 0x3f` words of the release list. The `malloc` of the command
list is taken to succeed, also for a size of 0. The last two fields set are
the effect of `macro_list_push`: when `macro_list` holds a released block the
values are those the code goes on to compute if `realloc` returns, and the
pointer is marked `undefined`. -/
def cmd_endmacro (st : State) (_args : List Nat) : Int × State :=
  if st.current_macro_phase = -1 then (ERR_INVALID_COMMAND, st)
  else
    let press_flags := st.press_mcmd_list.length &&& 63
    let release_flags :=
      (st.release_mcmd_list.length &&& 63) ||| ((st.current_macro_release_meta <<< 7) % 256)
    if st.press_mcmd_list.length > 63 ∨ st.release_mcmd_list.length > 63 then
      (ERR_MACRO_TOO_LONG, { st with current_macro_phase := -1 })
    else
      (0, { st with
              current_macro_phase := -1,
              press_mcmd_list := [],
              release_mcmd_list := [],
              macro_list := st.macro_list ++
                [{ hid_code := st.current_hid_code,
                   desired_meta := st.current_desired_meta,
                   matched_meta := st.current_matched_meta,
                   press_flags := press_flags,
                   release_flags := release_flags,
                   commands := st.press_mcmd_list.take press_flags ++
                               st.release_mcmd_list.take (release_flags &&& 63) }],
              macro_list_ptr := macro_list_push_ptr st.macro_list_ptr })

def cmd_layerdefblock (st : State) (_args : List Nat) : Int × State :=
  if st.block_type ≠ BLOCK_NONE then (ERR_INVALID_COMMAND, st)
  else (0, { st with block_type := BLOCK_LAYERDEF })

def cmd_remapblock (st : State) (_args : List Nat) : Int × State :=
  if st.block_type ≠ BLOCK_NONE then (ERR_INVALID_COMMAND, st)
  else (0, { st with block_type := BLOCK_REMAP })

def cmd_macroblock (st : State) (_args : List Nat) : Int × State :=
  if st.block_type ≠ BLOCK_NONE then (ERR_INVALID_COMMAND, st)
  else (0, { st with block_type := BLOCK_MACRO })

def cmd_invalid (env : Env) (st : State) (args : List Nat) : Int × State :=
  if st.block_type = BLOCK_LAYERDEF then cmd_layerdef st args
  else if st.block_type = BLOCK_REMAP then cmd_remap env st args
  else if st.block_type = BLOCK_MACRO then cmd_macrostep env st args
  else (ERR_INVALID_COMMAND, st)

/-! ## scas.c: block serialization -/

/-- The flags byte `fill_block_header` appends. -/
def flags_byte (st : State) : Nat :=
  (st.block_type ||| (st.current_select <<< 3) |||
   ((if st.current_scanset ≠ 0 then 1 else 0) <<< 6) |||
   ((if st.current_keyboard_id ≠ 0 then 1 else 0) <<< 7)) % 256

/-- The bytes `fill_block_header` appends, in order: the placeholder for the
size, the flags, the scanset when it is not 0, the keyboard id (low byte
first) when it is not 0. -/
def header_bytes (st : State) : List Nat :=
  [0, flags_byte st] ++
  (if st.current_scanset ≠ 0 then [st.current_scanset] else []) ++
  (if st.current_keyboard_id ≠ 0 then
     [st.current_keyboard_id &&& 255, (st.current_keyboard_id >>> 8) &&& 255]
   else [])

def fill_block_header (st : State) (b : Block) : Block :=
  (block_append_list b (header_bytes st)).1

/-- The two bytes appended for a 16-bit word `x`: `x >> 8`, then `x & 0xff`. -/
def word_bytes (x : Nat) : List Nat := [(x >>> 8) % 256, x &&& 255]

/-- The bytes `cmd_endlayerdefblock` appends after the header. -/
def layerdef_body (st : State) : List Nat :=
  (st.layerdef_list.length % 256) :: st.layerdef_list.flatMap word_bytes

/-- The bytes `cmd_endremapblock` appends after the header. -/
def remap_body (st : State) : List Nat :=
  st.current_layer :: (st.remap_list.length % 256) :: st.remap_list.flatMap word_bytes

/-- The bytes `cmd_endmacroblock` appends for one entry of the list. -/
def macro_bytes (m : Macro) : List Nat :=
  [m.hid_code, m.desired_meta, m.matched_meta, m.press_flags, m.release_flags] ++
  m.commands.flatMap word_bytes

/-- The bytes `cmd_endmacroblock` appends after the header. -/
def macro_body (st : State) : List Nat :=
  (st.macro_list.length % 256) :: st.macro_list.flatMap macro_bytes

/-- The statement `block->bytes[0] = block->len`. -/
def set_length (b : Block) : Block := { b with bytes := b.bytes.set 0 b.len }

def cmd_endlayerdefblock (st : State) (_args : List Nat) : Int × State :=
  let r := block_append_list (fill_block_header st block_alloc) (layerdef_body st)
  if r.2 then (ERR_BLOCK_TOO_LARGE, st)
  else (0, { st with block_list := st.block_list ++ [set_length r.1],
                     layerdef_list := [], block_type := BLOCK_NONE })

def cmd_endremapblock (st : State) (_args : List Nat) : Int × State :=
  let r := block_append_list (fill_block_header st block_alloc) (remap_body st)
  if r.2 then (ERR_BLOCK_TOO_LARGE, st)
  else (0, { st with block_list := st.block_list ++ [set_length r.1],
                     remap_list := [], block_type := BLOCK_NONE })

/-- The block is appended to the block list before `macro_list_clear` runs.
`macro_list_clear` calls `free(macro_list)` and sets `macro_list_len = 0`, but
leaves the address in `macro_list`: `free(NULL)` does nothing, a live block
becomes a released one, and on a released block the call is a second `free` of
the same block, which does not return (`UNDEFINED`); the assignments after it
are then not reached. -/
def cmd_endmacroblock (st : State) (_args : List Nat) : Int × State :=
  let r := block_append_list (fill_block_header st block_alloc) (macro_body st)
  if r.2 then (ERR_BLOCK_TOO_LARGE, st)
  else
    match st.macro_list_ptr with
    | .null =>
      (0, { st with block_list := st.block_list ++ [set_length r.1],
                    macro_list := [], block_type := BLOCK_NONE })
    | .live =>
      (0, { st with block_list := st.block_list ++ [set_length r.1],
                    macro_list := [], macro_list_ptr := .freed, block_type := BLOCK_NONE })
    | _ =>
      (UNDEFINED, { st with block_list := st.block_list ++ [set_length r.1],
                            macro_list_ptr := .undefined })

def cmd_endblock (st : State) (args : List Nat) : Int × State :=
  if st.block_type = BLOCK_LAYERDEF then cmd_endlayerdefblock st args
  else if st.block_type = BLOCK_REMAP then cmd_endremapblock st args
  else if st.block_type = BLOCK_MACRO then cmd_endmacroblock st args
  else (ERR_INVALID_COMMAND, st)

/-- The bytes `cmd_endblock` appends after the header, for the open block kind. -/
def block_body (st : State) : List Nat :=
  if st.block_type = BLOCK_LAYERDEF then layerdef_body st
  else if st.block_type = BLOCK_REMAP then remap_body st
  else macro_body st

/-- The number of bytes `cmd_endblock` has to append for the open block: the
length byte, the flags byte, the condition bytes and the body. -/
def block_size (st : State) : Nat := (header_bytes st).length + (block_body st).length

/-- The block a successful `cmd_endblock` appends to the block list. -/
def emitted_block (st : State) : Block :=
  { bytes := ((header_bytes st ++ block_body st).map (fun x => x % 256)).set 0 (block_size st),
    len := block_size st }

/-! ## scas.c: command dispatch and files -/

/-- The handlers a `command_fn` pointer can designate. -/
inductive command_fn where
  | force_fn | include_fn | select_fn | scanset_fn | keyboard_id_fn | remapblock_fn
  | layerdefblock_fn | macroblock_fn | layer_fn | macro_fn | onbreak_fn | endmacro_fn
  | endblock_fn | invalid_fn
deriving DecidableEq, Repr

def command_map : List (List Nat × command_fn) :=
  [ (bytes "force", .force_fn), (bytes "include", .include_fn),
    (bytes "ifselect", .select_fn), (bytes "ifset", .scanset_fn),
    (bytes "ifkeyboard", .keyboard_id_fn), (bytes "remapblock", .remapblock_fn),
    (bytes "layerblock", .layerdefblock_fn), (bytes "macroblock", .macroblock_fn),
    (bytes "layer", .layer_fn), (bytes "macro", .macro_fn),
    (bytes "onbreak", .onbreak_fn), (bytes "endmacro", .endmacro_fn),
    (bytes "endblock", .endblock_fn) ]

def find_command (cmd : List Nat) : command_fn :=
  match command_map.find? (fun e => e.1 == cmd) with
  | some e => e.2
  | none => .invalid_fn

/-- The call `fn(p)`; `incl` stands for `process_file`, which `cmd_include`
calls on the token of its argument. -/
def call_command (env : Env) (incl : Option (List Nat) → State → Int × State)
    (fn : command_fn) (st : State) (p : List Nat) : Int × State :=
  match fn with
  | .force_fn => cmd_force st p
  | .include_fn => incl (get_token p) st
  | .select_fn => cmd_select st p
  | .scanset_fn => cmd_scanset st p
  | .keyboard_id_fn => cmd_keyboard_id st p
  | .remapblock_fn => cmd_remapblock st p
  | .layerdefblock_fn => cmd_layerdefblock st p
  | .macroblock_fn => cmd_macroblock st p
  | .layer_fn => cmd_layer st p
  | .macro_fn => cmd_macro env st p
  | .onbreak_fn => cmd_onbreak st p
  | .endmacro_fn => cmd_endmacro st p
  | .endblock_fn => cmd_endblock st p
  | .invalid_fn => cmd_invalid env st p

/-- The line up to the comment character `#`. -/
def strip_comment (linebuf : List Nat) : List Nat := linebuf.takeWhile (fun c => c != 35)

def process_line (env : Env) (incl : Option (List Nat) → State → Int × State)
    (st : State) (linebuf : List Nat) : Int × State :=
  let line := strip_comment linebuf
  match get_token line with
  | none => (0, st)
  | some t =>
    let fn := find_command t
    call_command env incl fn st (if fn ≠ .invalid_fn then skip_token line else line)

/-- One `fgets(linebuf, n + 1, fp)`: at most `n` bytes, up to and including the
first newline; the result is the bytes read and the rest of the file. -/
def fgets : Nat → List Nat → List Nat × List Nat
  | 0, rest => ([], rest)
  | _ + 1, [] => ([], [])
  | n + 1, c :: rest =>
    if c = 10 then ([c], rest) else (c :: (fgets n rest).1, (fgets n rest).2)

/-- The successive results of `fgets(linebuf, 256, fp)` until end of file, each
as the C string it leaves in `linebuf` (cut at a NUL byte). -/
def file_lines : Nat → List Nat → List (List Nat)
  | 0, _ => []
  | _ + 1, [] => []
  | fuel + 1, c :: rest =>
    ((fgets 255 (c :: rest)).1.takeWhile (fun x => x != 0)) ::
      file_lines fuel (fgets 255 (c :: rest)).2

/-- The `while` loop of `process_file`: stop at the first line whose handler
returns an error. -/
def process_lines (pl : State → List Nat → Int × State) : State → List (List Nat) → Int × State
  | st, [] => (0, st)
  | st, l :: ls =>
    if (pl st l).1 ≠ 0 then pl st l else process_lines pl (pl st l).2 ls

/-- The function `process_file` of scas.c. `depth` is the number of files that
can still be opened one inside the other: `fopen` fails when the limit on open
files is reached. -/
def process_file (env : Env) : Nat → Option (List Nat) → State → Int × State
  | 0, _, st => (ERR_FILE_NOT_FOUND, st)
  | depth + 1, fname, st =>
    match env.fopen fname with
    | none => (ERR_FILE_NOT_FOUND, st)
    | some content =>
      process_lines (process_line env (process_file env depth)) st
        (file_lines content.length content)

/-- The bytes `write_target` writes: the header, then each block's first `len`
bytes. -/
def write_target (st : State) : List Nat :=
  [83, 67, 1, 1, st.current_force_flags, 0] ++
  st.block_list.flatMap (fun b => b.bytes.take b.len)

/-- The `for` loop of `write_target` over the blocks: `fwrite` returns the
number of bytes written, which is 0 for a block of length 0, and the loop stops
with `ERR_FILE_WRITE` there. The result is the return value and the bytes
written. -/
def write_blocks : List Block → Int × List Nat
  | [] => (0, [])
  | b :: bs =>
    if b.len = 0 then (ERR_FILE_WRITE, [])
    else ((write_blocks bs).1, b.bytes.take b.len ++ (write_blocks bs).2)

/-- The function `write_target`: its return value and the content of the file. -/
def write_target_file (st : State) : Int × List Nat :=
  ((write_blocks st.block_list).1,
   [83, 67, 1, 1, st.current_force_flags, 0] ++ (write_blocks st.block_list).2)

/-- The `for` loop of `main` over the input files, which stops at the first
file whose `process_file` returns an error. -/
def main_loop (env : Env) (depth : Nat) : List (List Nat) → State → Int × State
  | [], st => (0, st)
  | f :: fs, st =>
    if (process_file env depth (some f) st).1 ≠ 0 then process_file env depth (some f) st
    else main_loop env depth fs (process_file env depth (some f) st).2

/-- The function `main` of scas.c on the input files `inputs` (all arguments but
the last): the exit status and the content of the output file, if it was
opened. Without an input file `main` prints the usage and returns 0. A run in
which a released block was handed to `realloc` or to `free` has no result that
the C library defines: it is given `UNDEFINED` and no output. -/
def scas_main (env : Env) (depth : Nat) (inputs : List (List Nat)) : Int × Option (List Nat) :=
  if inputs = [] then (0, none)
  else if (main_loop env depth inputs State.init).2.macro_list_ptr = .undefined then
    (UNDEFINED, none)
  else if (main_loop env depth inputs State.init).1 ≠ 0 then (1, none)
  else if (write_target_file (main_loop env depth inputs State.init).2).1 ≠ 0 then
    (1, some (write_target_file (main_loop env depth inputs State.init).2).2)
  else (0, some (write_target_file (main_loop env depth inputs State.init).2).2)

/-- A block as `cmd_endblock` leaves it: `len` bytes are stored, the first of
them is `len`, and `len` lies between 3 and 255. -/
def block_ok (b : Block) : Prop :=
  b.len = b.bytes.length ∧ b.bytes.head? = some b.bytes.length ∧
  3 ≤ b.bytes.length ∧ b.bytes.length ≤ 255

instance (b : Block) : Decidable (block_ok b) := by
  unfold block_ok; infer_instance

/-- The relation between a state and a later one: the block list has only
grown at its end, and its blocks are well formed if they were. -/
def grows (st st1 : State) : Prop :=
  st.block_list <+: st1.block_list ∧
  ((∀ b ∈ st.block_list, block_ok b) → ∀ b ∈ st1.block_list, block_ok b)

/-- Assembling one document given as text, from the initial state: the return
code of the line loop and the final state. -/
def assemble (env : Env) (depth : Nat) (text : List Nat) : Int × State :=
  process_lines (process_line env (process_file env depth)) State.init
    (file_lines text.length text)

/-! ## scdis.c -/

namespace Scdis

/-- The byte `buf[i]`. The file is read into a static, zero-initialised array,
so a byte past the bytes read is 0. -/
def rd (buf : List Nat) (i : Nat) : Nat := buf.getD i 0

/-- The conversion `%d`, `%u` or `%lu` of a natural. -/
def dec (n : Nat) : List Nat := (Nat.toDigits 10 n).map Char.toNat

/-- One upper-case hexadecimal digit. -/
def hex_char (d : Nat) : Nat := if d < 10 then 48 + d else 55 + d

/-- The conversion `%02X` of a byte. -/
def hex2 (n : Nat) : List Nat := [hex_char (n / 16 % 16), hex_char (n % 16)]

/-- The conversion `%04X` of an `unsigned short`. -/
def hex4 (n : Nat) : List Nat := hex2 (n / 256 % 256) ++ hex2 (n % 256)

def protocols : List (List Nat) := [bytes "xt", bytes "at"]

def sets : List (List Nat) :=
  [bytes "set1", bytes "set2", bytes "set3", bytes "set2ext", bytes "INVALIDSET",
   bytes "INVALIDSET", bytes "INVALIDSET", bytes "INVALIDSET"]

def metas : List (List Nat) := [bytes "CTRL", bytes "SHIFT", bytes "ALT", bytes "GUI"]

def hmetas : List (List Nat) :=
  [bytes "LCTRL", bytes "LSHIFT", bytes "LALT", bytes "LGUI",
   bytes "RCTRL", bytes "RSHIFT", bytes "RALT", bytes "RGUI"]

def string_append (s : Option (List Nat)) (s1 : Option (List Nat)) (with_space : Bool) :
    Option (List Nat) :=
  match s1 with
  | none => s
  | some [] => s
  | some t => some (s.getD [] ++ t ++ (if with_space then [32] else []))

def get_force_set (force : Nat) : List Nat :=
  if 1 ≤ force &&& 15 ∧ force &&& 15 ≤ 4 then sets.getD ((force &&& 15) - 1) [] else bytes "ERROR"

def get_force_protocol (force : Nat) : List Nat :=
  if 1 ≤ (force &&& 240) >>> 4 ∧ (force &&& 240) >>> 4 ≤ 2 then
    protocols.getD (((force &&& 240) >>> 4) - 1) []
  else bytes "ERROR"

/-- The loop of `get_ifset`: `n` iterations are left, `i` is the index. -/
def get_ifset_loop : Nat → Nat → Nat → Option (List Nat) → Option (List Nat)
  | 0, _, _, ret => ret
  | n + 1, i, ifset, ret =>
    if ifset = 0 then ret
    else get_ifset_loop n (i + 1) (ifset >>> 1)
           (if ifset &&& 1 ≠ 0 then string_append ret (sets.get? i) true else ret)

def get_ifset (ifset : Nat) : Option (List Nat) :=
  if ifset = 0 then some (bytes "any") else get_ifset_loop 8 0 ifset none

/-- The first loop of `get_macro_match_metas`, `n` iterations left: the result
is the string and the updated `desired` and `matched`. -/
def match_metas_unhanded (unhanded : Nat) :
    Nat → Nat → Option (List Nat) → Nat → Nat → Option (List Nat) × Nat × Nat
  | 0, _, ret, desired, matched => (ret, desired, matched)
  | n + 1, i, ret, desired, matched =>
    if unhanded &&& ((1 <<< (i + 4)) ||| (1 <<< i)) ≠ 0 then
      match_metas_unhanded unhanded n (i + 1) (string_append ret (metas.get? i) true)
        (desired &&& (255 - ((1 <<< (i + 4)) ||| (1 <<< i))))
        (matched &&& (255 - ((1 <<< (i + 4)) ||| (1 <<< i))))
    else match_metas_unhanded unhanded n (i + 1) ret desired matched

/-- The second loop of `get_macro_match_metas`, `n` iterations left. -/
def match_metas_handed (desired matched : Nat) :
    Nat → Nat → Option (List Nat) → Option (List Nat)
  | 0, _, ret => ret
  | n + 1, i, ret =>
    if matched &&& (1 <<< i) ≠ 0 then
      match_metas_handed desired matched n (i + 1)
        (string_append
          (if desired &&& (1 <<< i) = 0 then string_append ret (some [45]) false else ret)
          (hmetas.get? i) true)
    else match_metas_handed desired matched n (i + 1) ret

def get_macro_match_metas (desired matched : Nat) : Option (List Nat) :=
  let r := match_metas_unhanded ((desired &&& (255 - matched)) &&& 240) 4 0 none desired matched
  match_metas_handed r.2.1 r.2.2 8 0 r.1

/-- The read `metas[i]` of `get_macrostep_metas`: the array has 4 entries. -/
def metas_read (env : Env) (i : Nat) : Option (List Nat) :=
  if i < 4 then metas.get? i else env.metas_overrun i

/-- The loop of `get_macrostep_metas`, `n` iterations left. -/
def get_macrostep_metas_loop (env : Env) (val : Nat) :
    Nat → Nat → Option (List Nat) → Option (List Nat)
  | 0, _, ret => ret
  | n + 1, i, ret =>
    if val &&& (1 <<< i) ≠ 0 then
      match string_append ret (metas_read env i) true with
      | none => none
      | some r => get_macrostep_metas_loop env val n (i + 1) (some r)
    else get_macrostep_metas_loop env val n (i + 1) ret

def get_macrostep_metas (env : Env) (val : Nat) : Option (List Nat) :=
  get_macrostep_metas_loop env val 8 0 none

def get_macrostep (env : Env) (cmd val : Nat) : Option (List Nat) :=
  let argtype := get_macro_arg_type cmd
  let r0 := if cmd &&& 128 ≠ 0 then string_append none (some (bytes "PUSH_META ")) false else none
  match string_append r0 (some (lookup_macro_token_by_value ((cmd &&& 127 : Nat) : Int))) true with
  | none => none
  | some r =>
    if argtype = MACRO_ARG_NONE then some r
    else if argtype = MACRO_ARG_HID then
      string_append (some r) (some (env.lookup_hid_token_by_value val)) true
    else if argtype = MACRO_ARG_META then
      string_append (some r) (get_macrostep_metas env val) true
    else if argtype = MACRO_ARG_DELAY then string_append (some r) (some (dec val)) false
    else string_append (some r) (some (bytes "INVALID")) false

/-- The `while (fn)` loop of `process_layerblock`, which prints `FNj ` for
every set bit; `n` iterations are left. -/
def fn_names : Nat → Nat → Nat → List Nat
  | 0, _, _ => []
  | n + 1, fn, j =>
    if fn = 0 then []
    else (if fn &&& 1 ≠ 0 then bytes "FN" ++ dec j ++ [32] else []) ++
         fn_names n (fn >>> 1) (j + 1)

/-- The `for` loop of `process_layerblock` from index `i`, `n` iterations left;
`b` is the offset of the body in `buf`. -/
def layer_lines (buf : List Nat) (b buflen : Nat) : Nat → Nat → List Nat
  | 0, _ => []
  | n + 1, i =>
    if i < buflen then
      [9] ++ fn_names 8 (rd buf (b + i)) 1 ++ dec (rd buf (b + i + 1)) ++ [10] ++
      layer_lines buf b buflen n (i + 2)
    else []

/-- The body is `buf[b .. bufend)`; the result is the return value and the
text printed. -/
def process_layerblock (buf : List Nat) (b bufend : Nat) : Nat × List Nat :=
  let buflen := bufend - b
  let out := bytes "layerblock\n" ++ bytes "# count: " ++ dec buflen ++ [10]
  if buflen < 2 ∨ buflen ≠ (rd buf b <<< 1) + 1 then
    (1, out ++ bytes "# ERROR: block size mismatch\n")
  else (0, out ++ layer_lines buf b buflen buflen 1)

/-- The `for` loop of `process_remapblock` from index `i`, `n` iterations left. -/
def remap_lines (env : Env) (buf : List Nat) (b buflen : Nat) : Nat → Nat → List Nat
  | 0, _ => []
  | n + 1, i =>
    if i < buflen then
      [9] ++ env.lookup_hid_token_by_value (rd buf (b + i)) ++ [32] ++
      env.lookup_hid_token_by_value (rd buf (b + i + 1)) ++ [10] ++
      remap_lines env buf b buflen n (i + 2)
    else []

def process_remapblock (env : Env) (buf : List Nat) (b bufend : Nat) : Nat × List Nat :=
  let buflen := bufend - b
  let out := bytes "remapblock\n"
  if buflen < 2 ∨ buflen ≠ (rd buf (b + 1) <<< 1) + 2 then
    (1, out ++ bytes "# ERROR: block size mismatch\n")
  else
    (0, out ++ bytes "# count: " ++ dec (rd buf (b + 1)) ++ [10] ++
        bytes "layer " ++ dec (rd buf b) ++ [10] ++ remap_lines env buf b buflen buflen 2)

/-- A loop over `n` macro steps starting at index `j` of the record at offset
`b`, printing after `out`: the text printed, and `false` when `get_macrostep`
returned NULL and the loop was left. -/
def step_lines (env : Env) (buf : List Nat) (b : Nat) : Nat → Nat → List Nat → Bool × List Nat
  | 0, _, out => (true, out)
  | n + 1, j, out =>
    match get_macrostep env (rd buf (b + j)) (rd buf (b + j + 1)) with
    | none => (false, out)
    | some s => step_lines env buf b n (j + 2) (out ++ [9] ++ s ++ [10])

/-- The record is `buf[b .. bufend)`; the result is the return value and the
text printed. -/
def process_macro (env : Env) (buf : List Nat) (b bufend : Nat) : Nat × List Nat :=
  let buflen := bufend - b
  let endm := bytes "endmacro\n"
  if buflen < 5 then (1, bytes "# ERROR: macro truncated\n" ++ endm)
  else
    match get_macro_match_metas (rd buf (b + 1)) (rd buf (b + 2)) with
    | none => (1, endm)
    | some s =>
      let out := bytes "macro " ++ env.lookup_hid_token_by_value (rd buf b) ++ [32] ++ s ++
                 bytes " # " ++ hex2 (rd buf (b + 1)) ++ [32] ++ hex2 (rd buf (b + 2)) ++ [10]
      let np := rd buf (b + 3) &&& 63
      let nr := rd buf (b + 4) &&& 63
      if buflen < 5 + ((np + nr) <<< 1) then
        (1, out ++ bytes "# ERROR: macro size mismatch\n" ++ endm)
      else
        let p := step_lines env buf b np 5 out
        if p.1 = false then (1, p.2 ++ endm)
        else
          let out2 :=
            if nr ≠ 0 then
              p.2 ++ bytes "onbreak" ++
                (if rd buf (b + 4) &&& 64 ≠ 0 then [] else bytes " norestoremeta") ++ [10]
            else p.2
          let q := step_lines env buf b nr (5 + 2 * np) out2
          if q.1 = false then (1, q.2 ++ endm) else (0, q.2 ++ endm)

/-- The `for` loop of `process_macroblock`: `n` macros are left, `i` is the
number of the macro, `j` its index in the body at offset `b`. -/
def macro_records (env : Env) (buf : List Nat) (b : Nat) : Nat → Nat → Nat → Nat × List Nat
  | 0, _, _ => (0, [])
  | n + 1, i, j =>
    let macrolen := 5 + ((rd buf (b + j + 3) &&& 63) <<< 1) + ((rd buf (b + j + 4) &&& 63) <<< 1)
    let r := process_macro env buf (b + j) (b + j + macrolen)
    if r.1 ≠ 0 then
      (1, r.2 ++ bytes "# ERROR: process_macro() failed on macro #" ++ dec i ++ [10])
    else
      ((macro_records env buf b n (i + 1) (j + macrolen)).1,
       r.2 ++ (macro_records env buf b n (i + 1) (j + macrolen)).2)

def process_macroblock (env : Env) (buf : List Nat) (b bufend : Nat) : Nat × List Nat :=
  let buflen := bufend - b
  let out := bytes "macroblock\n"
  if buflen < rd buf b * 5 then (1, out ++ bytes "# ERROR: block size mismatch\n")
  else
    let r := macro_records env buf b (rd buf b) 0 1
    (r.1, out ++ bytes "# macro count: " ++ dec (rd buf b) ++ [10] ++ r.2)

/-- The block starts at offset `o` of `buf`; the result is the return value and
the text printed. -/
def process_block (env : Env) (buf : List Nat) (o buflen : Nat) : Nat × List Nat :=
  let flags := rd buf (o + 1)
  let out := bytes "# block length: " ++ dec buflen ++ [10]
  let endb := bytes "endblock\n"
  if buflen < 2 + ((flags &&& 192) >>> 6) then (1, out ++ bytes "# ERROR: block truncated\n" ++ endb)
  else if buflen ≠ rd buf o then (1, out ++ bytes "# ERROR: block size mismatch\n" ++ endb)
  else
    let s := if flags &&& 64 ≠ 0 then get_ifset (rd buf (o + 2)) else some []
    match s with
    | none => (1, out)
    | some s =>
      let out1 := if flags &&& 64 ≠ 0 then out ++ bytes "ifset " ++ s ++ [10] else out
      let i := if flags &&& 64 ≠ 0 then 3 else 2
      let out2 :=
        if flags &&& 128 ≠ 0 then
          out1 ++ bytes "ifkeyboard " ++
            hex4 (((rd buf (o + i + 1) <<< 8) ||| rd buf (o + i)) % 65536) ++ [10]
        else out1 ++ bytes "ifkeyboard any\n"
      let i2 := if flags &&& 128 ≠ 0 then i + 2 else i
      let out3 :=
        if flags &&& 56 ≠ 0 then out2 ++ bytes "ifselect " ++ dec ((flags &&& 56) >>> 3) ++ [10]
        else out2 ++ bytes "ifselect any\n"
      let r :=
        if flags &&& 7 = BLOCK_LAYERDEF then process_layerblock buf (o + i2) (o + buflen)
        else if flags &&& 7 = BLOCK_REMAP then process_remapblock env buf (o + i2) (o + buflen)
        else if flags &&& 7 = BLOCK_MACRO then process_macroblock env buf (o + i2) (o + buflen)
        else if flags &&& 7 = BLOCK_NONE then (0, [])
        else (1, bytes "# ERROR: invalid block type " ++ dec (flags &&& 7) ++ [10])
      (r.1, out3 ++ r.2 ++ endb)

/-- The result of `process_file`: the return value, the text printed, and the
offsets at which `process_block` was called, in order. -/
structure Result where
  ret : Nat
  out : List Nat
  visited : List Nat
deriving DecidableEq, Repr

/-- The `for` loop of `process_file` from offset `i`, with at most `fuel` tests
of the loop condition: `none` when they do not suffice to leave the loop. -/
def blocks_loop (env : Env) (buf : List Nat) (buflen : Nat) : Nat → Nat → Result → Option Result
  | 0, _, _ => none
  | fuel + 1, i, r =>
    if i < buflen then
      if rd buf i = 0 then some { r with out := r.out ++ bytes "ERROR: block length is zero!\n" }
      else
        blocks_loop env buf buflen fuel (i + rd buf i)
          { ret := r.ret ||| (process_block env buf i (rd buf i)).1,
            out := r.out ++ (process_block env buf i (rd buf i)).2,
            visited := r.visited ++ [i] }
    else some r

/-- The text `process_file` prints before the block loop. -/
def header_text (buf : List Nat) (buflen : Nat) : List Nat :=
  bytes "# length: " ++ dec buflen ++ [10] ++
  bytes "# signature: " ++ [rd buf 0, 32, rd buf 1, 10] ++
  bytes "# version: " ++ dec (rd buf 2) ++ [32] ++ dec (rd buf 3) ++ [10] ++
  (if rd buf 4 &&& 15 ≠ 0 then bytes "force " ++ get_force_set (rd buf 4) ++ [10] else []) ++
  (if rd buf 4 &&& 240 ≠ 0 then bytes "force " ++ get_force_protocol (rd buf 4) ++ [10] else [])

/-- The function `process_file` of scdis.c on the array `buf`, of which the
first `buflen` bytes were read from the file, with at most `fuel` tests of the
loop condition. -/
def process_file_fuel (env : Env) (fuel : Nat) (buf : List Nat) (buflen : Nat) : Option Result :=
  blocks_loop env buf buflen fuel 6 { ret := 0, out := header_text buf buflen, visited := [] }

/-- The function `process_file` of scdis.c, with as many tests of the loop
condition as there are bytes, plus one. -/
def process_file (env : Env) (buf : List Nat) (buflen : Nat) : Option Result :=
  process_file_fuel env (buflen + 1) buf buflen

def FILE_BUFSIZ : Nat := 16384

/-- The call of `process_file` in `main`: `fread` stores at most `FILE_BUFSIZ`
bytes of the file and returns their number. -/
def disassemble (env : Env) (file : List Nat) : Option Result :=
  process_file env (file.take FILE_BUFSIZ) (min file.length FILE_BUFSIZ)

end Scdis

/-! ## Sample states and inputs -/

/-- A sample environment. The key and modifier names are those of the examples,
with their USB HID usage codes and modifier bits; there is no file to open,
and a read past the end of `metas` yields NULL. -/
def sample_env : Env :=
  { lookup_hid_token_by_name := fun n =>
      if n = some (bytes "A") then 4 else if n = some (bytes "B") then 5
      else if n = some (bytes "CAPSLOCK") then 57 else if n = some (bytes "ESC") then 41
      else INVALID_NUMBER,
    lookup_hid_token_by_value := fun v =>
      if v = 4 then bytes "A" else if v = 5 then bytes "B"
      else if v = 57 then bytes "CAPSLOCK" else if v = 41 then bytes "ESC"
      else bytes "INVALID",
    lookup_meta_token := fun n =>
      if n = bytes "LCTRL" then 1 else if n = bytes "LSHIFT" then 2
      else if n = bytes "LALT" then 4 else if n = bytes "LGUI" then 8
      else if n = bytes "RCTRL" then 16 else if n = bytes "RSHIFT" then 32
      else if n = bytes "RALT" then 64 else if n = bytes "RGUI" then 128
      else if n = bytes "CTRL" then 17 else if n = bytes "SHIFT" then 34
      else if n = bytes "ALT" then 68 else if n = bytes "GUI" then 136
      else INVALID_NUMBER,
    fopen := fun _ => none,
    metas_overrun := fun _ => none }


/-- A state with an open layerdef block of `n` entries under scanset `c`. -/
def layerdef_state (c n : Nat) : State :=
  { State.init with block_type := BLOCK_LAYERDEF, current_scanset := c,
                    layerdef_list := List.replicate n (pair 1 1) }

/-- A state with an open layerdef block of one entry under select 3, scanset 2
and keyboard id 0x1234. -/
def header_state : State :=
  { State.init with block_type := BLOCK_LAYERDEF, current_select := 3, current_scanset := 2,
                    current_keyboard_id := 4660, layerdef_list := [pair 1 1] }

/-- A macroblock holding one macro on `A` with `n` press steps `PRESS B`. -/
def press_doc (n : Nat) : List Nat :=
  bytes "macroblock\nmacro A\n" ++ (List.replicate n (bytes "\tPRESS B\n")).flatten ++
  bytes "endmacro\nendblock\n"

/-- A layerblock of `n` entries `FN1 1`, after the lines `pre`. -/
def layerdef_doc (pre : List Nat) (n : Nat) : List Nat :=
  pre ++ bytes "layerblock\n" ++ (List.replicate n (bytes "FN1 1\n")).flatten ++
  bytes "endblock\n"

/-- The states reached while assembling the remap example. -/
def remap_state (t layer : Nat) (l : List Nat) : State :=
  { State.init with current_scanset := 3, block_type := t, current_layer := layer,
                    remap_list := l }

/-- The states reached while assembling the macro example. -/
def macro_example_state (t : Nat) (phase : Int) (release_meta hid dm mm : Nat)
    (press release : List Nat) (macros : List Macro) (blocks : List Block) : State :=
  { State.init with block_type := t, current_macro_phase := phase,
                    current_macro_release_meta := release_meta,
                    current_hid_code := hid, current_desired_meta := dm,
                    current_matched_meta := mm, press_mcmd_list := press,
                    release_mcmd_list := release, macro_list := macros, block_list := blocks }

/-- An environment that agrees with `env` except that the names `A`, `B` and
`LCTRL` resolve to `a`, `b` and `m`. -/
def env_with (env : Env) (a b m : Int) : Env :=
  { env with
    lookup_hid_token_by_name := fun n =>
      if n = some (bytes "A") then a else if n = some (bytes "B") then b
      else env.lookup_hid_token_by_name n,
    lookup_meta_token := fun n =>
      if n = bytes "LCTRL" then m else env.lookup_meta_token n }

/-- An environment that agrees with `env` except that the codes 4 and 5 have the
names `A` and `B`. -/
def env_with_values (env : Env) : Env :=
  { env with
    lookup_hid_token_by_value := fun v =>
      if v = 4 then bytes "A" else if v = 5 then bytes "B"
      else env.lookup_hid_token_by_value v }

/-- The macro example of the specification. -/
def macro_example_doc : List Nat :=
  bytes "macroblock\nmacro A LCTRL\n\tPRESS B\nonbreak\n\tBREAK B\nendmacro\nendblock\n"

/-- The text the disassembler prints for the assembled macro example when the
codes of `A` and `B` are 4 and 5. -/
def macro_example_text : List Nat :=
  bytes "# length: 18\n# signature: S C\n# version: 1 1\n# block length: 12\n" ++
  bytes "ifkeyboard any\nifselect any\nmacroblock\n# macro count: 1\n" ++
  bytes "macro A LCTRL  # 01 01\n\tPRESS B \nonbreak norestoremeta\n\tBREAK B \n" ++
  bytes "endmacro\nendblock\n"

/-- The sample environment with two files: `a.sc` holds the macro example and
`b.sc` the remap example. -/
def sample_files_env : Env :=
  { sample_env with
    fopen := fun n =>
      if n = some (bytes "a.sc") then some macro_example_doc
      else if n = some (bytes "b.sc") then
        some (bytes "ifset set1 set2\nremapblock\nlayer 2\nCAPSLOCK ESC\nendblock\n")
      else none }

/-- A macroblock with one macro, followed by an empty macroblock. -/
def two_macroblocks_doc : List Nat :=
  bytes "macroblock\nmacro A\nendmacro\nendblock\nmacroblock\nendblock\n"

/-- The sample environment with the file `two.sc`, which holds
`two_macroblocks_doc`. -/
def two_macroblocks_env : Env :=
  { sample_env with
    fopen := fun n => if n = some (bytes "two.sc") then some two_macroblocks_doc else none }

/-- The select, scanset and keyboard-id conditions of `st1` are those of `st`. -/
def same_conditions (st st1 : State) : Prop :=
  st1.current_select = st.current_select ∧ st1.current_scanset = st.current_scanset ∧
  st1.current_keyboard_id = st.current_keyboard_id

/-- The line is no condition directive (`ifselect`, `ifset`, `ifkeyboard`), and
when it is an `include`, `q` holds of the file name that `cmd_include` reads
from it. -/
def quiet_line (q : Option (List Nat) → Bool) (linebuf : List Nat) : Bool :=
  match get_token (strip_comment linebuf) with
  | none => true
  | some t =>
    match find_command t with
    | .select_fn => false
    | .scanset_fn => false
    | .keyboard_id_fn => false
    | .include_fn => q (get_token (skip_token (strip_comment linebuf)))
    | _ => true

/-- No line of the file `fname` is a condition directive, nor is any line of
the files it includes, as far as `process_file` opens them with `depth` files
left to open. -/
def quiet_file (env : Env) : Nat → Option (List Nat) → Bool
  | 0, _ => true
  | depth + 1, fname =>
    match env.fopen fname with
    | none => true
    | some content => (file_lines content.length content).all (quiet_line (quiet_file env depth))

/-! ## Error report of scas.c -/

def N_ERR_MESSAGES : Int := 7

def err_messages : List (List Nat) :=
  [bytes "unknown error\n", bytes "file not found\n", bytes "invalid command\n",
   bytes "invalid arguments\n", bytes "block too large\n", bytes "macro too long\n",
   bytes "unable to open file for writing\n"]

/-- The text `print_error` writes to stderr: `none` when the index it uses lies
outside the array `err_messages`. -/
def print_error (err : Int) : Option (List Nat) :=
  let e := if err = 0 ∨ err ≥ N_ERR_MESSAGES then 0 else err
  if 0 ≤ e then err_messages.get? e.toNat else none

/-- An environment with the source `bad.sc`, whose fourth line is an
`ifkeyboard` directive with the identifier 0, the source `good.sc`, which is
`bad.sc` without that line, and the source `b.sc`. -/
def error_files_env : Env :=
  { sample_env with
    fopen := fun n =>
      if n = some (bytes "bad.sc") then
        some (bytes "layerblock\nFN1 1\nendblock\nifkeyboard 0\nlayerblock\nFN2 2\nendblock\n")
      else if n = some (bytes "good.sc") then
        some (bytes "layerblock\nFN1 1\nendblock\nlayerblock\nFN2 2\nendblock\n")
      else if n = some (bytes "b.sc") then
        some (bytes "ifset set1 set2\nremapblock\nlayer 2\nCAPSLOCK ESC\nendblock\n")
      else none }

/-! ## Tokens and values of the modifier round trip -/

/-- The end of the token that starts `p1`, as `get_token` computes it. -/
def token_end (p1 : List Nat) : List Nat :=
  match p1 with
  | 34 :: q => skip_to_end_quote q
  | _ => skip_non_whitespace p1

/-- The end of the token that starts `p1`, as `skip_token` computes it. -/
def token_skip (p1 : List Nat) : List Nat :=
  match p1 with
  | 34 :: q => (match skip_to_end_quote q with | 34 :: r => r | r => r)
  | _ => skip_non_whitespace p1

/-- A name as the modifier tables hold them: not empty, no whitespace in it, and
its first character is neither a quote nor a minus sign. -/
def plain_name (n : List Nat) : Bool :=
  match n with
  | [] => false
  | c :: cs => c != 34 && c != 45 && !isspace c && cs.all (fun x => !isspace x)

/-- Modelled from the spec: hid_tokens.c is not part of the sources at hand; the
modifier table maps the left names to the bits 0..3, the right names to the
bits 4..7 and the names without a side to both bits of their pair. -/
def meta_token_list : List (List Nat × Int) :=
  [(bytes "LCTRL", 1), (bytes "LSHIFT", 2), (bytes "LALT", 4), (bytes "LGUI", 8),
   (bytes "RCTRL", 16), (bytes "RSHIFT", 32), (bytes "RALT", 64), (bytes "RGUI", 128),
   (bytes "CTRL", 17), (bytes "SHIFT", 34), (bytes "ALT", 68), (bytes "GUI", 136)]

/-- The values that parsing the names printed by the first loop of
`get_macro_match_metas` accumulates, `n` iterations left. -/
def unhanded_vals (unhanded : Nat) : Nat → Nat → Nat × Nat → Nat × Nat
  | 0, _, a => a
  | n + 1, i, a =>
    if unhanded &&& ((1 <<< (i + 4)) ||| (1 <<< i)) ≠ 0 then
      unhanded_vals unhanded n (i + 1) (a.1 ||| ((1 <<< (i + 4)) ||| (1 <<< i)), a.2 ||| (1 <<< i))
    else unhanded_vals unhanded n (i + 1) a

/-- The values that parsing the names printed by the second loop of
`get_macro_match_metas` accumulates, `n` iterations left. -/
def handed_vals (desired matched : Nat) : Nat → Nat → Nat × Nat → Nat × Nat
  | 0, _, a => a
  | n + 1, i, a =>
    if matched &&& (1 <<< i) ≠ 0 then
      handed_vals desired matched n (i + 1)
        (if desired &&& (1 <<< i) = 0 then (a.1 - (a.1 &&& (1 <<< i)), a.2 ||| (1 <<< i))
         else (a.1 ||| (1 <<< i), a.2 ||| (1 <<< i)))
    else handed_vals desired matched n (i + 1) a

/-- The text `s` holds `k` modifier tokens, and parsing it in front of any
text `X` leaves `X` to parse with the values `a`. -/
def parses_to (env : Env) (s : List Nat) (k : Nat) (a : Nat × Nat) : Prop :=
  ∀ fuel X, skip_whitespace X = X →
    parse_meta_match_loop env (fuel + k) (s ++ X) 0 0 =
      parse_meta_match_loop env fuel X (a.1 : Int) (a.2 : Int)

/-- The string built so far by `get_macro_match_metas` parses to the values `a`. -/
def acc_ok (env : Env) (ret : Option (List Nat)) (k : Nat) (a : Nat × Nat) : Prop :=
  k ≤ (ret.getD []).length ∧ parses_to env (ret.getD []) k a ∧ (ret = none → a = (0, 0))

/-! ## Reads, values and offsets used by the round-trip statements -/

/-- The indices at which the loop of `get_macrostep_metas` reads the array
`metas`, in order; `n` iterations are left, `i` is the index. -/
def metas_reads (env : Env) (val : Nat) : Nat → Nat → Option (List Nat) → List Nat
  | 0, _, _ => []
  | n + 1, i, ret =>
    if val &&& (1 <<< i) ≠ 0 then
      i :: (match Scdis.string_append ret (Scdis.metas_read env i) true with
            | none => []
            | some r => metas_reads env val n (i + 1) (some r))
    else metas_reads env val n (i + 1) ret

/-- The value of `fn_combo` after the loop of `cmd_layerdef` has read the names
that `fn_names` prints, starting from `acc`. -/
def fn_acc : Nat → Nat → Nat → Nat → Nat
  | 0, _, _, acc => acc
  | n + 1, fn, j, acc =>
    if fn = 0 then acc
    else fn_acc n (fn >>> 1) (j + 1) (if fn &&& 1 ≠ 0 then acc ||| ((1 <<< (j - 1)) % 256) else acc)

/-- The offsets at which the blocks `bs` start in the output file, the first of
them at `o`. -/
def block_offsets : Nat → List Block → List Nat
  | _, [] => []
  | o, b :: bs => o :: block_offsets (o + b.len) bs

/-- The block loop of scdis `process_file` run over the blocks `bs`, the first
of them at offset `o`: one call of `process_block` per block, with the block's
length, and no other output. -/
def walk_blocks (env : Env) (buf : List Nat) : List Block → Nat → Scdis.Result → Scdis.Result
  | [], _, r => r
  | b :: bs, o, r =>
    walk_blocks env buf bs (o + b.len)
      { ret := r.ret ||| (Scdis.process_block env buf o b.len).1,
        out := r.out ++ (Scdis.process_block env buf o b.len).2,
        visited := r.visited ++ [o] }

/-! ## Helper lemmas -/

theorem process_lines_cons_ok (pl : State → List Nat → Int × State) (st st1 : State)
    (l : List Nat) (ls : List (List Nat)) (h : pl st l = (0, st1)) :
    process_lines pl st (l :: ls) = process_lines pl st1 ls := by
  rw [process_lines, h]; simp

theorem env_with_eq (env : Env) (a b m : Int)
    (ha : env.lookup_hid_token_by_name (some (bytes "A")) = a)
    (hb : env.lookup_hid_token_by_name (some (bytes "B")) = b)
    (hm : env.lookup_meta_token (bytes "LCTRL") = m) : env_with env a b m = env := by
  cases env
  simp only [env_with, Env.mk.injEq, and_true, true_and] at *
  constructor
  · funext n; split_ifs with h1 h2
    · rw [h1, ha]
    · rw [h2, hb]
    · rfl
  · funext n; split_ifs with h1
    · rw [h1, hm]
    · rfl

theorem env_with_values_eq (env : Env)
    (ha : env.lookup_hid_token_by_value 4 = bytes "A")
    (hb : env.lookup_hid_token_by_value 5 = bytes "B") : env_with_values env = env := by
  cases env
  simp only [env_with_values, Env.mk.injEq, and_true, true_and] at *
  funext v; split_ifs with h1 h2
  · rw [h1, ha]
  · rw [h2, hb]
  · rfl

/-- The expression `x - (x & m)` of `and_not` agrees with `x & ~m` on the
integers from -16 to 15. -/
theorem and_not_agrees :
    ∀ x : Fin 32, ∀ m : Fin 32,
      and_not ((x.val : Int) - 16) ((m.val : Int) - 16) =
        Int.land ((x.val : Int) - 16) (Int.not ((m.val : Int) - 16)) := by
  decide!

theorem u8_natCast (n : Nat) : u8 (n : Int) = n % 256 := by
  unfold u8; omega

theorem natCast_ne_invalid (n : Nat) : (n : Int) ≠ INVALID_NUMBER := by
  unfold INVALID_NUMBER; omega

theorem shl8_or (x y : Nat) (hy : y < 256) : x <<< 8 ||| y = 256 * x + y := by
  have h := Nat.mul_add_lt_is_or (i := 8) (b := y) (by simpa using hy) x
  rw [Nat.shiftLeft_eq, Nat.mul_comm]
  simpa using h.symm

theorem and_255 (x : Nat) : x &&& 255 = x % 256 := Nat.and_pow_two_sub_one_eq_mod x 8

theorem word_bytes_pair (a b : Nat) : word_bytes (pair a b) = [a % 256, b % 256] := by
  have hb : b % 256 < 256 := Nat.mod_lt _ (by decide)
  unfold word_bytes pair
  rw [shl8_or _ _ hb, Nat.shiftRight_eq_div_pow, and_255]
  simp only [List.cons.injEq, and_true]
  constructor <;> omega

/-- Appending bytes that fit below 256 never takes `goto ret`. -/
theorem block_append_list_fits (xs : List Nat) :
    ∀ b : Block, b.len + xs.length ≤ 255 →
      block_append_list b xs =
        ({ bytes := b.bytes ++ xs.map (fun x => x % 256), len := b.len + xs.length }, false) := by
  induction xs with
  | nil => intro b _; simp [block_append_list]
  | cons x xs ih =>
    intro b h
    simp only [List.length_cons] at h
    have h1 : (b.len + 1) % 256 = b.len + 1 := Nat.mod_eq_of_lt (by omega)
    have h2 : (block_append b x).2 = false := by
      simp only [block_append, h1]; simp
    have h3 : (block_append b x).1 = { bytes := b.bytes ++ [x % 256], len := b.len + 1 } := by
      simp only [block_append, h1]
    rw [block_append_list, h2, h3]
    simp only [Bool.false_eq_true, if_false]
    rw [ih _ (by simp only; omega)]
    simp only [List.map_cons, List.length_cons, List.append_assoc, List.singleton_append,
      Prod.mk.injEq, Block.mk.injEq, true_and, and_true]
    omega

/-- Appending bytes that reach 256 takes `goto ret`. -/
theorem block_append_list_overflows (xs : List Nat) :
    ∀ b : Block, b.len ≤ 255 → 256 ≤ b.len + xs.length → (block_append_list b xs).2 = true := by
  induction xs with
  | nil => intro b h1 h2; simp only [List.length_nil] at h2; omega
  | cons x xs ih =>
    intro b h1 h2
    simp only [List.length_cons] at h2
    rw [block_append_list]
    by_cases h : (block_append b x).2 = true
    · simp only [h, if_true]
    · simp only [h, if_false]
      have h3 : (b.len + 1) % 256 ≠ 0 := by
        intro h0; apply h; simp [block_append, h0]
      have h4 : ((block_append b x).1).len = b.len + 1 := by
        simp only [block_append]; omega
      exact ih _ (by omega) (by omega)

/-- Appending bytes that reach 256 stores 256 bytes before it takes `goto ret`:
the last of them lies at index 255. -/
theorem block_append_list_stored (xs : List Nat) :
    ∀ b : Block, b.len = b.bytes.length → b.len ≤ 255 → 256 ≤ b.len + xs.length →
      (block_append_list b xs).1.bytes.length = 256 := by
  induction xs with
  | nil => intro b _ h1 h2; simp only [List.length_nil] at h2; omega
  | cons x xs ih =>
    intro b h0 h1 h2
    simp only [List.length_cons] at h2
    rw [block_append_list]
    by_cases h : (block_append b x).2 = true
    · simp only [h, if_true]
      have h3 : (b.len + 1) % 256 = 0 := by
        simpa [block_append] using h
      simp only [block_append, List.length_append, List.length_cons, List.length_nil]
      omega
    · simp only [h, if_false]
      have h3 : (b.len + 1) % 256 ≠ 0 := by
        intro h0; apply h; simp [block_append, h0]
      have h4 : ((block_append b x).1).len = b.len + 1 := by
        simp only [block_append]; omega
      have h5 : ((block_append b x).1).bytes.length = b.len + 1 := by
        simp only [block_append, List.length_append, List.length_cons, List.length_nil]; omega
      exact ih _ (by omega) (by omega) (by omega)

theorem header_bytes_length (st : State) :
    2 ≤ (header_bytes st).length ∧ (header_bytes st).length ≤ 5 := by
  unfold header_bytes
  by_cases h1 : st.current_scanset ≠ 0 <;> by_cases h2 : st.current_keyboard_id ≠ 0 <;>
    simp [h1, h2]

theorem fill_block_header_eq (st : State) :
    fill_block_header st block_alloc =
      { bytes := (header_bytes st).map (fun x => x % 256), len := (header_bytes st).length } := by
  have h := header_bytes_length st
  unfold fill_block_header
  rw [block_append_list_fits _ _ (by simp only [block_alloc]; omega)]
  simp [block_alloc]

/-- The three `cmd_end...block` handlers share one shape. -/
theorem end_handler_fits (st : State) (body : List Nat)
    (h : (header_bytes st).length + body.length ≤ 255) :
    block_append_list (fill_block_header st block_alloc) body =
      ({ bytes := (header_bytes st ++ body).map (fun x => x % 256),
         len := (header_bytes st).length + body.length }, false) := by
  rw [fill_block_header_eq, block_append_list_fits _ _ (by simpa using h)]
  simp

theorem end_handler_overflows (st : State) (body : List Nat)
    (h : 256 ≤ (header_bytes st).length + body.length) :
    (block_append_list (fill_block_header st block_alloc) body).2 = true := by
  have hh := header_bytes_length st
  rw [fill_block_header_eq]
  exact block_append_list_overflows _ _ (by simp only; omega) (by simpa using h)

theorem end_handler_stored (st : State) (body : List Nat)
    (h : 256 ≤ (header_bytes st).length + body.length) :
    (block_append_list (fill_block_header st block_alloc) body).1.bytes.length = 256 := by
  have hh := header_bytes_length st
  rw [fill_block_header_eq]
  exact block_append_list_stored _ _ (by simp) (by simp only; omega) (by simpa using h)

/-- What `cmd_endmacroblock` does when the block fits in 255 bytes: it appends
the block, and it returns 0 exactly when `macro_list` holds no released block. -/
theorem cmd_endmacroblock_fits (st : State) (args : List Nat)
    (h : (header_bytes st).length + (macro_body st).length ≤ 255) :
    (cmd_endmacroblock st args).2.block_list =
      st.block_list ++
        [{ bytes := ((header_bytes st ++ macro_body st).map (fun x => x % 256)).set 0
                      ((header_bytes st).length + (macro_body st).length),
           len := (header_bytes st).length + (macro_body st).length }] ∧
    ((cmd_endmacroblock st args).1 = 0 ↔
      (st.macro_list_ptr = .null ∨ st.macro_list_ptr = .live)) := by
  unfold cmd_endmacroblock
  simp only [end_handler_fits st _ h, set_length]
  cases hp : st.macro_list_ptr <;> simp [UNDEFINED]

/-- What `cmd_endblock` does on an open block: it appends `emitted_block` when
the block fits in 255 bytes, returning 0 unless the block is a macro block and
`macro_list` holds a released block, and fails, changing nothing, when the
block does not fit. -/
theorem cmd_endblock_spec (st : State) (args : List Nat)
    (ht : st.block_type = BLOCK_LAYERDEF ∨ st.block_type = BLOCK_REMAP ∨
          st.block_type = BLOCK_MACRO) :
    (block_size st ≤ 255 →
      ((cmd_endblock st args).1 = 0 ↔
        (st.block_type = BLOCK_MACRO →
          st.macro_list_ptr = .null ∨ st.macro_list_ptr = .live)) ∧
      (cmd_endblock st args).2.block_list = st.block_list ++ [emitted_block st]) ∧
    (256 ≤ block_size st → cmd_endblock st args = (ERR_BLOCK_TOO_LARGE, st)) := by
  rcases ht with ht | ht | ht
  · have hb : block_body st = layerdef_body st := by simp [block_body, ht]
    have hc : cmd_endblock st args = cmd_endlayerdefblock st args := by simp [cmd_endblock, ht]
    rw [hc]; unfold emitted_block block_size; rw [hb]
    constructor
    · intro h
      simp [cmd_endlayerdefblock, end_handler_fits st _ h, set_length, ht, BLOCK_LAYERDEF,
        BLOCK_MACRO]
    · intro h
      simp [cmd_endlayerdefblock, end_handler_overflows st _ h]
  · have hb : block_body st = remap_body st := by
      simp [block_body, ht, BLOCK_REMAP, BLOCK_LAYERDEF]
    have hc : cmd_endblock st args = cmd_endremapblock st args := by
      simp [cmd_endblock, ht, BLOCK_REMAP, BLOCK_LAYERDEF]
    rw [hc]; unfold emitted_block block_size; rw [hb]
    constructor
    · intro h
      simp [cmd_endremapblock, end_handler_fits st _ h, set_length, ht, BLOCK_REMAP,
        BLOCK_MACRO]
    · intro h
      simp [cmd_endremapblock, end_handler_overflows st _ h]
  · have hb : block_body st = macro_body st := by
      simp [block_body, ht, BLOCK_REMAP, BLOCK_LAYERDEF, BLOCK_MACRO]
    have hc : cmd_endblock st args = cmd_endmacroblock st args := by
      simp [cmd_endblock, ht, BLOCK_REMAP, BLOCK_LAYERDEF, BLOCK_MACRO]
    rw [hc]; unfold emitted_block block_size; rw [hb]
    constructor
    · intro h
      have hm := cmd_endmacroblock_fits st args h
      exact ⟨by rw [hm.2]; simp [ht], hm.1⟩
    · intro h
      simp [cmd_endmacroblock, end_handler_overflows st _ h]

theorem cmd_endblock_open (st : State) (args : List Nat) (h : (cmd_endblock st args).1 = 0) :
    st.block_type = BLOCK_LAYERDEF ∨ st.block_type = BLOCK_REMAP ∨
      st.block_type = BLOCK_MACRO := by
  by_cases h0 : st.block_type = BLOCK_LAYERDEF
  · exact Or.inl h0
  by_cases h1 : st.block_type = BLOCK_REMAP
  · exact Or.inr (Or.inl h1)
  by_cases h2 : st.block_type = BLOCK_MACRO
  · exact Or.inr (Or.inr h2)
  simp [cmd_endblock, h0, h1, h2, ERR_INVALID_COMMAND] at h

theorem cmd_endblock_fits (st : State) (args : List Nat) (h : (cmd_endblock st args).1 = 0) :
    block_size st ≤ 255 := by
  by_contra hc
  have h2 := (cmd_endblock_spec st args (cmd_endblock_open st args h)).2 (by omega)
  rw [h2] at h
  simp [ERR_BLOCK_TOO_LARGE] at h

/-- A macro block that fits is not finished when `macro_list` holds a released
block: `macro_list_clear` hands it to `free` again. -/
theorem cmd_endblock_released (st : State) (args : List Nat) (ht : st.block_type = BLOCK_MACRO)
    (h : block_size st ≤ 255)
    (hp : st.macro_list_ptr = .freed ∨ st.macro_list_ptr = .undefined) :
    (cmd_endblock st args).1 = UNDEFINED := by
  have hb : block_body st = macro_body st := by
    simp [block_body, ht, BLOCK_REMAP, BLOCK_LAYERDEF, BLOCK_MACRO]
  have hc : cmd_endblock st args = cmd_endmacroblock st args := by
    simp [cmd_endblock, ht, BLOCK_REMAP, BLOCK_LAYERDEF, BLOCK_MACRO]
  unfold block_size at h
  rw [hb] at h
  rw [hc]
  unfold cmd_endmacroblock
  simp only [end_handler_fits st _ h]
  rcases hp with hp | hp <;> rw [hp] <;> rfl

theorem block_body_length (st : State) : 1 ≤ (block_body st).length := by
  unfold block_body layerdef_body remap_body macro_body
  split_ifs <;> simp

theorem flags_byte_eq (st : State)
    (ht : st.block_type = BLOCK_LAYERDEF ∨ st.block_type = BLOCK_REMAP ∨
          st.block_type = BLOCK_MACRO)
    (hs : st.current_select ≤ 7) :
    flags_byte st =
      st.block_type ||| (st.current_select <<< 3) |||
        (if st.current_scanset ≠ 0 then 64 else 0) |||
        (if st.current_keyboard_id ≠ 0 then 128 else 0) := by
  unfold flags_byte
  have ht2 : st.block_type ≤ 2 := by
    rcases ht with h | h | h <;> simp [h, BLOCK_LAYERDEF, BLOCK_REMAP, BLOCK_MACRO]
  generalize st.current_select = s at *
  generalize st.block_type = t at *
  by_cases h1 : st.current_scanset ≠ 0 <;> by_cases h2 : st.current_keyboard_id ≠ 0
  · simp only [if_pos h1, if_pos h2]; interval_cases t <;> interval_cases s <;> rfl
  · simp only [if_pos h1, if_neg h2]; interval_cases t <;> interval_cases s <;> rfl
  · simp only [if_neg h1, if_pos h2]; interval_cases t <;> interval_cases s <;> rfl
  · simp only [if_neg h1, if_neg h2]; interval_cases t <;> interval_cases s <;> rfl

theorem keyboard_id_bytes (k : Nat) (hk : k < 65536) :
    (k &&& 255) % 256 = k % 256 ∧ ((k >>> 8) &&& 255) % 256 = k / 256 := by
  rw [and_255, and_255, Nat.shiftRight_eq_div_pow]
  omega

/-- The block loop of the disassembler leaves the loop whenever the fuel exceeds
the bytes that remain; the offsets it visits lie in the buffer and increase. -/
theorem blocks_loop_total (env : Env) (buf : List Nat) (buflen : Nat) :
    ∀ (fuel i : Nat) (r : Scdis.Result), buflen - i < fuel →
      ∃ r1 vs, Scdis.blocks_loop env buf buflen fuel i r = some r1 ∧
        r1.visited = r.visited ++ vs ∧ vs.length ≤ buflen - i ∧
        (∀ o ∈ vs, i ≤ o ∧ o < buflen) ∧ vs.Pairwise (fun a b => a < b) := by
  intro fuel
  induction fuel with
  | zero => intro i r h; omega
  | succ fuel ih =>
    intro i r h
    rw [Scdis.blocks_loop]
    by_cases hi : i < buflen
    · by_cases hz : Scdis.rd buf i = 0
      · exact ⟨{ r with out := r.out ++ bytes "ERROR: block length is zero!\n" }, [],
          by simp [hi, hz], by simp, by simp, by simp, by simp⟩
      · obtain ⟨r1, vs, h1, h2, h3, h4, h5⟩ :=
          ih (i + Scdis.rd buf i)
            { ret := r.ret ||| (Scdis.process_block env buf i (Scdis.rd buf i)).1,
              out := r.out ++ (Scdis.process_block env buf i (Scdis.rd buf i)).2,
              visited := r.visited ++ [i] } (by omega)
        refine ⟨r1, i :: vs, by simp [hi, hz, h1], by simp [h2], ?_, ?_, ?_⟩
        · simp only [List.length_cons]; omega
        · intro o ho
          rcases List.mem_cons.1 ho with rfl | ho
          · exact ⟨le_refl _, hi⟩
          · have := h4 o ho; omega
        · refine List.Pairwise.cons (fun o ho => ?_) h5
          have := h4 o ho; omega
    · exact ⟨r, [], by simp [hi], by simp, by simp, by simp, by simp⟩

/-- The function `process_file` of scdis.c returns on every buffer. -/
theorem process_file_total (env : Env) (buf : List Nat) (buflen : Nat) :
    ∃ r, Scdis.process_file env buf buflen = some r := by
  obtain ⟨r1, _, h1, _⟩ :=
    blocks_loop_total env buf buflen (buflen + 1) 6
      { ret := 0, out := Scdis.header_text buf buflen, visited := [] } (by omega)
  exact ⟨r1, h1⟩

theorem cmd_endblock_frame (st : State) (args : List Nat) :
    (cmd_endblock st args).2.current_force_flags = st.current_force_flags ∧
    (cmd_endblock st args).2.current_select = st.current_select ∧
    (cmd_endblock st args).2.current_scanset = st.current_scanset ∧
    (cmd_endblock st args).2.current_keyboard_id = st.current_keyboard_id ∧
    (cmd_endblock st args).2.current_layer = st.current_layer := by
  unfold cmd_endblock cmd_endlayerdefblock cmd_endremapblock cmd_endmacroblock
  split_ifs <;> (try dsimp only) <;> (try split_ifs) <;> (try split) <;> simp

/-- The macro example assembles to one block, whatever the codes of `A` and
`B` are. -/
theorem macro_example_assembles (env : Env) (depth a b : Nat)
    (ha : env.lookup_hid_token_by_name (some (bytes "A")) = (a : Int))
    (hb : env.lookup_hid_token_by_name (some (bytes "B")) = (b : Int))
    (hm : env.lookup_meta_token (bytes "LCTRL") = 1)
    (ha1 : a < 256) (hb1 : b < 256) :
    (assemble env depth macro_example_doc).1 = 0 ∧
    (assemble env depth macro_example_doc).2.block_list =
      [{ bytes := [12, 2, 1, a, 1, 1, 1, 129, 1, b, 3, b], len := 12 }] ∧
    (assemble env depth macro_example_doc).2.current_force_flags = 0 := by
  have hl : file_lines macro_example_doc.length macro_example_doc =
      [bytes "macroblock\n", bytes "macro A LCTRL\n", bytes "\tPRESS B\n", bytes "onbreak\n",
       bytes "\tBREAK B\n", bytes "endmacro\n", bytes "endblock\n"] := by decide
  rw [← env_with_eq env a b 1 ha hb hm]
  generalize hincl : process_file (env_with env a b 1) depth = incl
  have s1 : process_line (env_with env a b 1) incl State.init (bytes "macroblock\n") =
      (0, macro_example_state 2 (-1) 1 0 0 0 [] [] [] []) := rfl
  have s2 : process_line (env_with env a b 1) incl (macro_example_state 2 (-1) 1 0 0 0 [] [] [] [])
      (bytes "macro A LCTRL\n") = (0, (macro_example_state 2 0 1 (a % 256) 1 1 [] [] [] [])) := rfl
  have s3 : process_line (env_with env a b 1) incl (macro_example_state 2 0 1 (a % 256) 1 1 [] [] [] [])
      (bytes "\tPRESS B\n") = (0, (macro_example_state 2 0 1 (a % 256) 1 1 [pair 1 (b % 256)] [] [] [])) := rfl
  have s4 : process_line (env_with env a b 1) incl (macro_example_state 2 0 1 (a % 256) 1 1 [pair 1 (b % 256)] [] [] []) (bytes "onbreak\n") = (0, (macro_example_state 2 1 1 (a % 256) 1 1 [pair 1 (b % 256)] [] [] [])) := rfl
  have s5 : process_line (env_with env a b 1) incl (macro_example_state 2 1 1 (a % 256) 1 1 [pair 1 (b % 256)] [] [] []) (bytes "\tBREAK B\n") = (0, (macro_example_state 2 1 1 (a % 256) 1 1 [pair 1 (b % 256)] [pair 3 (b % 256)] [] [])) := rfl
  have s6 : process_line (env_with env a b 1) incl (macro_example_state 2 1 1 (a % 256) 1 1 [pair 1 (b % 256)] [pair 3 (b % 256)] [] []) (bytes "endmacro\n") = (0, { macro_example_state 2 (-1) 1 (a % 256) 1 1 [] [] 
            [{ hid_code := a % 256, desired_meta := 1, matched_meta := 1, press_flags := 1,
               release_flags := 129, commands := [pair 1 (b % 256), pair 3 (b % 256)] }] [] with
              macro_list_ptr := .live }) := by
    have d : process_line (env_with env a b 1) incl (macro_example_state 2 1 1 (a % 256) 1 1 [pair 1 (b % 256)] [pair 3 (b % 256)] [] []) (bytes "endmacro\n") =
        cmd_endmacro (macro_example_state 2 1 1 (a % 256) 1 1 [pair 1 (b % 256)] [pair 3 (b % 256)] [] []) [] := rfl
    rw [d]
    simp [ cmd_endmacro, macro_example_state, State.init]
    decide
  have s7 : process_line (env_with env a b 1) incl { macro_example_state 2 (-1) 1 (a % 256) 1 1 [] [] 
            [{ hid_code := a % 256, desired_meta := 1, matched_meta := 1, press_flags := 1,
               release_flags := 129, commands := [pair 1 (b % 256), pair 3 (b % 256)] }] [] with
              macro_list_ptr := .live } (bytes "endblock\n") =
      cmd_endblock { macro_example_state 2 (-1) 1 (a % 256) 1 1 [] [] 
            [{ hid_code := a % 256, desired_meta := 1, matched_meta := 1, press_flags := 1,
               release_flags := 129, commands := [pair 1 (b % 256), pair 3 (b % 256)] }] [] with
              macro_list_ptr := .live } [] := rfl
  have hsp0 := (cmd_endblock_spec { macro_example_state 2 (-1) 1 (a % 256) 1 1 [] [] 
            [{ hid_code := a % 256, desired_meta := 1, matched_meta := 1, press_flags := 1,
               release_flags := 129, commands := [pair 1 (b % 256), pair 3 (b % 256)] }] [] with
              macro_list_ptr := .live } [] (Or.inr (Or.inr rfl))).1
    (by have h12 : block_size { macro_example_state 2 (-1) 1 (a % 256) 1 1 [] [] 
            [{ hid_code := a % 256, desired_meta := 1, matched_meta := 1, press_flags := 1,
               release_flags := 129, commands := [pair 1 (b % 256), pair 3 (b % 256)] }] [] with
              macro_list_ptr := .live } = 12 := rfl
        omega)
  have hsp := And.intro (hsp0.1.2 (fun _ => Or.inr rfl)) hsp0.2
  have hfr := (cmd_endblock_frame { macro_example_state 2 (-1) 1 (a % 256) 1 1 [] [] 
            [{ hid_code := a % 256, desired_meta := 1, matched_meta := 1, press_flags := 1,
               release_flags := 129, commands := [pair 1 (b % 256), pair 3 (b % 256)] }] [] with
              macro_list_ptr := .live } []).1
  have hbk : emitted_block { macro_example_state 2 (-1) 1 (a % 256) 1 1 [] [] 
            [{ hid_code := a % 256, desired_meta := 1, matched_meta := 1, press_flags := 1,
               release_flags := 129, commands := [pair 1 (b % 256), pair 3 (b % 256)] }] [] with
              macro_list_ptr := .live } =
      { bytes := [12, 2, 1, a, 1, 1, 1, 129, 1, b, 3, b], len := 12 } := by
    simp [emitted_block, block_size, header_bytes, block_body, macro_body, macro_bytes,
      flags_byte, word_bytes_pair, Nat.mod_eq_of_lt ha1, Nat.mod_eq_of_lt hb1,
      macro_example_state, State.init, BLOCK_REMAP, BLOCK_LAYERDEF, BLOCK_MACRO]
  unfold assemble
  rw [hl, hincl, process_lines_cons_ok _ _ _ _ _ s1, process_lines_cons_ok _ _ _ _ _ s2,
    process_lines_cons_ok _ _ _ _ _ s3, process_lines_cons_ok _ _ _ _ _ s4,
    process_lines_cons_ok _ _ _ _ _ s5, process_lines_cons_ok _ _ _ _ _ s6, process_lines, s7]
  simp only [hsp.1, ne_eq, not_true_eq_false, if_false, process_lines, hsp.2, hbk, hfr]
  exact ⟨trivial, rfl, rfl⟩

theorem blocks_loop_step (env : Env) (buf : List Nat) (buflen fuel i n e : Nat) (t : List Nat)
    (r : Scdis.Result) (hi : i < buflen) (hn : Scdis.rd buf i = n) (h0 : n ≠ 0)
    (hb : Scdis.process_block env buf i n = (e, t)) :
    Scdis.blocks_loop env buf buflen (fuel + 1) i r =
      Scdis.blocks_loop env buf buflen fuel (i + n)
        { ret := r.ret ||| e, out := r.out ++ t, visited := r.visited ++ [i] } := by
  rw [Scdis.blocks_loop, if_pos hi, hn, if_neg h0, hb]

theorem blocks_loop_done (env : Env) (buf : List Nat) (buflen fuel i : Nat)
    (r : Scdis.Result) (hi : ¬ i < buflen) :
    Scdis.blocks_loop env buf buflen (fuel + 1) i r = some r := by
  rw [Scdis.blocks_loop, if_neg hi]

/-- In the sample environment a document with 63 press steps assembles to one
block of 134 bytes, and one with 64 press steps stops with `ERR_MACRO_TOO_LONG`
and emits no block. -/
theorem press_doc_limit :
    (assemble sample_env 1 (press_doc 63)).1 = 0 ∧
    ((assemble sample_env 1 (press_doc 63)).2.block_list.map (fun b => b.len)) = [134] ∧
    (assemble sample_env 1 (press_doc 64)).1 = ERR_MACRO_TOO_LONG ∧
    (assemble sample_env 1 (press_doc 64)).2.block_list = [] := by
  decide!

/-- A layerblock of 126 entries assembles to a block of 255 bytes under the
default conditions, and stops with `ERR_BLOCK_TOO_LARGE` after `ifset set1`. -/
theorem layerdef_doc_limit :
    (assemble sample_env 1 (layerdef_doc [] 126)).1 = 0 ∧
    ((assemble sample_env 1 (layerdef_doc [] 126)).2.block_list.map (fun b => b.len)) = [255] ∧
    (assemble sample_env 1 (layerdef_doc (bytes "ifset set1\n") 126)).1 = ERR_BLOCK_TOO_LARGE ∧
    (assemble sample_env 1 (layerdef_doc (bytes "ifset set1\n") 126)).2.block_list = [] := by
  decide!

/-! ### What each handler leaves unchanged -/

theorem cmd_force_frame (st : State) (p : List Nat) :
    (cmd_force st p).2 = { st with current_force_flags := (cmd_force st p).2.current_force_flags } := by
  unfold cmd_force; dsimp only; split_ifs <;> rfl

theorem cmd_select_frame (st : State) (p : List Nat) :
    (cmd_select st p).2 = { st with current_select := (cmd_select st p).2.current_select } := by
  unfold cmd_select; dsimp only; split_ifs <;> rfl

theorem cmd_scanset_frame (st : State) (p : List Nat) :
    (cmd_scanset st p).2 = { st with current_scanset := (cmd_scanset st p).2.current_scanset } := by
  unfold cmd_scanset; dsimp only; split_ifs <;> rfl

theorem cmd_keyboard_id_frame (st : State) (p : List Nat) :
    (cmd_keyboard_id st p).2 =
      { st with current_keyboard_id := (cmd_keyboard_id st p).2.current_keyboard_id } := by
  unfold cmd_keyboard_id; split
  · rfl
  · dsimp only; split_ifs <;> rfl

theorem cmd_layer_frame (st : State) (p : List Nat) :
    (cmd_layer st p).2 = { st with current_layer := (cmd_layer st p).2.current_layer } := by
  unfold cmd_layer; dsimp only; split_ifs <;> rfl

theorem cmd_layerdef_frame (st : State) (p : List Nat) :
    (cmd_layerdef st p).2 = { st with layerdef_list := (cmd_layerdef st p).2.layerdef_list } := by
  unfold cmd_layerdef; dsimp only; split_ifs <;> rfl

theorem cmd_remap_frame (env : Env) (st : State) (p : List Nat) :
    (cmd_remap env st p).2 = { st with remap_list := (cmd_remap env st p).2.remap_list } := by
  unfold cmd_remap; dsimp only; split_ifs <;> rfl

theorem cmd_macro_frame (env : Env) (st : State) (p : List Nat) :
    ( cmd_macro env st p).2 =
      { st with current_macro_phase := ( cmd_macro env st p).2.current_macro_phase,
                current_macro_release_meta := ( cmd_macro env st p).2.current_macro_release_meta,
                current_hid_code := ( cmd_macro env st p).2.current_hid_code,
                current_desired_meta := ( cmd_macro env st p).2.current_desired_meta,
                current_matched_meta := ( cmd_macro env st p).2.current_matched_meta } := by
  unfold cmd_macro; dsimp only; split_ifs <;> rfl

theorem cmd_onbreak_frame (st : State) (p : List Nat) :
    (cmd_onbreak st p).2 =
      { st with current_macro_phase := (cmd_onbreak st p).2.current_macro_phase,
                current_macro_release_meta := (cmd_onbreak st p).2.current_macro_release_meta } := by
  unfold cmd_onbreak; split_ifs
  · rfl
  · split
    · rfl
    · split_ifs <;> rfl

theorem cmd_macrostep_frame (env : Env) (st : State) (p : List Nat) :
    (cmd_macrostep env st p).2 =
      { st with press_mcmd_list := (cmd_macrostep env st p).2.press_mcmd_list,
                release_mcmd_list := (cmd_macrostep env st p).2.release_mcmd_list } := by
  unfold cmd_macrostep; dsimp only; split_ifs <;> rfl

theorem cmd_endmacro_frame (st : State) (p : List Nat) :
    ( cmd_endmacro st p).2 =
      { st with current_macro_phase := ( cmd_endmacro st p).2.current_macro_phase,
                press_mcmd_list := ( cmd_endmacro st p).2.press_mcmd_list,
                release_mcmd_list := ( cmd_endmacro st p).2.release_mcmd_list,
                macro_list := ( cmd_endmacro st p).2.macro_list,
                macro_list_ptr := ( cmd_endmacro st p).2.macro_list_ptr } := by
  unfold cmd_endmacro; dsimp only; split_ifs <;> rfl

theorem cmd_blockopen_frame (st : State) (p : List Nat) :
    (cmd_layerdefblock st p).2 = { st with block_type := (cmd_layerdefblock st p).2.block_type } ∧
    (cmd_remapblock st p).2 = { st with block_type := (cmd_remapblock st p).2.block_type } ∧
    (cmd_macroblock st p).2 = { st with block_type := (cmd_macroblock st p).2.block_type } := by
  unfold cmd_layerdefblock cmd_remapblock cmd_macroblock
  refine ⟨?_, ?_, ?_⟩ <;> split_ifs <;> rfl

theorem cmd_invalid_frame (env : Env) (st : State) (p : List Nat) :
    (cmd_invalid env st p).2 =
      { st with layerdef_list := (cmd_invalid env st p).2.layerdef_list,
                remap_list := (cmd_invalid env st p).2.remap_list,
                press_mcmd_list := (cmd_invalid env st p).2.press_mcmd_list,
                release_mcmd_list := (cmd_invalid env st p).2.release_mcmd_list } := by
  unfold cmd_invalid
  split_ifs
  · rw [cmd_layerdef_frame]
  · rw [cmd_remap_frame]
  · rw [cmd_macrostep_frame]
  · rfl


/-- Every handler but `cmd_endblock` and `cmd_include` leaves the block list as
it is. -/
theorem call_command_block_list (env : Env) (incl : Option (List Nat) → State → Int × State)
    (fn : command_fn) (st : State) (p : List Nat)
    (h1 : fn ≠ .endblock_fn) (h2 : fn ≠ .include_fn) :
    (call_command env incl fn st p).2.block_list = st.block_list := by
  cases fn <;> simp only [call_command] <;> first
    | exact absurd rfl h1
    | exact absurd rfl h2
    | rw [cmd_force_frame]
    | rw [cmd_select_frame]
    | rw [cmd_scanset_frame]
    | rw [cmd_keyboard_id_frame]
    | rw [(cmd_blockopen_frame st p).1]
    | rw [(cmd_blockopen_frame st p).2.1]
    | rw [(cmd_blockopen_frame st p).2.2]
    | rw [cmd_layer_frame]
    | rw [ cmd_macro_frame]
    | rw [cmd_onbreak_frame]
    | rw [ cmd_endmacro_frame]
    | rw [cmd_invalid_frame]

/-- Every handler but the three condition directives leaves the select, scanset
and keyboard-id conditions as they are, `cmd_include` when the file it
processes does. -/
theorem call_command_conditions (env : Env) (incl : Option (List Nat) → State → Int × State)
    (fn : command_fn) (st : State) (p : List Nat)
    (h1 : fn ≠ .select_fn) (h2 : fn ≠ .scanset_fn) (h3 : fn ≠ .keyboard_id_fn)
    (h4 : fn = .include_fn → same_conditions st (incl (get_token p) st).2) :
    same_conditions st (call_command env incl fn st p).2 := by
  unfold same_conditions
  cases fn <;> simp only [call_command] <;> first
    | exact absurd rfl h1
    | exact absurd rfl h2
    | exact absurd rfl h3
    | exact h4 rfl
    | exact ⟨(cmd_endblock_frame st p).2.1, (cmd_endblock_frame st p).2.2.1,
        (cmd_endblock_frame st p).2.2.2.1⟩
    | (rw [cmd_force_frame]; exact ⟨rfl, rfl, rfl⟩)
    | (rw [(cmd_blockopen_frame st p).1]; exact ⟨rfl, rfl, rfl⟩)
    | (rw [(cmd_blockopen_frame st p).2.1]; exact ⟨rfl, rfl, rfl⟩)
    | (rw [(cmd_blockopen_frame st p).2.2]; exact ⟨rfl, rfl, rfl⟩)
    | (rw [cmd_layer_frame]; exact ⟨rfl, rfl, rfl⟩)
    | (rw [ cmd_macro_frame]; exact ⟨rfl, rfl, rfl⟩)
    | (rw [cmd_onbreak_frame]; exact ⟨rfl, rfl, rfl⟩)
    | (rw [ cmd_endmacro_frame]; exact ⟨rfl, rfl, rfl⟩)
    | (rw [cmd_invalid_frame]; exact ⟨rfl, rfl, rfl⟩)

theorem same_conditions_refl (st : State) : same_conditions st st := ⟨rfl, rfl, rfl⟩

theorem same_conditions_trans {a b c : State} (h1 : same_conditions a b)
    (h2 : same_conditions b c) : same_conditions a c :=
  ⟨h2.1.trans h1.1, h2.2.1.trans h1.2.1, h2.2.2.trans h1.2.2⟩

/-- A line that is no condition directive leaves the conditions as they are. -/
theorem process_line_conditions (env : Env) (incl : Option (List Nat) → State → Int × State)
    (q : Option (List Nat) → Bool)
    (hincl : ∀ n st, q n = true → same_conditions st (incl n st).2)
    (st : State) (l : List Nat) (hl : quiet_line q l = true) :
    same_conditions st (process_line env incl st l).2 := by
  unfold process_line
  unfold quiet_line at hl
  dsimp only
  cases ht : get_token (strip_comment l) with
  | none => exact same_conditions_refl st
  | some t =>
    rw [ht] at hl
    dsimp only at hl ⊢
    cases hf : find_command t <;> rw [hf] at hl <;> simp only at hl <;>
      first
      | exact absurd hl (by decide)
      | (apply call_command_conditions <;> first
          | decide
          | (intro _
             simp only [ne_eq, not_true_eq_false, not_false_eq_true, if_true, if_false,
               reduceCtorEq]
             exact hincl _ st hl)
          | (intro h; cases h))

theorem process_lines_conditions (pl : State → List Nat → Int × State)
    (ls : List (List Nat)) (hpl : ∀ st, ∀ l ∈ ls, same_conditions st (pl st l).2) :
    ∀ st, same_conditions st (process_lines pl st ls).2 := by
  induction ls with
  | nil => intro st; exact same_conditions_refl st
  | cons l ls ih =>
    intro st
    rw [process_lines]
    split_ifs
    · exact hpl st l (List.mem_cons_self _ _)
    · exact same_conditions_trans (hpl st l (List.mem_cons_self _ _))
        (ih (fun s m hm => hpl s m (List.mem_cons_of_mem _ hm)) _)

/-- A file without condition directives, in itself and in the files it
includes, leaves the conditions as they are. -/
theorem process_file_conditions (env : Env) (depth : Nat) :
    ∀ (n : Option (List Nat)) (st : State), quiet_file env depth n = true →
      same_conditions st (process_file env depth n st).2 := by
  induction depth with
  | zero => intro n st _; exact same_conditions_refl st
  | succ d ih =>
    intro n st hq
    rw [process_file]
    rw [quiet_file] at hq
    cases hf : env.fopen n with
    | none => exact same_conditions_refl st
    | some content =>
      rw [hf] at hq
      simp only [List.all_eq_true] at hq
      exact process_lines_conditions _ _
        (fun s l hl => process_line_conditions env _ _ (fun m s2 hm => ih m s2 hm) s l (hq l hl)) st

/-! ### The block list only grows, by well-formed blocks -/

theorem grows_refl (st : State) : grows st st := ⟨List.prefix_refl _, fun h => h⟩

theorem grows_trans {a b c : State} (h1 : grows a b) (h2 : grows b c) : grows a c :=
  ⟨h1.1.trans h2.1, fun h => h2.2 (h1.2 h)⟩

theorem grows_of_block_list {st st1 : State} (h : st1.block_list = st.block_list) :
    grows st st1 := by
  unfold grows; rw [h]; exact ⟨List.prefix_refl _, fun h => h⟩

theorem emitted_block_ok (st : State) (h : block_size st ≤ 255) : block_ok (emitted_block st) := by
  have hh := header_bytes_length st
  have hb := block_body_length st
  have hlen : (emitted_block st).bytes.length = block_size st := by
    simp [emitted_block, block_size]
  unfold block_ok
  rw [hlen]
  refine ⟨rfl, ?_, by unfold block_size; omega, h⟩
  unfold emitted_block header_bytes
  simp

theorem cmd_endblock_closed (st : State) (args : List Nat)
    (h0 : st.block_type ≠ BLOCK_LAYERDEF) (h1 : st.block_type ≠ BLOCK_REMAP)
    (h2 : st.block_type ≠ BLOCK_MACRO) : cmd_endblock st args = (ERR_INVALID_COMMAND, st) := by
  simp [cmd_endblock, h0, h1, h2]

theorem cmd_endblock_grows (st : State) (args : List Nat) : grows st (cmd_endblock st args).2 := by
  by_cases ht : st.block_type = BLOCK_LAYERDEF ∨ st.block_type = BLOCK_REMAP ∨
      st.block_type = BLOCK_MACRO
  · have hs := cmd_endblock_spec st args ht
    by_cases hfit : block_size st ≤ 255
    · have h := (hs.1 hfit).2
      unfold grows
      rw [h]
      refine ⟨List.prefix_append _ _, fun hok b hb => ?_⟩
      rcases List.mem_append.1 hb with hb | hb
      · exact hok b hb
      · rw [List.mem_singleton.1 hb]; exact emitted_block_ok st hfit
    · rw [hs.2 (by omega)]; exact grows_refl st
  · rw [cmd_endblock_closed st args (fun h => ht (Or.inl h)) (fun h => ht (Or.inr (Or.inl h)))
      (fun h => ht (Or.inr (Or.inr h)))]
    exact grows_refl st

theorem call_command_grows (env : Env) (incl : Option (List Nat) → State → Int × State)
    (hincl : ∀ n st, grows st (incl n st).2) (fn : command_fn) (st : State) (p : List Nat) :
    grows st (call_command env incl fn st p).2 := by
  by_cases h1 : fn = .endblock_fn
  · subst h1; exact cmd_endblock_grows st p
  by_cases h2 : fn = .include_fn
  · subst h2; exact hincl _ st
  exact grows_of_block_list (call_command_block_list env incl fn st p h1 h2)

theorem process_line_grows (env : Env) (incl : Option (List Nat) → State → Int × State)
    (hincl : ∀ n st, grows st (incl n st).2) (st : State) (l : List Nat) :
    grows st (process_line env incl st l).2 := by
  unfold process_line
  dsimp only
  split
  · exact grows_refl st
  · exact call_command_grows env incl hincl _ st _

theorem process_lines_grows (pl : State → List Nat → Int × State)
    (hpl : ∀ st l, grows st (pl st l).2) (ls : List (List Nat)) :
    ∀ st, grows st (process_lines pl st ls).2 := by
  induction ls with
  | nil => intro st; exact grows_refl st
  | cons l ls ih =>
    intro st
    rw [process_lines]
    split_ifs
    · exact hpl st l
    · exact grows_trans (hpl st l) (ih _)

theorem process_file_grows (env : Env) (depth : Nat) :
    ∀ (n : Option (List Nat)) (st : State), grows st (process_file env depth n st).2 := by
  induction depth with
  | zero => intro n st; exact grows_refl st
  | succ d ih =>
    intro n st
    rw [process_file]
    split
    · exact grows_refl st
    · exact process_lines_grows _ (process_line_grows env _ ih) _ st

theorem main_loop_grows (env : Env) (depth : Nat) (fs : List (List Nat)) :
    ∀ st, grows st (main_loop env depth fs st).2 := by
  induction fs with
  | nil => intro st; exact grows_refl st
  | cons f fs ih =>
    intro st
    rw [main_loop]
    split_ifs
    · exact process_file_grows env depth _ st
    · exact grows_trans (process_file_grows env depth _ st) (ih _)

theorem write_blocks_ok (bs : List Block) (h : ∀ b ∈ bs, block_ok b) :
    write_blocks bs = (0, (bs.map (fun b => b.bytes)).flatten) ∧
    ((bs.map (fun b => b.bytes)).flatten).length = (bs.map (fun b => b.bytes.headD 0)).sum := by
  induction bs with
  | nil => exact ⟨rfl, rfl⟩
  | cons b bs ih =>
    have hb := h b (List.mem_cons_self _ _)
    have ih2 := ih (fun c hc => h c (List.mem_cons_of_mem _ hc))
    obtain ⟨h1, h2, h3, h4⟩ := hb
    have hne : b.len ≠ 0 := by omega
    have hd : b.bytes.headD 0 = b.bytes.length := by
      cases hbb : b.bytes with
      | nil => rw [hbb] at h3; simp at h3
      | cons x xs => rw [hbb] at h2; simpa using h2
    constructor
    · rw [write_blocks, if_neg hne, ih2.1, h1]
      simp
    · simp only [List.map_cons, List.flatten_cons, List.length_append, List.sum_cons, ih2.2, hd]

/-! ### Bits, dispatch and conditions -/

theorem find_command_unknown (t : List Nat) (h : ∀ e ∈ command_map, e.1 ≠ t) :
    find_command t = .invalid_fn := by
  unfold find_command
  have : command_map.find? (fun e => e.1 == t) = none := by
    rw [List.find?_eq_none]
    intro e he
    simpa using h e he
  rw [this]

theorem low_bits_masked (t t2 y : Nat) (ht : t < 8) (ht2 : t2 < 8) :
    ((t ||| y) % 256) &&& 248 = ((t2 ||| y) % 256) &&& 248 := by
  apply Nat.eq_of_testBit_eq
  intro i
  have h256 : (256 : Nat) = 2 ^ 8 := by norm_num
  simp only [Nat.testBit_and, h256, Nat.testBit_mod_two_pow, Nat.testBit_or]
  by_cases hi : i < 3
  · have : Nat.testBit 248 i = false := by interval_cases i <;> decide
    simp [this]
  · have h1 : t.testBit i = false :=
      Nat.testBit_lt_two_pow (lt_of_lt_of_le ht (by
        calc 8 = 2 ^ 3 := by norm_num
          _ ≤ 2 ^ i := Nat.pow_le_pow_right (by norm_num) (by omega)))
    have h2 : t2.testBit i = false :=
      Nat.testBit_lt_two_pow (lt_of_lt_of_le ht2 (by
        calc 8 = 2 ^ 3 := by norm_num
          _ ≤ 2 ^ i := Nat.pow_le_pow_right (by norm_num) (by omega)))
    simp [h1, h2]

theorem header_conditions_eq (st st2 : State)
    (h1 : st2.current_select = st.current_select)
    (h2 : st2.current_scanset = st.current_scanset)
    (h3 : st2.current_keyboard_id = st.current_keyboard_id) :
    (header_bytes st2).drop 2 = (header_bytes st).drop 2 ∧
    (st.block_type < 8 → st2.block_type < 8 →
      flags_byte st2 &&& 248 = flags_byte st &&& 248) := by
  constructor
  · simp [header_bytes, h2, h3]
  · intro ht ht2
    unfold flags_byte
    rw [h1, h2, h3, Nat.lor_assoc, Nat.lor_assoc, Nat.lor_assoc, Nat.lor_assoc]
    exact low_bits_masked _ _ _ ht2 ht

theorem lookup_by_name_unknown (n : List Nat) (h : n ∉ macro_token_list.map Prod.fst) :
    lookup_macro_token_by_name (some n) = INVALID_NUMBER := by
  have : macro_token_list.find? (fun e => e.1 == n) = none := by
    rw [List.find?_eq_none]
    intro e he hen
    exact h (List.mem_map.2 ⟨e, he, by simpa using hen⟩)
  simp [lookup_macro_token_by_name, this]

theorem lookup_by_value_unknown (c : Int) (h : c ∉ macro_token_list.map Prod.snd) :
    lookup_macro_token_by_value c = bytes "INVALID" := by
  have : macro_token_list.find? (fun e => e.2 == c) = none := by
    rw [List.find?_eq_none]
    intro e he hen
    exact h (List.mem_map.2 ⟨e, he, by simpa using hen⟩)
  simp [lookup_macro_token_by_value, this]

theorem dropWhile_append_stop (f : Nat → Bool) (cs rest : List Nat) (c : Nat)
    (h : ∀ x ∈ cs, f x = true) (hc : f c = false) :
    (cs ++ c :: rest).dropWhile f = c :: rest := by
  induction cs with
  | nil => simp [List.dropWhile, hc]
  | cons a t ih =>
    simp only [List.cons_append, List.dropWhile, h a (List.mem_cons_self _ _)]
    exact ih (fun x hx => h x (List.mem_cons_of_mem _ hx))

theorem skip_to_end_quote_closed (cs rest : List Nat) (h : ∀ x ∈ cs, x ≠ 34 ∧ x ≠ 92) :
    skip_to_end_quote (cs ++ 34 :: rest) = 34 :: rest := by
  cases cs with
  | nil => rfl
  | cons a t =>
    have ha := h a (List.mem_cons_self _ _)
    have : skip_to_end_quote (a :: t ++ 34 :: rest) =
        (a :: t ++ 34 :: rest).dropWhile (fun c => c != 34 && c != 92) := by
      unfold skip_to_end_quote
      split
      · rename_i heq; simp at heq; exact absurd heq.1 ha.1
      · rfl
    rw [this]
    apply dropWhile_append_stop
    · intro x hx; have := h x hx; simp [this.1, this.2]
    · simp

theorem get_token_end (p : List Nat) (hp : p ≠ []) :
    get_token p =
      if (skip_whitespace p).length - (token_end (skip_whitespace p)).length = 0 then none
      else some ((skip_whitespace p).take
        ((skip_whitespace p).length - (token_end (skip_whitespace p)).length)) := by
  cases p with
  | nil => exact absurd rfl hp
  | cons a t => rfl

theorem skip_token_skip (p : List Nat) (hp : p ≠ []) :
    skip_token p = skip_whitespace (token_skip (skip_whitespace p)) := by
  cases p with
  | nil => exact absurd rfl hp
  | cons a t => rfl

theorem token_end_plain (c : Nat) (t : List Nat) (h34 : c ≠ 34) :
    token_end (c :: t) = skip_non_whitespace (c :: t) ∧
    token_skip (c :: t) = skip_non_whitespace (c :: t) := by
  constructor
  · unfold token_end
    split
    · rename_i heq; simp at heq; exact absurd heq.1 h34
    · rfl
  · unfold token_skip
    split
    · rename_i heq; simp at heq; exact absurd heq.1 h34
    · rfl

theorem token_of_plain_name (name X : List Nat) (h : plain_name name = true) :
    get_token (name ++ 32 :: X) = some name ∧
    skip_token (name ++ 32 :: X) = skip_whitespace X := by
  cases name with
  | nil => simp [plain_name] at h
  | cons c cs =>
    simp only [plain_name, Bool.and_eq_true, bne_iff_ne, ne_eq, Bool.not_eq_eq_eq_not,
      Bool.not_true, List.all_eq_true] at h
    obtain ⟨⟨⟨h34, h45⟩, hc⟩, hcs⟩ := h
    have hs : skip_whitespace (c :: (cs ++ 32 :: X)) = c :: (cs ++ 32 :: X) := by
      simp [skip_whitespace, List.dropWhile, hc]
    have hn : skip_non_whitespace (c :: (cs ++ 32 :: X)) = 32 :: X := by
      have := dropWhile_append_stop (fun c => !isspace c) (c :: cs) X 32 (by
        intro x hx
        rcases List.mem_cons.1 hx with rfl | hx
        · simp [hc]
        · simp [hcs x hx]) (by decide)
      simpa [skip_non_whitespace] using this
    have hne : c :: (cs ++ 32 :: X) ≠ [] := by simp
    obtain ⟨he, hk⟩ := token_end_plain c (cs ++ 32 :: X) h34
    simp only [List.cons_append]
    constructor
    · rw [get_token_end _ hne, hs, he, hn]
      simp only [List.length_cons, List.length_append]
      have hl : cs.length + (X.length + 1) + 1 - (X.length + 1) = cs.length + 1 := by omega
      rw [hl]
      simp [List.take_left']
    · rw [skip_token_skip _ hne, hs, hk, hn]
      simp [skip_whitespace, List.dropWhile, isspace]

theorem parse_step_pos (env : Env) (fuel : Nat) (name X : List Nat) (d m v : Int)
    (hn : plain_name name = true) (hv : env.lookup_meta_token name = v)
    (hi : v ≠ INVALID_NUMBER) :
    parse_meta_match_loop env (fuel + 1) (name ++ 32 :: X) d m =
      parse_meta_match_loop env fuel (skip_whitespace X) (Int.lor d v)
        (if is_meta_handed v then Int.lor m v else Int.lor m (Int.land v 15)) := by
  obtain ⟨ht, hs⟩ := token_of_plain_name name X hn
  cases name with
  | nil => simp [plain_name] at hn
  | cons c cs =>
    simp only [plain_name, Bool.and_eq_true, bne_iff_ne, ne_eq] at hn
    have h45 : (c == 45) = false := by simpa using hn.1.1.2
    simp only [List.cons_append] at ht hs ⊢
    simp only [parse_meta_match_loop, h45, Bool.false_eq_true, if_false, ht, hs, hv, hi]

theorem parse_step_neg (env : Env) (fuel : Nat) (name X : List Nat) (d m v : Int)
    (hn : plain_name name = true) (hv : env.lookup_meta_token name = v)
    (hi : v ≠ INVALID_NUMBER) :
    parse_meta_match_loop env (fuel + 1) (45 :: (name ++ 32 :: X)) d m =
      parse_meta_match_loop env fuel (skip_whitespace X) (and_not d v) (Int.lor m v) := by
  obtain ⟨ht, hs⟩ := token_of_plain_name name X hn
  simp only [parse_meta_match_loop, beq_self_eq_true, if_true, ht, hs, hv, hi, if_false]

theorem testBit_sub_and (x y : Nat) : ∀ i, (x - (x &&& y)).testBit i = (x.testBit i && !y.testBit i) := by
  intro i
  induction i generalizing x y with
  | zero =>
    have h1 : x &&& y ≤ x := Nat.and_le_left
    have h2 := @Nat.and_mod_two_eq_one x y
    simp only [Nat.testBit_zero]
    by_cases hx : x % 2 = 1 <;> by_cases hy : y % 2 = 1 <;> simp [hx, hy] <;> omega
  | succ i ih =>
    have h1 : x &&& y ≤ x := Nat.and_le_left
    have h2 := @Nat.and_mod_two_eq_one x y
    have h3 : (x &&& y) / 2 = x / 2 &&& y / 2 := Nat.and_div_two
    simp only [Nat.testBit_succ]
    rw [← ih (x / 2) (y / 2), ← h3]
    congr 1
    by_cases hx : x % 2 = 1 <;> by_cases hy : y % 2 = 1 <;> omega

theorem and_bit_ne_zero (x i : Nat) : x &&& (1 <<< i) ≠ 0 ↔ x.testBit i = true := by
  rw [Nat.one_shiftLeft]
  constructor
  · intro h
    by_contra hb
    apply h
    apply Nat.eq_of_testBit_eq
    intro j
    simp only [Nat.testBit_and, Nat.testBit_two_pow, Nat.zero_testBit]
    by_cases hj : i = j
    · subst hj; simp [hb]
    · simp [hj]
  · intro h h0
    have : (x &&& 2 ^ i).testBit i = true := by simp [Nat.testBit_and, Nat.testBit_two_pow, h]
    rw [h0] at this
    simp at this

theorem and_bit_eq_zero (x i : Nat) : x &&& (1 <<< i) = 0 ↔ x.testBit i = false := by
  have := and_bit_ne_zero x i
  constructor
  · intro h; by_contra hb; simp at hb; exact (this.2 hb) h
  · intro h; by_contra hb; have := this.1 hb; simp [h] at this

theorem and_pair_ne_zero (x i : Nat) :
    x &&& ((1 <<< (i + 4)) ||| (1 <<< i)) ≠ 0 ↔ (x.testBit (i + 4) = true ∨ x.testBit i = true) := by
  rw [Nat.one_shiftLeft, Nat.one_shiftLeft]
  constructor
  · intro h
    by_contra hb
    simp only [not_or, Bool.not_eq_true] at hb
    apply h
    apply Nat.eq_of_testBit_eq
    intro j
    simp only [Nat.testBit_and, Nat.testBit_or, Nat.testBit_two_pow, Nat.zero_testBit]
    by_cases hj : i + 4 = j
    · subst hj; simp [hb.1]
    · by_cases hj2 : i = j
      · subst hj2; simp [hb.2]
      · simp [hj, hj2]
  · intro h h0
    have h4 : (x &&& (2 ^ (i + 4) ||| 2 ^ i)).testBit (i + 4) = x.testBit (i + 4) := by
      simp [Nat.testBit_and, Nat.testBit_or, Nat.testBit_two_pow]
    have h5 : (x &&& (2 ^ (i + 4) ||| 2 ^ i)).testBit i = x.testBit i := by
      simp [Nat.testBit_and, Nat.testBit_or, Nat.testBit_two_pow]
    rw [h0] at h4 h5
    simp only [Nat.zero_testBit] at h4 h5
    rcases h with h | h
    · rw [h] at h4; simp at h4
    · rw [h] at h5; simp at h5

theorem testBit_255_sub (y j : Nat) (hy : y < 256) :
    (255 - y).testBit j = (decide (j < 8) && !y.testBit j) := by
  have : 255 - y = 2 ^ 8 - (y + 1) := by omega
  rw [this, Nat.testBit_two_pow_sub_succ (by omega)]

theorem testBit_ge_8 (x j : Nat) (hx : x < 256) (hj : 8 ≤ j) : x.testBit j = false := by
  apply Nat.testBit_lt_two_pow
  calc x < 2 ^ 8 := by omega
    _ ≤ 2 ^ j := Nat.pow_le_pow_right (by decide) hj

theorem testBit_15 (j : Nat) : Nat.testBit 15 j = decide (j < 4) := by
  have : (15 : Nat) = 2 ^ 4 - 1 := by decide
  rw [this, Nat.testBit_two_pow_sub_one]

theorem testBit_240 (j : Nat) : Nat.testBit 240 j = (decide (j < 8) && !decide (j < 4)) := by
  have : (240 : Nat) = 255 - 15 := by decide
  rw [this, testBit_255_sub 15 j (by decide), testBit_15]

theorem pair_mask_lt (i : Nat) (hi : i < 4) : (1 <<< (i + 4)) ||| (1 <<< i) < 256 := by
  interval_cases i <;> decide

theorem bit_mask_lt (i : Nat) (hi : i < 8) : 1 <<< i < 256 := by
  interval_cases i <;> decide

theorem int_lor_cast (a b : Nat) : Int.lor (a : Int) (b : Int) = ((a ||| b : Nat) : Int) := rfl

theorem int_land_cast (a b : Nat) : Int.land (a : Int) (b : Int) = ((a &&& b : Nat) : Int) := rfl

theorem and_not_cast (a b : Nat) : and_not (a : Int) (b : Int) = ((a - (a &&& b) : Nat) : Int) := by
  unfold and_not
  rw [int_land_cast, Int.ofNat_sub Nat.and_le_left]

theorem hmetas_entry (i : Nat) (hi : i < 8) :
    ∃ name, Scdis.hmetas.get? i = some name ∧ plain_name name = true ∧
      (name, ((1 <<< i : Nat) : Int)) ∈ meta_token_list ∧
      is_meta_handed ((1 <<< i : Nat) : Int) = true := by
  interval_cases i <;> exact ⟨_, rfl, by decide, by decide, by decide⟩

theorem metas_entry (i : Nat) (hi : i < 4) :
    ∃ name, Scdis.metas.get? i = some name ∧ plain_name name = true ∧
      (name, (((1 <<< (i + 4)) ||| (1 <<< i) : Nat) : Int)) ∈ meta_token_list ∧
      is_meta_handed (((1 <<< (i + 4)) ||| (1 <<< i) : Nat) : Int) = false ∧
      ((1 <<< (i + 4)) ||| (1 <<< i)) &&& 15 = 1 <<< i := by
  interval_cases i <;> exact ⟨_, rfl, by decide, by decide, by decide, by decide⟩

theorem string_append_name (ret : Option (List Nat)) (name : List Nat) (b : Bool)
    (h : name ≠ []) :
    Scdis.string_append ret (some name) b =
      some (ret.getD [] ++ name ++ (if b then [32] else [])) := by
  cases name with
  | nil => exact absurd rfl h
  | cons c cs => rfl

theorem plain_name_head (name : List Nat) (X : List Nat) (h : plain_name name = true) :
    name ≠ [] ∧ skip_whitespace (name ++ X) = name ++ X := by
  cases name with
  | nil => simp [plain_name] at h
  | cons c cs =>
    simp only [plain_name, Bool.and_eq_true, bne_iff_ne, ne_eq, Bool.not_eq_eq_eq_not,
      Bool.not_true] at h
    refine ⟨by simp, ?_⟩
    simp [skip_whitespace, List.dropWhile, h.1.2]

theorem parses_to_nil (env : Env) : parses_to env [] 0 (0, 0) := by
  intro fuel X _
  rfl

theorem parses_to_pos (env : Env) (s name : List Nat) (k v : Nat) (a : Nat × Nat)
    (hs : parses_to env s k a) (hn : plain_name name = true)
    (hv : env.lookup_meta_token name = (v : Int)) :
    parses_to env (s ++ name ++ [32]) (k + 1)
      (a.1 ||| v, if is_meta_handed (v : Int) then a.2 ||| v else a.2 ||| (v &&& 15)) := by
  intro fuel X hX
  have h1 : s ++ name ++ [32] ++ X = s ++ (name ++ 32 :: X) := by simp
  have h2 : fuel + (k + 1) = (fuel + 1) + k := by omega
  rw [h1, h2, hs (fuel + 1) (name ++ 32 :: X) (plain_name_head name _ hn).2,
    parse_step_pos env fuel name X _ _ _ hn hv (natCast_ne_invalid v), hX, int_lor_cast]
  split_ifs
  · rw [int_lor_cast]
  · have : ((15 : Nat) : Int) = 15 := rfl
    rw [← this, int_land_cast, int_lor_cast]

theorem parses_to_neg (env : Env) (s name : List Nat) (k v : Nat) (a : Nat × Nat)
    (hs : parses_to env s k a) (hn : plain_name name = true)
    (hv : env.lookup_meta_token name = (v : Int)) :
    parses_to env (s ++ [45] ++ name ++ [32]) (k + 1) (a.1 - (a.1 &&& v), a.2 ||| v) := by
  intro fuel X hX
  have h1 : s ++ [45] ++ name ++ [32] ++ X = s ++ 45 :: (name ++ 32 :: X) := by simp
  have h2 : fuel + (k + 1) = (fuel + 1) + k := by omega
  have h3 : skip_whitespace (45 :: (name ++ 32 :: X)) = 45 :: (name ++ 32 :: X) := by
    simp [skip_whitespace, List.dropWhile, isspace]
  rw [h1, h2, hs (fuel + 1) _ h3,
    parse_step_neg env fuel name X _ _ _ hn hv (natCast_ne_invalid v), hX, int_lor_cast,
    and_not_cast]

theorem handed_loop (env : Env)
    (h12 : ∀ e ∈ meta_token_list, env.lookup_meta_token e.1 = e.2) (d1 m1 : Nat) :
    ∀ n i ret k a, i + n = 8 → acc_ok env ret k a →
      ∃ k1, acc_ok env (Scdis.match_metas_handed d1 m1 n i ret) k1 (handed_vals d1 m1 n i a) := by
  intro n
  induction n with
  | zero => intro i ret k a _ h; exact ⟨k, h⟩
  | succ n ih =>
    intro i ret k a hin h
    obtain ⟨name, hget, hplain, hmem, hhand⟩ := hmetas_entry i (by omega)
    have hv := h12 _ hmem
    have hne := (plain_name_head name [] hplain).1
    simp only [Scdis.match_metas_handed, handed_vals, hget]
    by_cases hm : m1 &&& (1 <<< i) ≠ 0
    · rw [if_pos hm, if_pos hm]
      apply ih (i + 1) _ (k + 1) _ (by omega)
      by_cases hd : d1 &&& (1 <<< i) = 0
      · rw [if_pos hd, if_pos hd, string_append_name ret [45] false (by simp),
          string_append_name _ name true hne]
        refine ⟨?_, ?_, by simp⟩
        · have := h.1; simp; omega
        · simpa using parses_to_neg env _ name k _ a h.2.1 hplain hv
      · rw [if_neg hd, if_neg hd, string_append_name ret name true hne]
        refine ⟨?_, ?_, by simp⟩
        · have := h.1
          have : 0 < name.length := List.length_pos.2 hne
          simp; omega
        · have := parses_to_pos env _ name k _ a h.2.1 hplain hv
          rw [hhand] at this
          simpa using this
    · rw [if_neg hm, if_neg hm]
      exact ih (i + 1) ret k a (by omega) h

theorem unhanded_loop (env : Env)
    (h12 : ∀ e ∈ meta_token_list, env.lookup_meta_token e.1 = e.2) (unh : Nat) :
    ∀ n i ret k a d m, i + n = 4 → acc_ok env ret k a →
      ∃ k1, acc_ok env (Scdis.match_metas_unhanded unh n i ret d m).1 k1
        (unhanded_vals unh n i a) := by
  intro n
  induction n with
  | zero => intro i ret k a d m _ h; exact ⟨k, h⟩
  | succ n ih =>
    intro i ret k a d m hin h
    obtain ⟨name, hget, hplain, hmem, hhand, hlow⟩ := metas_entry i (by omega)
    have hv := h12 _ hmem
    have hne := (plain_name_head name [] hplain).1
    simp only [Scdis.match_metas_unhanded, unhanded_vals, hget]
    by_cases hu : unh &&& ((1 <<< (i + 4)) ||| (1 <<< i)) ≠ 0
    · rw [if_pos hu, if_pos hu]
      apply ih (i + 1) _ (k + 1) _ _ _ (by omega)
      rw [string_append_name ret name true hne]
      refine ⟨?_, ?_, by simp⟩
      · have := h.1
        have : 0 < name.length := List.length_pos.2 hne
        simp; omega
      · have := parses_to_pos env _ name k _ a h.2.1 hplain hv
        rw [hhand, hlow] at this
        simpa using this
    · rw [if_neg hu, if_neg hu]
      exact ih (i + 1) ret k a d m (by omega) h

theorem testBit_one_shiftLeft (i j : Nat) : (1 <<< i).testBit j = decide (i = j) := by
  rw [Nat.one_shiftLeft, Nat.testBit_two_pow]

theorem handed_vals_bits (d1 m1 : Nat) :
    ∀ n i a j,
      (handed_vals d1 m1 n i a).1.testBit j =
        (if i ≤ j ∧ j < i + n ∧ m1.testBit j = true then d1.testBit j else a.1.testBit j) ∧
      (handed_vals d1 m1 n i a).2.testBit j =
        (if i ≤ j ∧ j < i + n ∧ m1.testBit j = true then true else a.2.testBit j) := by
  intro n
  induction n with
  | zero =>
    intro i a j
    have c : ¬ (i ≤ j ∧ j < i + 0 ∧ m1.testBit j = true) := by omega
    simp only [handed_vals, if_neg c, and_self]
  | succ n ih =>
    intro i a j
    simp only [handed_vals]
    by_cases hm : m1 &&& (1 <<< i) ≠ 0
    · have hmb := (and_bit_ne_zero m1 i).1 hm
      rw [if_pos hm]
      by_cases hd : d1 &&& (1 <<< i) = 0
      · have hdb := (and_bit_eq_zero d1 i).1 hd
        rw [if_pos hd]
        obtain ⟨h1, h2⟩ := ih (i + 1) (a.1 - (a.1 &&& (1 <<< i)), a.2 ||| (1 <<< i)) j
        rw [h1, h2]
        simp only [testBit_sub_and, Nat.testBit_or, testBit_one_shiftLeft]
        by_cases hj : i = j
        · subst hj
          have c1 : ¬ (i + 1 ≤ i ∧ i < i + 1 + n ∧ m1.testBit i = true) := by omega
          have c2 : (i ≤ i ∧ i < i + (n + 1) ∧ m1.testBit i = true) := ⟨le_refl _, by omega, hmb⟩
          simp [c1, c2, hdb]
        · have c : (i + 1 ≤ j ∧ j < i + 1 + n ∧ m1.testBit j = true) ↔
              (i ≤ j ∧ j < i + (n + 1) ∧ m1.testBit j = true) := by
            constructor <;> rintro ⟨x, y, z⟩ <;> exact ⟨by omega, by omega, z⟩
          simp [c, hj]
      · have hdb : d1.testBit i = true := by
          by_contra hb
          exact hd ((and_bit_eq_zero d1 i).2 (by simpa using hb))
        rw [if_neg hd]
        obtain ⟨h1, h2⟩ := ih (i + 1) (a.1 ||| (1 <<< i), a.2 ||| (1 <<< i)) j
        rw [h1, h2]
        simp only [Nat.testBit_or, testBit_one_shiftLeft]
        by_cases hj : i = j
        · subst hj
          have c1 : ¬ (i + 1 ≤ i ∧ i < i + 1 + n ∧ m1.testBit i = true) := by omega
          have c2 : (i ≤ i ∧ i < i + (n + 1) ∧ m1.testBit i = true) := ⟨le_refl _, by omega, hmb⟩
          simp [c1, c2, hdb]
        · have c : (i + 1 ≤ j ∧ j < i + 1 + n ∧ m1.testBit j = true) ↔
              (i ≤ j ∧ j < i + (n + 1) ∧ m1.testBit j = true) := by
            constructor <;> rintro ⟨x, y, z⟩ <;> exact ⟨by omega, by omega, z⟩
          simp [c, hj]
    · have hmb : m1.testBit i = false := by
        by_contra hb
        exact hm ((and_bit_ne_zero m1 i).2 (by simpa using hb))
      rw [if_neg hm]
      obtain ⟨h1, h2⟩ := ih (i + 1) a j
      rw [h1, h2]
      have c : (i + 1 ≤ j ∧ j < i + 1 + n ∧ m1.testBit j = true) ↔
          (i ≤ j ∧ j < i + (n + 1) ∧ m1.testBit j = true) := by
        constructor
        · rintro ⟨x, y, z⟩; exact ⟨by omega, by omega, z⟩
        · rintro ⟨x, y, z⟩
          refine ⟨?_, by omega, z⟩
          by_contra hc
          have : j = i := by omega
          subst this
          rw [hmb] at z
          exact Bool.noConfusion z
      simp [c]

theorem exists_interval_succ (Q : Nat → Prop) (i n : Nat) :
    (∃ k, i ≤ k ∧ k < i + (n + 1) ∧ Q k) ↔ (Q i ∨ ∃ k, i + 1 ≤ k ∧ k < i + 1 + n ∧ Q k) := by
  constructor
  · rintro ⟨k, h1, h2, h3⟩
    by_cases hk : k = i
    · subst hk; exact Or.inl h3
    · exact Or.inr ⟨k, by omega, by omega, h3⟩
  · rintro (h | ⟨k, h1, h2, h3⟩)
    · exact ⟨i, le_refl _, by omega, h⟩
    · exact ⟨k, by omega, by omega, h3⟩

theorem forall_interval_succ (Q : Nat → Prop) (i n : Nat) :
    (∀ k, i ≤ k → k < i + (n + 1) → Q k) ↔ (Q i ∧ ∀ k, i + 1 ≤ k → k < i + 1 + n → Q k) := by
  constructor
  · intro h
    exact ⟨h i (le_refl _) (by omega), fun k h1 h2 => h k (by omega) (by omega)⟩
  · rintro ⟨h0, h⟩ k h1 h2
    by_cases hk : k = i
    · subst hk; exact h0
    · exact h k (by omega) (by omega)

theorem unhanded_vals_bits (unh : Nat) :
    ∀ n i a j,
      ((unhanded_vals unh n i a).1.testBit j = true ↔
        (a.1.testBit j = true ∨ ∃ k, i ≤ k ∧ k < i + n ∧
          (unh &&& ((1 <<< (k + 4)) ||| (1 <<< k)) ≠ 0 ∧ (j = k + 4 ∨ j = k)))) ∧
      ((unhanded_vals unh n i a).2.testBit j = true ↔
        (a.2.testBit j = true ∨ ∃ k, i ≤ k ∧ k < i + n ∧
          (unh &&& ((1 <<< (k + 4)) ||| (1 <<< k)) ≠ 0 ∧ j = k))) := by
  intro n
  induction n with
  | zero =>
    intro i a j
    simp only [unhanded_vals]
    constructor <;> constructor
    · exact fun h => Or.inl h
    · rintro (h | ⟨k, h1, h2, _⟩)
      · exact h
      · omega
    · exact fun h => Or.inl h
    · rintro (h | ⟨k, h1, h2, _⟩)
      · exact h
      · omega
  | succ n ih =>
    intro i a j
    simp only [unhanded_vals]
    rw [exists_interval_succ, exists_interval_succ]
    by_cases hu : unh &&& ((1 <<< (i + 4)) ||| (1 <<< i)) ≠ 0
    · rw [if_pos hu]
      obtain ⟨h1, h2⟩ := ih (i + 1) (a.1 ||| ((1 <<< (i + 4)) ||| (1 <<< i)), a.2 ||| (1 <<< i)) j
      rw [h1, h2]
      simp only [Nat.testBit_or, testBit_one_shiftLeft, Bool.or_eq_true, decide_eq_true_eq]
      constructor
      · constructor
        · rintro ((h | h | h) | h)
          · exact Or.inl h
          · exact Or.inr (Or.inl ⟨hu, Or.inl h.symm⟩)
          · exact Or.inr (Or.inl ⟨hu, Or.inr h.symm⟩)
          · exact Or.inr (Or.inr h)
        · rintro (h | ⟨_, h | h⟩ | h)
          · exact Or.inl (Or.inl h)
          · exact Or.inl (Or.inr (Or.inl h.symm))
          · exact Or.inl (Or.inr (Or.inr h.symm))
          · exact Or.inr h
      · constructor
        · rintro ((h | h) | h)
          · exact Or.inl h
          · exact Or.inr (Or.inl ⟨hu, h.symm⟩)
          · exact Or.inr (Or.inr h)
        · rintro (h | ⟨_, h⟩ | h)
          · exact Or.inl (Or.inl h)
          · exact Or.inl (Or.inr h.symm)
          · exact Or.inr h
    · rw [if_neg hu]
      obtain ⟨h1, h2⟩ := ih (i + 1) a j
      rw [h1, h2]
      constructor
      · constructor
        · rintro (h | h)
          · exact Or.inl h
          · exact Or.inr (Or.inr h)
        · rintro (h | ⟨h, _⟩ | h)
          · exact Or.inl h
          · exact absurd h hu
          · exact Or.inr h
      · constructor
        · rintro (h | h)
          · exact Or.inl h
          · exact Or.inr (Or.inr h)
        · rintro (h | ⟨h, _⟩ | h)
          · exact Or.inl h
          · exact absurd h hu
          · exact Or.inr h

theorem testBit_clear_pair (x i j : Nat) (hi : i < 4) :
    (x &&& (255 - ((1 <<< (i + 4)) ||| (1 <<< i)))).testBit j = true ↔
      (x.testBit j = true ∧ (j < 8 ∧ j ≠ i + 4 ∧ j ≠ i)) := by
  rw [Nat.testBit_and, testBit_255_sub _ _ (pair_mask_lt i hi)]
  simp only [Nat.testBit_or, testBit_one_shiftLeft, Bool.and_eq_true, decide_eq_true_eq,
    Bool.not_eq_true', Bool.or_eq_false_iff, decide_eq_false_iff_not, ne_eq]
  constructor
  · rintro ⟨h1, h2, h3, h4⟩; exact ⟨h1, h2, fun h => h3 h.symm, fun h => h4 h.symm⟩
  · rintro ⟨h1, h2, h3, h4⟩; exact ⟨h1, h2, fun h => h3 h.symm, fun h => h4 h.symm⟩

theorem unhanded_rest_bits (unh : Nat) :
    ∀ n i ret d m j, i + n ≤ 4 →
      ((Scdis.match_metas_unhanded unh n i ret d m).2.1.testBit j = true ↔
        (d.testBit j = true ∧ ∀ k, i ≤ k → k < i + n →
          (unh &&& ((1 <<< (k + 4)) ||| (1 <<< k)) ≠ 0 → j < 8 ∧ j ≠ k + 4 ∧ j ≠ k))) ∧
      ((Scdis.match_metas_unhanded unh n i ret d m).2.2.testBit j = true ↔
        (m.testBit j = true ∧ ∀ k, i ≤ k → k < i + n →
          (unh &&& ((1 <<< (k + 4)) ||| (1 <<< k)) ≠ 0 → j < 8 ∧ j ≠ k + 4 ∧ j ≠ k))) := by
  intro n
  induction n with
  | zero =>
    intro i ret d m j _
    simp only [Scdis.match_metas_unhanded]
    constructor <;> constructor
    · exact fun h => ⟨h, fun k h1 h2 => by omega⟩
    · exact fun h => h.1
    · exact fun h => ⟨h, fun k h1 h2 => by omega⟩
    · exact fun h => h.1
  | succ n ih =>
    intro i ret d m j hin
    simp only [Scdis.match_metas_unhanded]
    rw [forall_interval_succ]
    by_cases hu : unh &&& ((1 <<< (i + 4)) ||| (1 <<< i)) ≠ 0
    · rw [if_pos hu]
      obtain ⟨h1, h2⟩ := ih (i + 1) (Scdis.string_append ret (Scdis.metas.get? i) true)
        (d &&& (255 - ((1 <<< (i + 4)) ||| (1 <<< i))))
        (m &&& (255 - ((1 <<< (i + 4)) ||| (1 <<< i)))) j (by omega)
      rw [h1, h2, testBit_clear_pair _ _ _ (by omega), testBit_clear_pair _ _ _ (by omega)]
      constructor
      · constructor
        · rintro ⟨⟨a1, a2⟩, a3⟩; exact ⟨a1, fun _ => a2, a3⟩
        · rintro ⟨a1, a2, a3⟩; exact ⟨⟨a1, a2 hu⟩, a3⟩
      · constructor
        · rintro ⟨⟨a1, a2⟩, a3⟩; exact ⟨a1, fun _ => a2, a3⟩
        · rintro ⟨a1, a2, a3⟩; exact ⟨⟨a1, a2 hu⟩, a3⟩
    · rw [if_neg hu]
      obtain ⟨h1, h2⟩ := ih (i + 1) ret d m j (by omega)
      rw [h1, h2]
      constructor
      · constructor
        · rintro ⟨a1, a3⟩; exact ⟨a1, fun h => absurd h hu, a3⟩
        · rintro ⟨a1, _, a3⟩; exact ⟨a1, a3⟩
      · constructor
        · rintro ⟨a1, a3⟩; exact ⟨a1, fun h => absurd h hu, a3⟩
        · rintro ⟨a1, _, a3⟩; exact ⟨a1, a3⟩

theorem table_value (env : Env)
    (h12 : ∀ e ∈ meta_token_list, env.lookup_meta_token e.1 = e.2)
    (hother : ∀ t, t ∉ meta_token_list.map Prod.fst → env.lookup_meta_token t = INVALID_NUMBER)
    (t : List Nat) (h : env.lookup_meta_token t ≠ INVALID_NUMBER) :
    ∃ v : Nat, v < 256 ∧ env.lookup_meta_token t = (v : Int) := by
  by_cases ht : t ∈ meta_token_list.map Prod.fst
  · obtain ⟨e, he, rfl⟩ := List.mem_map.1 ht
    rw [h12 e he]
    have : ∀ e ∈ meta_token_list, ∃ v : Nat, v < 256 ∧ e.2 = (v : Int) := by
      intro e he
      simp only [meta_token_list, List.mem_cons, List.mem_singleton, List.not_mem_nil,
        or_false] at he
      rcases he with rfl | rfl | rfl | rfl | rfl | rfl | rfl | rfl | rfl | rfl | rfl | rfl
      · exact ⟨1, by decide, rfl⟩
      · exact ⟨2, by decide, rfl⟩
      · exact ⟨4, by decide, rfl⟩
      · exact ⟨8, by decide, rfl⟩
      · exact ⟨16, by decide, rfl⟩
      · exact ⟨32, by decide, rfl⟩
      · exact ⟨64, by decide, rfl⟩
      · exact ⟨128, by decide, rfl⟩
      · exact ⟨17, by decide, rfl⟩
      · exact ⟨34, by decide, rfl⟩
      · exact ⟨68, by decide, rfl⟩
      · exact ⟨136, by decide, rfl⟩
    exact this e he
  · exact absurd (hother t ht) h

/-- The values of an accepted modifier list are bytes, and every left bit that
is desired is matched. -/
theorem parse_accept_inv (env : Env)
    (h12 : ∀ e ∈ meta_token_list, env.lookup_meta_token e.1 = e.2)
    (hother : ∀ t, t ∉ meta_token_list.map Prod.fst → env.lookup_meta_token t = INVALID_NUMBER) :
    ∀ (fuel : Nat) (p : List Nat) (a b : Nat) (d m : Int), a < 256 → b < 256 →
      (∀ i < 4, a.testBit i = true → b.testBit i = true) →
      parse_meta_match_loop env fuel p (a : Int) (b : Int) = (1, d, m) →
      ∃ a1 b1 : Nat, d = (a1 : Int) ∧ m = (b1 : Int) ∧ a1 < 256 ∧ b1 < 256 ∧
        ∀ i < 4, a1.testBit i = true → b1.testBit i = true := by
  intro fuel
  induction fuel with
  | zero =>
    intro p a b d m ha hb hab h
    simp only [parse_meta_match_loop, Prod.mk.injEq, true_and] at h
    exact ⟨a, b, h.1.symm, h.2.symm, ha, hb, hab⟩
  | succ fuel ih =>
    intro p a b d m ha hb hab h
    cases p with
    | nil =>
      simp only [parse_meta_match_loop, Prod.mk.injEq, true_and] at h
      exact ⟨a, b, h.1.symm, h.2.symm, ha, hb, hab⟩
    | cons c q =>
      simp only [parse_meta_match_loop] at h
      revert h
      cases hg : get_token (if (c == 45) = true then q else c :: q) with
      | none => intro h; simp at h
      | some t =>
        intro h
        simp only [] at h
        by_cases hi : env.lookup_meta_token t = INVALID_NUMBER
        · simp [hi] at h
        · obtain ⟨v, hv, hvt⟩ := table_value env h12 hother t hi
          rw [if_neg hi, hvt] at h
          by_cases hinv : (c == 45) = true
          · rw [if_pos hinv, and_not_cast, int_lor_cast] at h
            refine ih _ _ _ d m ?_ ?_ ?_ h
            · have : a &&& v ≤ a := Nat.and_le_left
              omega
            · exact Nat.or_lt_two_pow (n := 8) hb hv
            · intro i hi4 hbit
              rw [testBit_sub_and] at hbit
              simp only [Bool.and_eq_true] at hbit
              simp [hab i hi4 hbit.1]
          · rw [if_neg hinv, int_lor_cast] at h
            have h15 : ((15 : Nat) : Int) = 15 := rfl
            by_cases hh : is_meta_handed (v : Int) = true
            · rw [if_pos hh, int_lor_cast] at h
              refine ih _ _ _ d m ?_ ?_ ?_ h
              · exact Nat.or_lt_two_pow (n := 8) ha hv
              · exact Nat.or_lt_two_pow (n := 8) hb hv
              · intro i hi4 hbit
                simp only [Nat.testBit_or, Bool.or_eq_true] at hbit ⊢
                rcases hbit with hbit | hbit
                · exact Or.inl (hab i hi4 hbit)
                · exact Or.inr hbit
            · rw [if_neg hh, ← h15, int_land_cast, int_lor_cast] at h
              refine ih _ _ _ d m ?_ ?_ ?_ h
              · exact Nat.or_lt_two_pow (n := 8) ha hv
              · exact Nat.or_lt_two_pow (n := 8) hb (Nat.and_lt_two_pow v (n := 4) (by decide) |>.trans (by decide))
              · intro i hi4 hbit
                simp only [Nat.testBit_or, Nat.testBit_and, testBit_15, Bool.or_eq_true,
                  Bool.and_eq_true, decide_eq_true_eq] at hbit ⊢
                rcases hbit with hbit | hbit
                · exact Or.inl (hab i hi4 hbit)
                · exact Or.inr ⟨hbit, hi4⟩

theorem unhanded_pair (d m k : Nat) (hm : m < 256) (hk : k < 4) :
    ((d &&& (255 - m)) &&& 240) &&& ((1 <<< (k + 4)) ||| (1 <<< k)) ≠ 0 ↔
      (d.testBit (k + 4) = true ∧ m.testBit (k + 4) = false) := by
  rw [and_pair_ne_zero]
  simp only [Nat.testBit_and, testBit_255_sub m _ hm, testBit_240, Bool.and_eq_true,
    decide_eq_true_eq, Bool.not_eq_true', decide_eq_false_iff_not]
  constructor
  · rintro (⟨⟨h1, _, h2⟩, _⟩ | ⟨_, _, h⟩)
    · exact ⟨h1, h2⟩
    · omega
  · rintro ⟨h1, h2⟩
    exact Or.inl ⟨⟨h1, by omega, h2⟩, by omega, by omega⟩

theorem hit_exists (U : Nat → Prop) (j : Nat) :
    (∃ k, 0 ≤ k ∧ k < 0 + 4 ∧ (U k ∧ (j = k + 4 ∨ j = k))) ↔ (j < 8 ∧ U (j % 4)) := by
  constructor
  · rintro ⟨k, _, h2, h3, h4 | h4⟩
    · subst h4
      have : (k + 4) % 4 = k := by omega
      rw [this]; exact ⟨by omega, h3⟩
    · subst h4
      have : j % 4 = j := by omega
      rw [this]; exact ⟨by omega, h3⟩
  · rintro ⟨h1, h2⟩
    exact ⟨j % 4, by omega, by omega, h2, by omega⟩

theorem hit_exists_low (U : Nat → Prop) (j : Nat) :
    (∃ k, 0 ≤ k ∧ k < 0 + 4 ∧ (U k ∧ j = k)) ↔ (j < 4 ∧ U (j % 4)) := by
  constructor
  · rintro ⟨k, _, h2, h3, h4⟩
    subst h4
    have : j % 4 = j := by omega
    rw [this]; exact ⟨by omega, h3⟩
  · rintro ⟨h1, h2⟩
    have : j % 4 = j := by omega
    rw [this] at h2
    exact ⟨j, by omega, by omega, h2, rfl⟩

theorem hit_forall (U : Nat → Prop) (j : Nat) (hj : j < 8) :
    (∀ k, 0 ≤ k → k < 0 + 4 → (U k → j < 8 ∧ j ≠ k + 4 ∧ j ≠ k)) ↔ ¬ U (j % 4) := by
  constructor
  · intro h hu
    have := h (j % 4) (by omega) (by omega) hu
    omega
  · intro h k _ h2 hu
    refine ⟨hj, ?_, ?_⟩
    · rintro rfl
      have : (k + 4) % 4 = k := by omega
      rw [this] at h; exact h hu
    · rintro rfl
      have : j % 4 = j := by omega
      rw [this] at h; exact h hu

/-- The bits of the values that parsing the printed text accumulates. -/
theorem round_vals_bits (d m j : Nat) (hd : d < 256) (hm : m < 256) :
    let unh := (d &&& (255 - m)) &&& 240
    let r := Scdis.match_metas_unhanded unh 4 0 none d m
    let hit := j < 8 ∧ d.testBit (j % 4 + 4) = true ∧ m.testBit (j % 4 + 4) = false
    ((handed_vals r.2.1 r.2.2 8 0 (unhanded_vals unh 4 0 (0, 0))).1.testBit j = true ↔
      (hit ∨ (m.testBit j = true ∧ d.testBit j = true))) ∧
    ((handed_vals r.2.1 r.2.2 8 0 (unhanded_vals unh 4 0 (0, 0))).2.testBit j = true ↔
      ((hit ∧ j < 4) ∨ (¬ hit ∧ m.testBit j = true))) := by
  intro unh r hit
  have hU : unh &&& ((1 <<< (j % 4 + 4)) ||| (1 <<< (j % 4))) ≠ 0 ↔
      (d.testBit (j % 4 + 4) = true ∧ m.testBit (j % 4 + 4) = false) :=
    unhanded_pair d m (j % 4) hm (Nat.mod_lt _ (by decide))
  obtain ⟨hv1, hv2⟩ := unhanded_vals_bits unh 4 0 (0, 0) j
  obtain ⟨hr1, hr2⟩ := unhanded_rest_bits unh 4 0 none d m j (le_refl _)
  rw [hit_exists (fun k => unh &&& ((1 <<< (k + 4)) ||| (1 <<< k)) ≠ 0) j] at hv1
  rw [hit_exists_low (fun k => unh &&& ((1 <<< (k + 4)) ||| (1 <<< k)) ≠ 0) j] at hv2
  simp only [Nat.zero_testBit, Bool.false_eq_true, false_or, hU] at hv1 hv2
  obtain ⟨hh1, hh2⟩ := handed_vals_bits r.2.1 r.2.2 8 0 (unhanded_vals unh 4 0 (0, 0)) j
  rw [hh1, hh2]
  by_cases hj : j < 8
  · rw [hit_forall (fun k => unh &&& ((1 <<< (k + 4)) ||| (1 <<< k)) ≠ 0) j hj] at hr1 hr2
    simp only [hU] at hr1 hr2
    have c : (0 ≤ j ∧ j < 0 + 8 ∧ r.2.2.testBit j = true) ↔ r.2.2.testBit j = true :=
      ⟨fun h => h.2.2, fun h => ⟨Nat.zero_le _, by omega, h⟩⟩
    simp only [c]
    by_cases hh : d.testBit (j % 4 + 4) = true ∧ m.testBit (j % 4 + 4) = false
    · have m1 : r.2.2.testBit j = false := by
        by_contra hb
        exact (hr2.1 (by simpa using hb)).2 hh
      have a1 := hv1.2 ⟨hj, hh⟩
      simp only [m1, Bool.false_eq_true, if_false, a1, hv2, hit, hj, hh, true_and, and_self,
        true_or, not_true_eq_false, false_and, or_false]
      simp
    · have hnh : ¬ hit := fun h => hh h.2
      have a1 : (unhanded_vals unh 4 0 (0, 0)).1.testBit j = false := by
        by_contra hb
        exact hh (hv1.1 (by simpa using hb)).2
      have a2 : (unhanded_vals unh 4 0 (0, 0)).2.testBit j = false := by
        by_contra hb
        exact hh (hv2.1 (by simpa using hb)).2
      have m1 : r.2.2.testBit j = m.testBit j := by
        rw [Bool.eq_iff_iff, hr2]; exact ⟨fun h => h.1, fun h => ⟨h, hh⟩⟩
      have d1 : r.2.1.testBit j = d.testBit j := by
        rw [Bool.eq_iff_iff, hr1]; exact ⟨fun h => h.1, fun h => ⟨h, hh⟩⟩
      rw [m1, d1, a1, a2]
      simp only [hnh, false_or, false_and, not_false_eq_true, true_and]
      cases m.testBit j <;> simp
  · have dj := testBit_ge_8 d j hd (by omega)
    have mj := testBit_ge_8 m j hm (by omega)
    have c : ¬ (0 ≤ j ∧ j < 0 + 8 ∧ r.2.2.testBit j = true) := by omega
    have hnh : ¬ hit := fun h => hj h.1
    have a1 : (unhanded_vals unh 4 0 (0, 0)).1.testBit j = false := by
      by_contra hb
      exact hj (hv1.1 (by simpa using hb)).1
    have a2 : (unhanded_vals unh 4 0 (0, 0)).2.testBit j = false := by
      by_contra hb
      have := (hv2.1 (by simpa using hb)).1
      omega
    simp only [if_neg c, a1, a2, hnh, dj, mj, Bool.false_eq_true, false_and, and_false, or_self]
    exact ⟨trivial, trivial⟩

theorem round_vals_eq (d m : Nat) (hd : d < 256) (hm : m < 256)
    (ha : ∀ i < 4, d.testBit i = true → m.testBit i = true)
    (hb : ∀ i < 4, d.testBit (i + 4) = true → m.testBit (i + 4) = false → d.testBit i = true) :
    handed_vals
      (Scdis.match_metas_unhanded ((d &&& (255 - m)) &&& 240) 4 0 none d m).2.1
      (Scdis.match_metas_unhanded ((d &&& (255 - m)) &&& 240) 4 0 none d m).2.2 8 0
      (unhanded_vals ((d &&& (255 - m)) &&& 240) 4 0 (0, 0)) = (d, m) := by
  apply Prod.ext
  · apply Nat.eq_of_testBit_eq
    intro j
    rw [Bool.eq_iff_iff, (round_vals_bits d m j hd hm).1]
    by_cases hj : j < 8
    · have hmod : j % 4 < 4 := Nat.mod_lt _ (by decide)
      by_cases hj4 : j < 4
      · have e : j % 4 = j := by omega
        have := ha j hj4
        have := hb j hj4
        rw [e]
        constructor
        · rintro (⟨_, h1, h2⟩ | ⟨_, h⟩)
          · exact hb j hj4 h1 h2
          · exact h
        · intro h; exact Or.inr ⟨ha j hj4 h, h⟩
      · have e : j % 4 + 4 = j := by omega
        rw [e]
        constructor
        · rintro (⟨_, h1, _⟩ | ⟨_, h⟩)
          · exact h1
          · exact h
        · intro h
          by_cases hmj : m.testBit j = true
          · exact Or.inr ⟨hmj, h⟩
          · exact Or.inl ⟨hj, h, by simpa using hmj⟩
    · have dj := testBit_ge_8 d j hd (by omega)
      simp [dj, hj]
  · apply Nat.eq_of_testBit_eq
    intro j
    rw [Bool.eq_iff_iff, (round_vals_bits d m j hd hm).2]
    by_cases hj : j < 8
    · by_cases hj4 : j < 4
      · have e : j % 4 = j := by omega
        rw [e]
        constructor
        · rintro (⟨⟨_, h1, h2⟩, _⟩ | ⟨_, h⟩)
          · exact ha j hj4 (hb j hj4 h1 h2)
          · exact h
        · intro h
          by_cases hh : j < 8 ∧ d.testBit (j + 4) = true ∧ m.testBit (j + 4) = false
          · exact Or.inl ⟨hh, hj4⟩
          · exact Or.inr ⟨hh, h⟩
      · have e : j % 4 + 4 = j := by omega
        rw [e]
        constructor
        · rintro (⟨_, h⟩ | ⟨_, h⟩)
          · omega
          · exact h
        · intro h
          refine Or.inr ⟨?_, h⟩
          rintro ⟨_, _, h2⟩
          rw [h] at h2
          exact Bool.noConfusion h2
    · have mj := testBit_ge_8 m j hm (by omega)
      simp [mj, hj]

theorem parse_loop_nil (env : Env) (fuel : Nat) (d m : Int) :
    parse_meta_match_loop env fuel [] d m = (1, d, m) := by
  cases fuel <;> rfl

theorem sample_env_other (t : List Nat) (ht : t ∉ meta_token_list.map Prod.fst) :
    sample_env.lookup_meta_token t = INVALID_NUMBER := by
  simp only [meta_token_list, List.map_cons, List.map_nil, List.mem_cons, List.mem_singleton,
    List.not_mem_nil, or_false, not_or] at ht
  obtain ⟨h1, h2, h3, h4, h5, h6, h7, h8, h9, h10, h11, h12⟩ := ht
  simp only [sample_env, if_neg h1, if_neg h2, if_neg h3, if_neg h4, if_neg h5, if_neg h6,
    if_neg h7, if_neg h8, if_neg h9, if_neg h10, if_neg h11, if_neg h12]
theorem layer_lines_congr (buf buf1 : List Nat) (k : Nat)
    (h : ∀ i, k ≤ i → Scdis.rd buf1 i = Scdis.rd buf i) (b buflen : Nat) (hb : k ≤ b) :
    ∀ n i, Scdis.layer_lines buf1 b buflen n i = Scdis.layer_lines buf b buflen n i := by
  intro n
  induction n with
  | zero => intro i; rfl
  | succ n ih => intro i; simp only [Scdis.layer_lines, ih, h (b + i) (by omega), h (b + i + 1) (by omega)]

theorem remap_lines_congr (env : Env) (buf buf1 : List Nat) (k : Nat)
    (h : ∀ i, k ≤ i → Scdis.rd buf1 i = Scdis.rd buf i) (b buflen : Nat) (hb : k ≤ b) :
    ∀ n i, Scdis.remap_lines env buf1 b buflen n i = Scdis.remap_lines env buf b buflen n i := by
  intro n
  induction n with
  | zero => intro i; rfl
  | succ n ih => intro i; simp only [Scdis.remap_lines, ih, h (b + i) (by omega), h (b + i + 1) (by omega)]

theorem step_lines_congr (env : Env) (buf buf1 : List Nat) (k : Nat)
    (h : ∀ i, k ≤ i → Scdis.rd buf1 i = Scdis.rd buf i) (b : Nat) (hb : k ≤ b) :
    ∀ n j out, Scdis.step_lines env buf1 b n j out = Scdis.step_lines env buf b n j out := by
  intro n
  induction n with
  | zero => intro j out; rfl
  | succ n ih => intro j out; simp only [Scdis.step_lines, ih, h (b + j) (by omega), h (b + j + 1) (by omega)]

theorem process_macro_congr (env : Env) (buf buf1 : List Nat) (k : Nat)
    (h : ∀ i, k ≤ i → Scdis.rd buf1 i = Scdis.rd buf i) (b bufend : Nat) (hb : k ≤ b) :
    Scdis.process_macro env buf1 b bufend = Scdis.process_macro env buf b bufend := by
  simp only [ Scdis.process_macro, step_lines_congr env buf buf1 k h b hb, h b hb, h (b + 1) (by omega),
    h (b + 2) (by omega), h (b + 3) (by omega), h (b + 4) (by omega)]

theorem macro_records_congr (env : Env) (buf buf1 : List Nat) (k : Nat)
    (h : ∀ i, k ≤ i → Scdis.rd buf1 i = Scdis.rd buf i) (b : Nat) (hb : k ≤ b) :
    ∀ n i j, Scdis.macro_records env buf1 b n i j = Scdis.macro_records env buf b n i j := by
  intro n
  induction n with
  | zero => intro i j; rfl
  | succ n ih =>
    intro i j
    simp only [Scdis.macro_records, ih, h (b + j + 3) (by omega), h (b + j + 4) (by omega),
      process_macro_congr env buf buf1 k h (b + j) _ (by omega)]

theorem process_block_congr (env : Env) (buf buf1 : List Nat) (k : Nat)
    (h : ∀ i, k ≤ i → Scdis.rd buf1 i = Scdis.rd buf i) (o buflen : Nat) (ho : k ≤ o) :
    Scdis.process_block env buf1 o buflen = Scdis.process_block env buf o buflen := by
  have hl : ∀ b e, k ≤ b → Scdis.process_layerblock buf1 b e = Scdis.process_layerblock buf b e := by
    intro b e hb
    simp only [Scdis.process_layerblock, layer_lines_congr buf buf1 k h b _ hb, h b hb]
  have hr : ∀ b e, k ≤ b → Scdis.process_remapblock env buf1 b e = Scdis.process_remapblock env buf b e := by
    intro b e hb
    simp only [Scdis.process_remapblock, remap_lines_congr env buf buf1 k h b _ hb, h b hb,
      h (b + 1) (by omega)]
  have hm : ∀ b e, k ≤ b → Scdis.process_macroblock env buf1 b e = Scdis.process_macroblock env buf b e := by
    intro b e hb
    simp only [Scdis.process_macroblock, macro_records_congr env buf buf1 k h b hb, h b hb]
  have h0 : Scdis.rd buf1 o = Scdis.rd buf o := h o ho
  have h1 : ∀ j, Scdis.rd buf1 (o + j) = Scdis.rd buf (o + j) := fun j => h _ (by omega)
  have h2 : ∀ j l, Scdis.rd buf1 (o + j + l) = Scdis.rd buf (o + j + l) := fun j l => h _ (by omega)
  have hl1 : ∀ j e, Scdis.process_layerblock buf1 (o + j) e = Scdis.process_layerblock buf (o + j) e :=
    fun j e => hl _ e (by omega)
  have hr1 : ∀ j e, Scdis.process_remapblock env buf1 (o + j) e = Scdis.process_remapblock env buf (o + j) e :=
    fun j e => hr _ e (by omega)
  have hm1 : ∀ j e, Scdis.process_macroblock env buf1 (o + j) e = Scdis.process_macroblock env buf (o + j) e :=
    fun j e => hm _ e (by omega)
  simp only [Scdis.process_block, h0, h1, h2, hl1, hr1, hm1]

theorem blocks_loop_congr (env : Env) (buf buf1 : List Nat) (k : Nat)
    (h : ∀ i, k ≤ i → Scdis.rd buf1 i = Scdis.rd buf i) (buflen : Nat) :
    ∀ fuel i r, k ≤ i → Scdis.blocks_loop env buf1 buflen fuel i r = Scdis.blocks_loop env buf buflen fuel i r := by
  intro fuel
  induction fuel with
  | zero => intro i r _; rfl
  | succ n ih =>
    intro i r hi
    simp only [Scdis.blocks_loop, h i hi, process_block_congr env buf buf1 k h i _ hi]
    split_ifs
    · rfl
    · exact ih _ _ (by omega)
    · rfl

/-- The return value and the visited offsets of the block loop do not depend on the text
printed so far. -/
theorem blocks_loop_out (env : Env) (buf : List Nat) (buflen : Nat) :
    ∀ fuel i (r : Scdis.Result) (o : List Nat),
      (Scdis.blocks_loop env buf buflen fuel i { r with out := o }).map (fun q => (q.ret, q.visited)) =
      (Scdis.blocks_loop env buf buflen fuel i r).map (fun q => (q.ret, q.visited)) := by
  intro fuel
  induction fuel with
  | zero => intro i r o; rfl
  | succ n ih =>
    intro i r o
    simp only [Scdis.blocks_loop]
    split_ifs
    · rfl
    · exact (ih _ { ret := r.ret ||| (Scdis.process_block env buf i (Scdis.rd buf i)).1,
                    out := r.out ++ (Scdis.process_block env buf i (Scdis.rd buf i)).2,
                    visited := r.visited ++ [i] } _)
    · rfl

theorem flags_width (x : Nat) :
    2 + ((x &&& 192) >>> 6) =
      2 + (if x &&& 64 ≠ 0 then 1 else 0) + (if x &&& 128 ≠ 0 then 2 else 0) := by
  have key : ∀ y < 193, y &&& 63 = 0 →
      2 + (y >>> 6) = 2 + (if y &&& 64 ≠ 0 then 1 else 0) + (if y &&& 128 ≠ 0 then 2 else 0) := by
    decide!
  have h1 : x &&& 192 < 193 := Nat.lt_succ_of_le Nat.and_le_right
  have c1 : (192 : Nat) &&& 63 = 0 := by decide
  have c2 : (192 : Nat) &&& 64 = 64 := by decide
  have c3 : (192 : Nat) &&& 128 = 128 := by decide
  have h2 : (x &&& 192) &&& 63 = 0 := by rw [Nat.and_assoc, c1, Nat.and_zero]
  have h3 : (x &&& 192) &&& 64 = x &&& 64 := by rw [Nat.and_assoc, c2]
  have h4 : (x &&& 192) &&& 128 = x &&& 128 := by rw [Nat.and_assoc, c3]
  have := key _ h1 h2
  rw [h3, h4] at this
  exact this

theorem word_bytes_flatMap (l : List Nat) :
    (l.flatMap word_bytes).length = 2 * l.length ∧
    (l.flatMap word_bytes).map (fun x => x % 256) = l.flatMap word_bytes := by
  induction l with
  | nil => exact ⟨rfl, rfl⟩
  | cons x xs ih =>
    have h1 : (x &&& 255) % 256 = x &&& 255 :=
      Nat.mod_eq_of_lt (Nat.lt_succ_of_le Nat.and_le_right)
    simp only [List.flatMap_cons, List.length_append, List.map_append, ih.1, ih.2, word_bytes,
      List.length_cons, List.length_nil, List.map_cons, List.map_nil, Nat.mod_mod, h1]
    exact ⟨by omega, trivial⟩

theorem macro_bytes_flatMap (l : List Macro) : 5 * l.length ≤ (l.flatMap macro_bytes).length := by
  induction l with
  | nil => simp
  | cons x xs ih =>
    simp only [List.flatMap_cons, List.length_append, macro_bytes, List.length_cons,
      List.length_nil]
    omega

theorem emitted_block_drop (st : State) (n : Nat) (hn : 1 ≤ n) :
    (emitted_block st).bytes.drop n =
      ((header_bytes st ++ block_body st).map (fun x => x % 256)).drop n := by
  unfold emitted_block
  simp only
  rw [List.drop_set_of_lt _ _ (by omega)]

theorem metas_reads_bit (env : Env) (val : Nat) :
    ∀ n i ret, ∀ j ∈ metas_reads env val n i ret, i ≤ j ∧ val &&& (1 <<< j) ≠ 0 := by
  intro n
  induction n with
  | zero => intro i ret j hj; simp [metas_reads] at hj
  | succ n ih =>
    intro i ret j hj
    rw [metas_reads] at hj
    split_ifs at hj with hb
    · rcases List.mem_cons.1 hj with rfl | hj
      · exact ⟨le_refl _, hb⟩
      · revert hj
        cases Scdis.string_append ret (Scdis.metas_read env i) true with
        | none => intro hj; simp at hj
        | some r =>
          intro hj
          have := ih (i + 1) (some r) j hj
          exact ⟨by omega, this.2⟩
    · have := ih (i + 1) ret j hj
      exact ⟨by omega, this.2⟩

/-- Below index 4 the loop of `get_macrostep_metas` is never left. -/
theorem metas_reads_low (env : Env) (val : Nat) (n i : Nat) (ret : Option (List Nat))
    (hi : i < 4) :
    ∃ r, ∀ j, j ∈ metas_reads env val n (i + 1) r →
      j ∈ metas_reads env val (n + 1) i ret := by
  rw [metas_reads]
  have hm : ∃ name, name ≠ [] ∧ Scdis.metas_read env i = some name := by
    unfold Scdis.metas_read
    rw [if_pos hi]
    interval_cases i <;> exact ⟨_, by decide, rfl⟩
  obtain ⟨name, hne, hname⟩ := hm
  split_ifs with hb
  · rw [hname, string_append_name ret name true hne]
    exact ⟨_, fun j hj => List.mem_cons_of_mem _ hj⟩
  · exact ⟨ret, fun j hj => hj⟩

theorem high_bit_exists : ∀ v < 256, 16 ≤ v →
    v &&& (1 <<< 4) ≠ 0 ∨ v &&& (1 <<< 5) ≠ 0 ∨ v &&& (1 <<< 6) ≠ 0 ∨ v &&& (1 <<< 7) ≠ 0 := by
  decide!

theorem metas_reads_high (env : Env) (val : Nat) (hv : val < 256) (h16 : 16 ≤ val)
    (ret : Option (List Nat)) :
    ∃ j ∈ metas_reads env val 4 4 ret, 4 ≤ j := by
  have hb := high_bit_exists val hv h16
  simp only [metas_reads]
  by_cases h4 : val &&& (1 <<< 4) ≠ 0
  · rw [if_pos h4]; exact ⟨4, List.mem_cons_self _ _, le_refl _⟩
  rw [if_neg h4]
  by_cases h5 : val &&& (1 <<< 5) ≠ 0
  · rw [if_pos h5]; exact ⟨5, List.mem_cons_self _ _, by decide⟩
  rw [if_neg h5]
  by_cases h6 : val &&& (1 <<< 6) ≠ 0
  · rw [if_pos h6]; exact ⟨6, List.mem_cons_self _ _, by decide⟩
  rw [if_neg h6]
  by_cases h7 : val &&& (1 <<< 7) ≠ 0
  · rw [if_pos h7]; exact ⟨7, List.mem_cons_self _ _, by decide⟩
  rcases hb with h | h | h | h <;> contradiction

theorem fn_acc_eq : ∀ m < 256, fn_acc 8 m 1 0 = m := by decide!

theorem layer_digits : ∀ n < 256, 1 ≤ n →
    parse_int (some (Scdis.dec n ++ [10])) 1 255 = (n : Int) ∧
    parse_function_n (Scdis.dec n ++ [10]) = INVALID_NUMBER ∧
    skip_whitespace (Scdis.dec n ++ [10]) = Scdis.dec n ++ [10] := by
  decide!

theorem fn_token (j : Nat) (hj1 : 1 ≤ j) (hj : j ≤ 8) (Y : List Nat) :
    parse_function_n (bytes "FN" ++ Scdis.dec j ++ 32 :: Y) = (j : Int) ∧
    skip_token (bytes "FN" ++ Scdis.dec j ++ 32 :: Y) = skip_whitespace Y ∧
    (j : Int) ≠ INVALID_NUMBER ∧ ((j : Int) - 1).toNat = j - 1 ∧
    ∃ c q, bytes "FN" ++ Scdis.dec j ++ 32 :: Y = c :: q ∧ isspace c = false := by
  have hs : ∀ name : List Nat, plain_name name = true →
      skip_token (name ++ 32 :: Y) = skip_whitespace Y :=
    fun name h => (token_of_plain_name name Y h).2
  interval_cases j
  all_goals
    refine ⟨rfl, ?_, by decide, by decide, _, _, rfl, by decide⟩
  · exact hs (bytes "FN1") (by decide)
  · exact hs (bytes "FN2") (by decide)
  · exact hs (bytes "FN3") (by decide)
  · exact hs (bytes "FN4") (by decide)
  · exact hs (bytes "FN5") (by decide)
  · exact hs (bytes "FN6") (by decide)
  · exact hs (bytes "FN7") (by decide)
  · exact hs (bytes "FN8") (by decide)

theorem layerdef_loop_stop (rest : List Nat) (hr : parse_function_n rest = INVALID_NUMBER)
    (fuel acc : Nat) : cmd_layerdef_loop fuel rest acc = (rest, acc) := by
  cases fuel with
  | zero => rfl
  | succ f =>
    cases rest with
    | nil => rfl
    | cons c q => simp only [cmd_layerdef_loop, hr, if_true]

theorem layerdef_loop_names (rest : List Nat) (hr1 : parse_function_n rest = INVALID_NUMBER)
    (hr2 : skip_whitespace rest = rest) :
    ∀ n fn j fuel acc, 1 ≤ j → j + n ≤ 9 → (Scdis.fn_names n fn j).length ≤ fuel →
      cmd_layerdef_loop fuel (Scdis.fn_names n fn j ++ rest) acc = (rest, fn_acc n fn j acc) ∧
      skip_whitespace (Scdis.fn_names n fn j ++ rest) = Scdis.fn_names n fn j ++ rest := by
  intro n
  induction n with
  | zero =>
    intro fn j fuel acc _ _ _
    exact ⟨layerdef_loop_stop rest hr1 fuel acc, hr2⟩
  | succ n ih =>
    intro fn j fuel acc hj1 hjn hfuel
    rw [Scdis.fn_names] at hfuel ⊢
    rw [fn_acc]
    by_cases h0 : fn = 0
    · rw [if_pos h0, if_pos h0, List.nil_append]
      exact ⟨layerdef_loop_stop rest hr1 fuel acc, hr2⟩
    · rw [if_neg h0] at hfuel ⊢
      rw [if_neg h0]
      by_cases hb : fn &&& 1 ≠ 0
      · rw [if_pos hb] at hfuel ⊢
        rw [if_pos hb]
        obtain ⟨h1, h2, h3, h4, c, q, h5, h6⟩ :=
          fn_token j hj1 (by omega) (Scdis.fn_names n (fn >>> 1) (j + 1) ++ rest)
        have e : bytes "FN" ++ Scdis.dec j ++ [32] ++ Scdis.fn_names n (fn >>> 1) (j + 1) ++ rest =
            bytes "FN" ++ Scdis.dec j ++ 32 :: (Scdis.fn_names n (fn >>> 1) (j + 1) ++ rest) := by
          simp
        have hlen : (Scdis.fn_names n (fn >>> 1) (j + 1)).length + 1 ≤ fuel := by
          simp only [List.length_append, List.length_cons, List.length_nil] at hfuel
          omega
        obtain ⟨f, rfl⟩ : ∃ f, fuel = f + 1 := ⟨fuel - 1, by omega⟩
        have ihf := ih (fn >>> 1) (j + 1) f (acc ||| ((1 <<< (j - 1)) % 256)) (by omega) (by omega)
          (by omega)
        rw [e]
        constructor
        · rw [h5] at h1 h2 ⊢
          simp only [cmd_layerdef_loop, h1, h3, if_false, h2, h4, ihf.2]
          exact ihf.1
        · rw [h5]
          simp [skip_whitespace, List.dropWhile, h6]
      · rw [if_neg hb, List.nil_append] at hfuel ⊢
        rw [if_neg hb]
        exact ih (fn >>> 1) (j + 1) fuel acc (by omega) (by omega) hfuel

theorem rd_append (pre t : List Nat) (x : Nat) : Scdis.rd (pre ++ x :: t) pre.length = x := by
  unfold Scdis.rd
  induction pre with
  | nil => rfl
  | cons a l ih => simpa using ih

theorem block_ok_head (b : Block) (h : block_ok b) :
    ∃ t, b.bytes = b.len :: t ∧ 3 ≤ b.len ∧ b.len ≤ 255 ∧ b.bytes.length = b.len := by
  obtain ⟨h1, h2, h3, h4⟩ := h
  cases hb : b.bytes with
  | nil => rw [hb] at h3; simp at h3
  | cons x t =>
    rw [hb] at h2 h3 h4 h1
    simp only [List.head?_cons, Option.some.injEq] at h2
    exact ⟨t, by rw [h2, h1], by omega, by omega, h1.symm⟩

theorem blocks_loop_walk (env : Env) (buf : List Nat) :
    ∀ (bs : List Block) (pre : List Nat) (fuel : Nat) (r : Scdis.Result),
      (∀ b ∈ bs, block_ok b) → buf = pre ++ (bs.map (fun b => b.bytes)).flatten →
      bs.length < fuel →
      Scdis.blocks_loop env buf buf.length fuel pre.length r =
        some (walk_blocks env buf bs pre.length r) := by
  intro bs
  induction bs with
  | nil =>
    intro pre fuel r _ hbuf hf
    obtain ⟨f, rfl⟩ : ∃ f, fuel = f + 1 := ⟨fuel - 1, by simp at hf; omega⟩
    simp only [List.map_nil, List.flatten_nil, List.append_nil] at hbuf
    rw [blocks_loop_done env buf buf.length f pre.length r (by rw [hbuf]; omega)]
    rfl
  | cons b bs ih =>
    intro pre fuel r hok hbuf hf
    obtain ⟨f, rfl⟩ : ∃ f, fuel = f + 1 := ⟨fuel - 1, by simp at hf; omega⟩
    obtain ⟨t, hb, h3, h255, hlen⟩ := block_ok_head b (hok b (List.mem_cons_self _ _))
    have hbuf2 : buf = pre ++ b.len :: (t ++ (bs.map (fun b => b.bytes)).flatten) := by
      rw [hbuf]; simp [hb]
    have hrd : Scdis.rd buf pre.length = b.len := by rw [hbuf2]; exact rd_append _ _ _
    have hlt : pre.length < buf.length := by rw [hbuf2]; simp
    rw [blocks_loop_step env buf buf.length f pre.length b.len
      (Scdis.process_block env buf pre.length b.len).1
      (Scdis.process_block env buf pre.length b.len).2 r hlt hrd (by omega) rfl]
    have := ih (pre ++ b.bytes) f
      { ret := r.ret ||| (Scdis.process_block env buf pre.length b.len).1,
        out := r.out ++ (Scdis.process_block env buf pre.length b.len).2,
        visited := r.visited ++ [pre.length] }
      (fun c hc => hok c (List.mem_cons_of_mem _ hc)) (by rw [hbuf]; simp)
      (by simp at hf; omega)
    rw [List.length_append, hlen] at this
    rw [this]
    rfl

theorem walk_blocks_visited (env : Env) (buf : List Nat) :
    ∀ (bs : List Block) (o : Nat) (r : Scdis.Result),
      (walk_blocks env buf bs o r).visited = r.visited ++ block_offsets o bs := by
  intro bs
  induction bs with
  | nil => intro o r; simp [walk_blocks, block_offsets]
  | cons b bs ih => intro o r; simp [walk_blocks, block_offsets, ih]

theorem block_offsets_rd (buf : List Nat) :
    ∀ (bs : List Block) (pre : List Nat),
      (∀ b ∈ bs, block_ok b) → buf = pre ++ (bs.map (fun b => b.bytes)).flatten →
      (∀ p ∈ (block_offsets pre.length bs).zip bs,
        Scdis.rd buf p.1 = p.2.len ∧ p.2.len ≠ 0 ∧ p.1 + p.2.len ≤ buf.length) ∧
      pre.length + (bs.map (fun b => b.len)).sum = buf.length := by
  intro bs
  induction bs with
  | nil =>
    intro pre _ hbuf
    simp only [List.map_nil, List.flatten_nil, List.append_nil] at hbuf
    simp [block_offsets, hbuf]
  | cons b bs ih =>
    intro pre hok hbuf
    obtain ⟨t, hb, h3, h255, hlen⟩ := block_ok_head b (hok b (List.mem_cons_self _ _))
    have hbuf2 : buf = pre ++ b.len :: (t ++ (bs.map (fun b => b.bytes)).flatten) := by
      rw [hbuf]; simp [hb]
    have hrd : Scdis.rd buf pre.length = b.len := by rw [hbuf2]; exact rd_append _ _ _
    have := ih (pre ++ b.bytes) (fun c hc => hok c (List.mem_cons_of_mem _ hc))
      (by rw [hbuf]; simp)
    rw [List.length_append, hlen] at this
    obtain ⟨i1, i2⟩ := this
    constructor
    · intro p hp
      simp only [block_offsets, List.zip_cons_cons, List.mem_cons] at hp
      rcases hp with rfl | hp
      · refine ⟨hrd, (by show b.len ≠ 0; omega), ?_⟩
        show pre.length + b.len ≤ buf.length
        omega
      · exact i1 p hp
    · show pre.length + (b.len + (bs.map (fun b => b.len)).sum) = buf.length
      omega

theorem blocks_length_le_sum :
    ∀ bs : List Block, (∀ b ∈ bs, block_ok b) → bs.length ≤ (bs.map (fun b => b.len)).sum := by
  intro bs
  induction bs with
  | nil => intro _; simp
  | cons b bs ih =>
    intro hg
    obtain ⟨t, hb, h3, h255, hlen⟩ := block_ok_head b (hg b (List.mem_cons_self _ _))
    have := ih (fun c hc => hg c (List.mem_cons_of_mem _ hc))
    simp only [List.length_cons, List.map_cons, List.sum_cons]
    omega

/-- When `main` succeeds and writes the output file, no released block was
handed to `realloc` or to `free`, no file gave an error, and the file holds the
header and the blocks of the block list. -/
theorem scas_main_success (env : Env) (depth : Nat) (inputs : List (List Nat)) (out : List Nat)
    (h : scas_main env depth inputs = (0, some out)) :
    (main_loop env depth inputs State.init).2.macro_list_ptr ≠ .undefined ∧
    (main_loop env depth inputs State.init).1 = 0 ∧
    out = [83, 67, 1, 1, (main_loop env depth inputs State.init).2.current_force_flags, 0] ++
          ((main_loop env depth inputs State.init).2.block_list.map (fun b => b.bytes)).flatten ∧
    out.length = 6 + ((main_loop env depth inputs State.init).2.block_list.map
                        (fun b => b.bytes.headD 0)).sum := by
  have hg := (main_loop_grows env depth inputs State.init).2 (by simp [State.init])
  have hw := write_blocks_ok _ hg
  unfold scas_main at h
  split_ifs at h with h1 h2 h3 h4
  · simp at h
  · simp [UNDEFINED] at h
  · simp at h
  · simp at h
  · simp only [Prod.mk.injEq, Option.some.injEq, true_and] at h
    rw [← h]
    simp only [write_target_file, hw.1]
    refine ⟨h2, not_not.1 h3, trivial, ?_⟩
    simp only [List.length_append, List.length_cons, List.length_nil, hw.2]

/-! ## Claims -/

/-- C1, evaluated on the code: with `A` = 4, `B` = 5 and `LCTRL` = 1, the macro
example assembles to a binary whose macro has release flags `0x81`; the
disassembler accepts it and prints `onbreak norestoremeta`; assembling the
printed text succeeds and yields a binary whose release flags are `0x01`. -/
theorem round_trip_drops_restore_flag :
    (assemble sample_env 1 macro_example_doc).1 = 0 ∧
    write_target (assemble sample_env 1 macro_example_doc).2 =
      [83, 67, 1, 1, 0, 0, 12, 2, 1, 4, 1, 1, 1, 129, 1, 5, 3, 5] ∧
    Scdis.process_file sample_env [83, 67, 1, 1, 0, 0, 12, 2, 1, 4, 1, 1, 1, 129, 1, 5, 3, 5] 18 =
      some { ret := 0, out := macro_example_text, visited := [6] } ∧
    (assemble sample_env 1 macro_example_text).1 = 0 ∧
    write_target (assemble sample_env 1 macro_example_text).2 =
      [83, 67, 1, 1, 0, 0, 12, 2, 1, 4, 1, 1, 1, 1, 1, 5, 3, 5] := by
  decide!

/-- C2, evaluated on the code: the assembler accepts a layerblock closed with
no entry, and, when `A` resolves to 4, a macro declared with no modifier token;
on each of the two binaries the disassembler's `process_file` returns 1. -/
theorem accepted_documents_rejected (env : Env) (depth : Nat)
    (ha : env.lookup_hid_token_by_name (some (bytes "A")) = 4) :
    ((assemble env depth (bytes "layerblock\nendblock\n")).1 = 0 ∧
     write_target (assemble env depth (bytes "layerblock\nendblock\n")).2 =
       [83, 67, 1, 1, 0, 0, 3, 0, 0] ∧
     ∃ r, Scdis.process_file env [83, 67, 1, 1, 0, 0, 3, 0, 0] 9 = some r ∧ r.ret = 1) ∧
    ((assemble env depth (bytes "macroblock\nmacro A\nendmacro\nendblock\n")).1 = 0 ∧
     write_target (assemble env depth (bytes "macroblock\nmacro A\nendmacro\nendblock\n")).2 =
       [83, 67, 1, 1, 0, 0, 8, 2, 1, 4, 0, 0, 0, 128] ∧
     ∃ r, Scdis.process_file env [83, 67, 1, 1, 0, 0, 8, 2, 1, 4, 0, 0, 0, 128] 14 = some r ∧
       r.ret = 1) := by
  generalize hincl : process_file env depth = incl
  constructor
  · have hl : file_lines (bytes "layerblock\nendblock\n").length (bytes "layerblock\nendblock\n") =
        [bytes "layerblock\n", bytes "endblock\n"] := by decide
    have s1 : process_line env incl State.init (bytes "layerblock\n") =
        (0, layerdef_state 0 0) := rfl
    have s2 : process_line env incl (layerdef_state 0 0) (bytes "endblock\n") =
        (0, { State.init with block_list := [{ bytes := [3, 0, 0], len := 3 }] }) := rfl
    have hb : Scdis.process_block env [83, 67, 1, 1, 0, 0, 3, 0, 0] 6 3 =
        (1, (Scdis.process_block env [83, 67, 1, 1, 0, 0, 3, 0, 0] 6 3).2) := rfl
    have ha : assemble env depth (bytes "layerblock\nendblock\n") =
        (0, { State.init with block_list := [{ bytes := [3, 0, 0], len := 3 }] }) := by
      unfold assemble
      rw [hl, hincl, process_lines_cons_ok _ _ _ _ _ s1, process_lines_cons_ok _ _ _ _ _ s2]
      rfl
    rw [ha]
    refine ⟨rfl, rfl, ?_⟩
    unfold Scdis.process_file Scdis.process_file_fuel
    rw [blocks_loop_step env [83, 67, 1, 1, 0, 0, 3, 0, 0] 9 9 6 3 1 _ _ (by decide) rfl
        (by decide) hb,
      blocks_loop_done env [83, 67, 1, 1, 0, 0, 3, 0, 0] 9 8 9 _ (by decide)]
    exact ⟨_, rfl, rfl⟩
  · have hl : file_lines (bytes "macroblock\nmacro A\nendmacro\nendblock\n").length
        (bytes "macroblock\nmacro A\nendmacro\nendblock\n") =
        [bytes "macroblock\n", bytes "macro A\n", bytes "endmacro\n", bytes "endblock\n"] := by
      decide
    have s1 : process_line env incl State.init (bytes "macroblock\n") =
        (0, macro_example_state 2 (-1) 1 0 0 0 [] [] [] []) := rfl
    have s2 : process_line env incl (macro_example_state 2 (-1) 1 0 0 0 [] [] [] [])
        (bytes "macro A\n") = (0, macro_example_state 2 0 1 4 0 0 [] [] [] []) := by
      have d : process_line env incl (macro_example_state 2 (-1) 1 0 0 0 [] [] [] [])
          (bytes "macro A\n") =
          cmd_macro env (macro_example_state 2 (-1) 1 0 0 0 [] [] [] []) (bytes "A\n") := rfl
      have g1 : get_token (bytes "A\n") = some (bytes "A") := by decide
      have g2 : parse_meta_match env (skip_token (bytes "A\n")) = (1, 0, 0) := rfl
      rw [d]
      simp only [ cmd_macro, g1, g2, ha]
      rfl
    have s3 : process_line env incl (macro_example_state 2 0 1 4 0 0 [] [] [] [])
        (bytes "endmacro\n") =
        (0, { macro_example_state 2 (-1) 1 4 0 0 [] []
              [{ hid_code := 4, desired_meta := 0, matched_meta := 0, press_flags := 0,
                 release_flags := 128, commands := [] }] [] with
              macro_list_ptr := .live }) := rfl
    have s4 : process_line env incl
        { macro_example_state 2 (-1) 1 4 0 0 [] []
              [{ hid_code := 4, desired_meta := 0, matched_meta := 0, press_flags := 0,
                 release_flags := 128, commands := [] }] [] with
              macro_list_ptr := .live } (bytes "endblock\n") =
        (0, { macro_example_state 255 (-1) 1 4 0 0 [] [] []
              [{ bytes := [8, 2, 1, 4, 0, 0, 0, 128], len := 8 }] with
              macro_list_ptr := .freed }) := rfl
    have hb : Scdis.process_block env [83, 67, 1, 1, 0, 0, 8, 2, 1, 4, 0, 0, 0, 128] 6 8 =
        (1, (Scdis.process_block env [83, 67, 1, 1, 0, 0, 8, 2, 1, 4, 0, 0, 0, 128] 6 8).2) := rfl
    have ha : assemble env depth (bytes "macroblock\nmacro A\nendmacro\nendblock\n") =
        (0, { macro_example_state 255 (-1) 1 4 0 0 [] [] []
              [{ bytes := [8, 2, 1, 4, 0, 0, 0, 128], len := 8 }] with
              macro_list_ptr := .freed }) := by
      unfold assemble
      rw [hl, hincl, process_lines_cons_ok _ _ _ _ _ s1, process_lines_cons_ok _ _ _ _ _ s2,
        process_lines_cons_ok _ _ _ _ _ s3, process_lines_cons_ok _ _ _ _ _ s4]
      rfl
    rw [ha]
    refine ⟨rfl, rfl, ?_⟩
    unfold Scdis.process_file Scdis.process_file_fuel
    rw [blocks_loop_step env [83, 67, 1, 1, 0, 0, 8, 2, 1, 4, 0, 0, 0, 128] 14 14 6 8 1 _ _
        (by decide) rfl (by decide) hb,
      blocks_loop_done env [83, 67, 1, 1, 0, 0, 8, 2, 1, 4, 0, 0, 0, 128] 14 13 14 _ (by decide)]
    exact ⟨_, rfl, rfl⟩


/-- Witness for C2: the sample environment. -/
theorem accepted_documents_rejected_witness :
    ((assemble sample_env 1 (bytes "layerblock\nendblock\n")).1 = 0 ∧
     write_target (assemble sample_env 1 (bytes "layerblock\nendblock\n")).2 =
       [83, 67, 1, 1, 0, 0, 3, 0, 0] ∧
     ∃ r, Scdis.process_file sample_env [83, 67, 1, 1, 0, 0, 3, 0, 0] 9 = some r ∧ r.ret = 1) ∧
    ((assemble sample_env 1 (bytes "macroblock\nmacro A\nendmacro\nendblock\n")).1 = 0 ∧
     write_target (assemble sample_env 1 (bytes "macroblock\nmacro A\nendmacro\nendblock\n")).2 =
       [83, 67, 1, 1, 0, 0, 8, 2, 1, 4, 0, 0, 0, 128] ∧
     ∃ r, Scdis.process_file sample_env [83, 67, 1, 1, 0, 0, 8, 2, 1, 4, 0, 0, 0, 128] 14 =
       some r ∧ r.ret = 1) :=
  accepted_documents_rejected sample_env 1 rfl

/-- C3, evaluated on the code: on the seven bytes `S C 1 1 0 0 0`, whose block
walk meets a zero length byte at offset 6, `process_file` prints the error line
and returns 0. -/
theorem zero_length_block_returns_zero (env : Env) :
    ∃ r, Scdis.process_file env [83, 67, 1, 1, 0, 0, 0] 7 = some r ∧ r.ret = 0 ∧
      r.visited = [] ∧
      r.out = Scdis.header_text [83, 67, 1, 1, 0, 0, 0] 7 ++
                bytes "ERROR: block length is zero!\n" :=
  ⟨_, rfl, rfl, rfl, rfl⟩

/-- C4: the block walk of `process_file` terminates on every buffer: any fuel
above the number of bytes after the header yields a result; the offsets
visited increase strictly, lie in the buffer from offset 6 on, and number at
most the buffer length minus 6. -/
theorem block_walk_terminates (env : Env) (buf : List Nat) (buflen fuel : Nat)
    (hfuel : buflen - 6 < fuel) :
    ∃ r, Scdis.process_file_fuel env fuel buf buflen = some r ∧
      r.visited.length ≤ buflen - 6 ∧
      r.visited.Pairwise (fun a b => a < b) ∧
      ∀ o ∈ r.visited, 6 ≤ o ∧ o < buflen := by
  obtain ⟨r1, vs, h1, h2, h3, h4, h5⟩ :=
    blocks_loop_total env buf buflen fuel 6
      { ret := 0, out := Scdis.header_text buf buflen, visited := [] } hfuel
  simp only [List.nil_append] at h2
  exact ⟨r1, h1, by rw [h2]; exact h3, by rw [h2]; exact h5, by rw [h2]; exact h4⟩

/-- Witness for C4: a buffer with two blocks of lengths 3 and 4. -/
theorem block_walk_terminates_witness :
    ∃ r, Scdis.process_file_fuel sample_env 8 [83, 67, 1, 1, 0, 0, 3, 0, 0, 4, 1, 0, 0] 13
          = some r ∧
      r.visited.length ≤ 13 - 6 ∧
      r.visited.Pairwise (fun a b => a < b) ∧
      ∀ o ∈ r.visited, 6 ≤ o ∧ o < 13 :=
  block_walk_terminates sample_env [83, 67, 1, 1, 0, 0, 3, 0, 0, 4, 1, 0, 0] 13 8 (by decide)

/-- C6, proved on the code: for an open block, `endblock` returns 0 exactly
when the bytes to emit (length byte, flags byte, condition bytes and body)
number at most 255 and, for a macro block, `macro_list` holds no released
block; it fails with `ERR_BLOCK_TOO_LARGE` when they number 256 or more, after
it has stored a 256th byte, at index 255 of the buffer of 255 bytes. A macro
block that fits is not finished when `macro_list` holds a released block, which
is what `macro_list_clear` leaves behind every macroblock with a macro: the
call frees the block a second time and does not return 0. -/
theorem endblock_size_limit (st : State) (args : List Nat)
    (ht : st.block_type = BLOCK_LAYERDEF ∨ st.block_type = BLOCK_REMAP ∨
          st.block_type = BLOCK_MACRO) :
    ((cmd_endblock st args).1 = 0 ↔
      block_size st ≤ 255 ∧
      (st.block_type = BLOCK_MACRO →
        st.macro_list_ptr = .null ∨ st.macro_list_ptr = .live)) ∧
    (256 ≤ block_size st →
      (cmd_endblock st args).1 = ERR_BLOCK_TOO_LARGE ∧
      (block_append_list (fill_block_header st block_alloc)
        (block_body st)).1.bytes.length = 256) ∧
    (block_size st ≤ 255 → st.block_type = BLOCK_MACRO →
      st.macro_list_ptr = .freed ∨ st.macro_list_ptr = .undefined →
      (cmd_endblock st args).1 = UNDEFINED) := by
  have hs := cmd_endblock_spec st args ht
  refine ⟨⟨fun h => ?_, fun h => ((hs.1 h.1).1).2 h.2⟩, fun h => ⟨?_, ?_⟩,
    fun h hm hp => cmd_endblock_released st args hm h hp⟩
  · have hfit := cmd_endblock_fits st args h
    exact ⟨hfit, ((hs.1 hfit).1).1 h⟩
  · rw [hs.2 h]
  · exact end_handler_stored st _ h

/-- Witness for C6: the state after the lines `macroblock`, `macro A`,
`endmacro`, `endblock`, `macroblock`. The open macro block has 3 bytes to emit
and `macro_list` holds the block released by the first `endblock`, so that
`endblock` does not return 0, and `main` on a file with these lines and a last
line `endblock` writes no output; a layerblock of 126 entries compiles under
the default conditions (255 bytes) and is too large under an `ifset` condition
(256). -/
theorem endblock_size_limit_witness :
    block_size (assemble sample_env 1
      (bytes "macroblock\nmacro A\nendmacro\nendblock\nmacroblock\n")).2 = 3 ∧
    (assemble sample_env 1
      (bytes "macroblock\nmacro A\nendmacro\nendblock\nmacroblock\n")).2.macro_list_ptr
      = .freed ∧
    (cmd_endblock (assemble sample_env 1
      (bytes "macroblock\nmacro A\nendmacro\nendblock\nmacroblock\n")).2 []).1 = UNDEFINED ∧
    (assemble sample_env 1 two_macroblocks_doc).1 = UNDEFINED ∧
    scas_main two_macroblocks_env 1 [bytes "two.sc"] = (UNDEFINED, none) ∧
    (cmd_endblock (layerdef_state 0 126) []).1 = 0 ∧
    (cmd_endblock (layerdef_state 1 126) []).1 = ERR_BLOCK_TOO_LARGE :=
  ⟨by decide!, by decide!,
   (endblock_size_limit (assemble sample_env 1
      (bytes "macroblock\nmacro A\nendmacro\nendblock\nmacroblock\n")).2 []
      (Or.inr (Or.inr (by decide!)))).2.2 (by decide!) (by decide!) (Or.inl (by decide!)),
   by decide!, by decide!,
   (endblock_size_limit (layerdef_state 0 126) [] (Or.inl rfl)).1.2
     ⟨by decide!, fun h => absurd h (by decide)⟩,
   ((endblock_size_limit (layerdef_state 1 126) [] (Or.inl rfl)).2.1 (by decide!)).1⟩

/-- C7: a successful `endblock` appends one block whose first byte is the number
of bytes stored for it, and that number lies between 3 and 255. -/
theorem endblock_length_byte (st : State) (args : List Nat)
    (hok : (cmd_endblock st args).1 = 0) :
    ∃ b, (cmd_endblock st args).2.block_list = st.block_list ++ [b] ∧
      b.bytes.head? = some b.bytes.length ∧ b.len = b.bytes.length ∧
      3 ≤ b.bytes.length ∧ b.bytes.length ≤ 255 := by
  have ht := cmd_endblock_open st args hok
  have hfit := cmd_endblock_fits st args hok
  have hs := (cmd_endblock_spec st args ht).1 hfit
  have hh := header_bytes_length st
  have hb := block_body_length st
  refine ⟨emitted_block st, hs.2, ?_⟩
  have hlen : (emitted_block st).bytes.length = block_size st := by
    simp [emitted_block, block_size]
  rw [hlen]
  refine ⟨?_, rfl, by unfold block_size; omega, hfit⟩
  unfold emitted_block header_bytes
  simp

/-- Witness for C7: the block of the macroblock that is open after the lines
`macroblock`, `macro A`, `endmacro`, where `macro_list` holds a live block. -/
theorem endblock_length_byte_witness :
    ∃ b, (cmd_endblock (assemble sample_env 1 (bytes "macroblock\nmacro A\nendmacro\n")).2
          []).2.block_list =
        (assemble sample_env 1 (bytes "macroblock\nmacro A\nendmacro\n")).2.block_list ++ [b] ∧
      b.bytes.head? = some b.bytes.length ∧ b.len = b.bytes.length ∧
      3 ≤ b.bytes.length ∧ b.bytes.length ≤ 255 :=
  endblock_length_byte (assemble sample_env 1 (bytes "macroblock\nmacro A\nendmacro\n")).2 []
    (by decide!)

/-- C8: the bytes a successful `endblock` emits before the body are the total
length, the flags byte `t | (s << 3) | (0x40 if c != 0) | (0x80 if k != 0)`,
the scanset `c` exactly when `c != 0`, and the low then the high byte of the
keyboard id `k` exactly when `k != 0`. -/
theorem endblock_header_layout (st : State) (args : List Nat)
    (ht : st.block_type = BLOCK_LAYERDEF ∨ st.block_type = BLOCK_REMAP ∨
          st.block_type = BLOCK_MACRO)
    (hs : st.current_select ≤ 7) (hc : st.current_scanset < 256)
    (hk : st.current_keyboard_id < 65536) (hok : (cmd_endblock st args).1 = 0) :
    ∃ b, (cmd_endblock st args).2.block_list = st.block_list ++ [b] ∧
      b.bytes =
        [b.bytes.length,
         st.block_type ||| (st.current_select <<< 3) |||
           (if st.current_scanset ≠ 0 then 64 else 0) |||
           (if st.current_keyboard_id ≠ 0 then 128 else 0)] ++
        (if st.current_scanset ≠ 0 then [st.current_scanset] else []) ++
        (if st.current_keyboard_id ≠ 0 then
           [st.current_keyboard_id % 256, st.current_keyboard_id / 256] else []) ++
        (block_body st).map (fun x => x % 256) := by
  have hfit := cmd_endblock_fits st args hok
  have hsp := (cmd_endblock_spec st args ht).1 hfit
  refine ⟨emitted_block st, hsp.2, ?_⟩
  have hlen : (emitted_block st).bytes.length = block_size st := by
    simp [emitted_block, block_size]
  rw [hlen, ← flags_byte_eq st ht hs]
  have hf : flags_byte st % 256 = flags_byte st := by
    unfold flags_byte; exact Nat.mod_mod _ _
  have hcm : st.current_scanset % 256 = st.current_scanset := Nat.mod_eq_of_lt hc
  have hkb := keyboard_id_bytes _ hk
  unfold emitted_block header_bytes
  by_cases h1 : st.current_scanset ≠ 0 <;> by_cases h2 : st.current_keyboard_id ≠ 0 <;>
    simp [h1, h2, hf, hcm, hkb.1, hkb.2]

/-- Witness for C8: a layerblock with one entry under select 3, scanset 2 and
keyboard id 0x1234. -/
theorem endblock_header_layout_witness :
    ∃ b, (cmd_endblock header_state []).2.block_list = header_state.block_list ++ [b] ∧
      b.bytes =
        [b.bytes.length,
         header_state.block_type ||| (header_state.current_select <<< 3) |||
           (if header_state.current_scanset ≠ 0 then 64 else 0) |||
           (if header_state.current_keyboard_id ≠ 0 then 128 else 0)] ++
        (if header_state.current_scanset ≠ 0 then [header_state.current_scanset] else []) ++
        (if header_state.current_keyboard_id ≠ 0 then
           [header_state.current_keyboard_id % 256, header_state.current_keyboard_id / 256]
         else []) ++
        (block_body header_state).map (fun x => x % 256) :=
  endblock_header_layout header_state [] (Or.inl rfl) (by decide) (by decide) (by decide)
    (by decide)

/-- C9: from the initial state, when `A` and `B` resolve to the key codes `a`
and `b` and `LCTRL` to the mask 1, assembling the macro example succeeds and
produces exactly one block, with bytes
`[12, 0x02, 1, a, 0x01, 0x01, 0x01, 0x81, 1, b, 3, b]`. -/
theorem macro_example_block (env : Env) (depth a b : Nat)
    (ha : env.lookup_hid_token_by_name (some (bytes "A")) = (a : Int))
    (hb : env.lookup_hid_token_by_name (some (bytes "B")) = (b : Int))
    (hm : env.lookup_meta_token (bytes "LCTRL") = 1)
    (ha1 : a < 256) (hb1 : b < 256) :
    (assemble env depth
      (bytes "macroblock\nmacro A LCTRL\n\tPRESS B\nonbreak\n\tBREAK B\nendmacro\nendblock\n")).1
      = 0 ∧
    (assemble env depth
      (bytes "macroblock\nmacro A LCTRL\n\tPRESS B\nonbreak\n\tBREAK B\nendmacro\nendblock\n")).2.block_list
      = [{ bytes := [12, 0x02, 1, a, 0x01, 0x01, 0x01, 0x81, 1, b, 3, b], len := 12 }] :=
  ⟨(macro_example_assembles env depth a b ha hb hm ha1 hb1).1,
   (macro_example_assembles env depth a b ha hb hm ha1 hb1).2.1⟩

/-- Witness for C9: the sample environment, where `A` is 4 and `B` is 5. -/
theorem macro_example_block_witness :
    (assemble sample_env 1
      (bytes "macroblock\nmacro A LCTRL\n\tPRESS B\nonbreak\n\tBREAK B\nendmacro\nendblock\n")).1
      = 0 ∧
    (assemble sample_env 1
      (bytes "macroblock\nmacro A LCTRL\n\tPRESS B\nonbreak\n\tBREAK B\nendmacro\nendblock\n")).2.block_list
      = [{ bytes := [12, 0x02, 1, 4, 0x01, 0x01, 0x01, 0x81, 1, 5, 3, 5], len := 12 }] :=
  macro_example_block sample_env 1 4 5 rfl rfl rfl (by decide) (by decide)

/-- C10: from the initial state, when `CAPSLOCK` and `ESC` resolve to the key
codes `c` and `e`, assembling `ifset set1 set2`, `remapblock`, `layer 2`,
`CAPSLOCK ESC`, `endblock` succeeds and produces exactly one block, with bytes
`[7, 0x41, 0x03, 2, 1, c, e]`. -/
theorem remap_example_block (env : Env) (depth c e : Nat)
    (hc : env.lookup_hid_token_by_name (some (bytes "CAPSLOCK")) = (c : Int))
    (he : env.lookup_hid_token_by_name (some (bytes "ESC")) = (e : Int))
    (hc1 : c < 256) (he1 : e < 256) :
    (assemble env depth
      (bytes "ifset set1 set2\nremapblock\nlayer 2\nCAPSLOCK ESC\nendblock\n")).1 = 0 ∧
    (assemble env depth
      (bytes "ifset set1 set2\nremapblock\nlayer 2\nCAPSLOCK ESC\nendblock\n")).2.block_list =
      [{ bytes := [7, 0x41, 0x03, 2, 1, c, e], len := 7 }] := by
  have hl : file_lines
      (bytes "ifset set1 set2\nremapblock\nlayer 2\nCAPSLOCK ESC\nendblock\n").length
      (bytes "ifset set1 set2\nremapblock\nlayer 2\nCAPSLOCK ESC\nendblock\n") =
      [bytes "ifset set1 set2\n", bytes "remapblock\n", bytes "layer 2\n",
       bytes "CAPSLOCK ESC\n", bytes "endblock\n"] := by decide
  generalize hincl : process_file env depth = incl
  have s1 : process_line env incl State.init (bytes "ifset set1 set2\n") =
      (0, remap_state 255 0 []) := rfl
  have s2 : process_line env incl (remap_state 255 0 []) (bytes "remapblock\n") =
      (0, remap_state 1 0 []) := rfl
  have s3 : process_line env incl (remap_state 1 0 []) (bytes "layer 2\n") =
      (0, remap_state 1 2 []) := rfl
  have s4 : process_line env incl (remap_state 1 2 []) (bytes "CAPSLOCK ESC\n") =
      (0, remap_state 1 2 [pair c e]) := by
    have d : process_line env incl (remap_state 1 2 []) (bytes "CAPSLOCK ESC\n") =
        cmd_remap env (remap_state 1 2 []) (bytes "CAPSLOCK ESC\n") := rfl
    have g1 : get_token (skip_whitespace (bytes "CAPSLOCK ESC\n")) = some (bytes "CAPSLOCK") := by
      decide
    have g2 : get_token (skip_token (skip_whitespace (bytes "CAPSLOCK ESC\n"))) =
        some (bytes "ESC") := by decide
    rw [d]
    simp only [cmd_remap, parse_hid, g1, g2, hc, he, natCast_ne_invalid, if_false, u8_natCast,
      Nat.mod_eq_of_lt hc1, Nat.mod_eq_of_lt he1]
    rfl
  have s5 : process_line env incl (remap_state 1 2 [pair c e]) (bytes "endblock\n") =
      cmd_endblock (remap_state 1 2 [pair c e]) [] := rfl
  have hsp0 := (cmd_endblock_spec (remap_state 1 2 [pair c e]) [] (Or.inr (Or.inl rfl))).1
    (by have h7 : block_size (remap_state 1 2 [pair c e]) = 7 := rfl
        omega)
  have hsp := And.intro (hsp0.1.2 (fun _ => Or.inl rfl)) hsp0.2
  have hbk : emitted_block (remap_state 1 2 [pair c e]) =
      { bytes := [7, 65, 3, 2, 1, c, e], len := 7 } := by
    simp [emitted_block, block_size, header_bytes, block_body, remap_body, flags_byte,
      word_bytes_pair, Nat.mod_eq_of_lt hc1, Nat.mod_eq_of_lt he1, remap_state, State.init,
      BLOCK_REMAP, BLOCK_LAYERDEF]
  unfold assemble
  rw [hl, hincl, process_lines_cons_ok _ _ _ _ _ s1, process_lines_cons_ok _ _ _ _ _ s2,
    process_lines_cons_ok _ _ _ _ _ s3, process_lines_cons_ok _ _ _ _ _ s4, process_lines, s5]
  simp only [hsp.1, ne_eq, not_true_eq_false, if_false, process_lines, hsp.2, hbk]
  exact ⟨trivial, rfl⟩

/-- Witness for C10: the sample environment, where `CAPSLOCK` is 57 and `ESC`
is 41. -/
theorem remap_example_block_witness :
    (assemble sample_env 1
      (bytes "ifset set1 set2\nremapblock\nlayer 2\nCAPSLOCK ESC\nendblock\n")).1 = 0 ∧
    (assemble sample_env 1
      (bytes "ifset set1 set2\nremapblock\nlayer 2\nCAPSLOCK ESC\nendblock\n")).2.block_list =
      [{ bytes := [7, 0x41, 0x03, 2, 1, 57, 41], len := 7 }] :=
  remap_example_block sample_env 1 57 41 rfl rfl (by decide) (by decide)

/-- C11: when `main` succeeds and writes the output file, its content is the six
bytes `S`, `C`, 1, 1, force flags, 0 followed by the bytes of the blocks of the
block list in order, to which each successful `endblock` appends its block at
the end; its length is 6 plus the sum of the blocks' first (length) bytes. In
such a run no released block was handed to `realloc` or to `free`. -/
theorem assembler_output (env : Env) (depth : Nat) (inputs : List (List Nat)) (out : List Nat)
    (h : scas_main env depth inputs = (0, some out)) :
    out = [83, 67, 1, 1, (main_loop env depth inputs State.init).2.current_force_flags, 0] ++
          ((main_loop env depth inputs State.init).2.block_list.map (fun b => b.bytes)).flatten ∧
    out.length = 6 + ((main_loop env depth inputs State.init).2.block_list.map
                        (fun b => b.bytes.headD 0)).sum ∧
    (∀ (st : State) (args : List Nat), (cmd_endblock st args).1 = 0 →
      ∃ b, (cmd_endblock st args).2.block_list = st.block_list ++ [b]) ∧
    (main_loop env depth inputs State.init).2.macro_list_ptr ≠ .undefined := by
  have hm := scas_main_success env depth inputs out h
  refine ⟨hm.2.2.1, hm.2.2.2, ?_, hm.1⟩
  intro st args hok
  exact ⟨_, ((cmd_endblock_spec st args (cmd_endblock_open st args hok)).1
    (cmd_endblock_fits st args hok)).2⟩

/-- Witness for C11: two input files, holding the macro example and the remap
example. -/
theorem assembler_output_witness :
    [83, 67, 1, 1, 0, 0, 12, 2, 1, 4, 1, 1, 1, 129, 1, 5, 3, 5, 7, 65, 3, 2, 1, 57, 41] =
      [83, 67, 1, 1,
        (main_loop sample_files_env 2 [bytes "a.sc", bytes "b.sc"] State.init).2.current_force_flags,
        0] ++
      ((main_loop sample_files_env 2 [bytes "a.sc", bytes "b.sc"] State.init).2.block_list.map
        (fun b => b.bytes)).flatten ∧
    [83, 67, 1, 1, 0, 0, 12, 2, 1, 4, 1, 1, 1, 129, 1, 5, 3, 5, 7, 65, 3, 2, 1, 57, 41].length =
      6 + ((main_loop sample_files_env 2 [bytes "a.sc", bytes "b.sc"] State.init).2.block_list.map
            (fun b => b.bytes.headD 0)).sum ∧
    (∀ (st : State) (args : List Nat), (cmd_endblock st args).1 = 0 →
      ∃ b, (cmd_endblock st args).2.block_list = st.block_list ++ [b]) ∧
    (main_loop sample_files_env 2 [bytes "a.sc", bytes "b.sc"] State.init).2.macro_list_ptr ≠
      .undefined :=
  assembler_output sample_files_env 2 [bytes "a.sc", bytes "b.sc"]
    [83, 67, 1, 1, 0, 0, 12, 2, 1, 4, 1, 1, 1, 129, 1, 5, 3, 5, 7, 65, 3, 2, 1, 57, 41]
    (by decide!)

/-- C13, evaluated on the code: `endblock` of a macroblock whose macro was not
closed by `endmacro` succeeds and leaves the press step in its list; the step
is then emitted in the macro of the next block. A macro finished outside a
macroblock likewise stays in the macro list after the `endblock` of a
layerblock. -/
theorem open_macro_steps_survive_endblock :
    (assemble sample_env 1 (bytes "macroblock\nmacro A\n\tPRESS B\nendblock\n")).1 = 0 ∧
    (assemble sample_env 1 (bytes "macroblock\nmacro A\n\tPRESS B\nendblock\n")).2.block_list =
      [{ bytes := [3, 2, 0], len := 3 }] ∧
    (assemble sample_env 1
      (bytes "macroblock\nmacro A\n\tPRESS B\nendblock\n")).2.press_mcmd_list = [pair 1 5] ∧
    (assemble sample_env 1 (bytes
      "macroblock\nmacro A\n\tPRESS B\nendblock\nmacroblock\nmacro A\nendmacro\nendblock\n")).1
      = 0 ∧
    (assemble sample_env 1 (bytes
      "macroblock\nmacro A\n\tPRESS B\nendblock\nmacroblock\nmacro A\nendmacro\nendblock\n")).2.block_list
      = [{ bytes := [3, 2, 0], len := 3 },
         { bytes := [10, 2, 1, 4, 0, 0, 1, 128, 1, 5], len := 10 }] ∧
    (assemble sample_env 1 (bytes "macro A\nendmacro\nlayerblock\nendblock\n")).1 = 0 ∧
    (assemble sample_env 1
      (bytes "macro A\nendmacro\nlayerblock\nendblock\n")).2.macro_list ≠ [] := by
  decide!

/-- C14: a successful `endblock` leaves the select, scanset and keyboard-id
conditions, the layer id and the force flags unchanged; after any further
lines processed by `process_file`, none of which is a condition directive, be
it in the file itself or in a file reached through `include`, the header to
emit has the same condition bytes and, for an open block, the same bits 3 to 7
of the flags byte. -/
theorem endblock_keeps_conditions (env : Env) (depth : Nat) (st : State) (args : List Nat)
    (ls : List (List Nat))
    (hok : (cmd_endblock st args).1 = 0)
    (hls : ∀ l ∈ ls, quiet_line (quiet_file env depth) l = true) :
    ((cmd_endblock st args).2.current_select = st.current_select ∧
     (cmd_endblock st args).2.current_scanset = st.current_scanset ∧
     (cmd_endblock st args).2.current_keyboard_id = st.current_keyboard_id ∧
     (cmd_endblock st args).2.current_layer = st.current_layer ∧
     (cmd_endblock st args).2.current_force_flags = st.current_force_flags) ∧
    (header_bytes (process_lines (process_line env (process_file env depth))
        (cmd_endblock st args).2 ls).2).drop 2 = (header_bytes st).drop 2 ∧
    ((process_lines (process_line env (process_file env depth))
        (cmd_endblock st args).2 ls).2.block_type < 8 →
      flags_byte (process_lines (process_line env (process_file env depth))
        (cmd_endblock st args).2 ls).2 &&& 248 = flags_byte st &&& 248) := by
  have hf := cmd_endblock_frame st args
  have hr := process_lines_conditions (process_line env (process_file env depth)) ls
    (fun s l hl => process_line_conditions env _ _
      (fun n s2 hn => process_file_conditions env depth n s2 hn) s l (hls l hl))
    (cmd_endblock st args).2
  have ht : st.block_type < 8 := by
    rcases cmd_endblock_open st args hok with h | h | h <;>
      simp [h, BLOCK_LAYERDEF, BLOCK_REMAP, BLOCK_MACRO]
  have hh := header_conditions_eq st
    (process_lines (process_line env (process_file env depth)) (cmd_endblock st args).2 ls).2
    (hr.1.trans hf.2.1) (hr.2.1.trans hf.2.2.1) (hr.2.2.trans hf.2.2.2.1)
  exact ⟨⟨hf.2.1, hf.2.2.1, hf.2.2.2.1, hf.2.2.2.2, hf.1⟩, hh.1, hh.2 ht⟩

/-- Witness for C14: a layerblock under select 3, scanset 2 and keyboard id
0x1234, followed by the lines `include a.sc`, whose file holds the macro
example, `remapblock` and `layer 2`. -/
theorem endblock_keeps_conditions_witness :
    ((cmd_endblock header_state []).2.current_select = header_state.current_select ∧
     (cmd_endblock header_state []).2.current_scanset = header_state.current_scanset ∧
     (cmd_endblock header_state []).2.current_keyboard_id = header_state.current_keyboard_id ∧
     (cmd_endblock header_state []).2.current_layer = header_state.current_layer ∧
     (cmd_endblock header_state []).2.current_force_flags = header_state.current_force_flags) ∧
    (header_bytes (process_lines (process_line sample_files_env (process_file sample_files_env 1))
        (cmd_endblock header_state []).2
        [bytes "include a.sc\n", bytes "remapblock\n", bytes "layer 2\n"]).2).drop 2 =
      (header_bytes header_state).drop 2 ∧
    ((process_lines (process_line sample_files_env (process_file sample_files_env 1))
        (cmd_endblock header_state []).2
        [bytes "include a.sc\n", bytes "remapblock\n", bytes "layer 2\n"]).2.block_type < 8 →
      flags_byte (process_lines (process_line sample_files_env (process_file sample_files_env 1))
        (cmd_endblock header_state []).2
        [bytes "include a.sc\n", bytes "remapblock\n", bytes "layer 2\n"]).2 &&& 248 =
        flags_byte header_state &&& 248) :=
  endblock_keeps_conditions sample_files_env 1 header_state []
    [bytes "include a.sc\n", bytes "remapblock\n", bytes "layer 2\n"] (by decide) (by decide!)

/-- C15, evaluated on the code: the line `ifset any` succeeds and sets the
scanset condition to 16, not 0; the next block has flags bit 6 set and carries
the scanset byte 16. -/
theorem ifset_any_sets_bit_four (env : Env) (incl : Option (List Nat) → State → Int × State) (st : State) :
    process_line env incl st (bytes "ifset any\n") = (0, { st with current_scanset := 16 }) ∧
    (assemble sample_env 1 (bytes "ifset any\nlayerblock\nendblock\n")).1 = 0 ∧
    (assemble sample_env 1 (bytes "ifset any\nlayerblock\nendblock\n")).2.block_list =
      [{ bytes := [4, 64, 16, 0], len := 4 }] :=
  ⟨rfl, by decide!, by decide!⟩

/-- C16, evaluated on the code: the line `ifkeyboard FFFF` fails, returning
`INVALID_NUMBER`, and leaves the state as it is, while `FFFE`, `1` and `any`
are accepted. -/
theorem ifkeyboard_ffff_rejected (env : Env) (incl : Option (List Nat) → State → Int × State) (st : State) :
    process_line env incl st (bytes "ifkeyboard FFFF\n") = (INVALID_NUMBER, st) ∧
    process_line env incl st (bytes "ifkeyboard FFFE\n") =
      (0, { st with current_keyboard_id := 65534 }) ∧
    process_line env incl st (bytes "ifkeyboard 1\n") =
      (0, { st with current_keyboard_id := 1 }) ∧
    process_line env incl st (bytes "ifkeyboard any\n") =
      (0, { st with current_keyboard_id := 0 }) :=
  ⟨rfl, rfl, rfl, rfl⟩

/-- C17, evaluated on the code: the line `force any` succeeds and sets the low
nibble of the force flags to 5; the byte at offset 4 of the output is then 5. -/
theorem force_any_sets_nibble_five (env : Env) (incl : Option (List Nat) → State → Int × State) (st : State) :
    process_line env incl st (bytes "force any\n") =
      (0, { st with current_force_flags := (st.current_force_flags &&& 240) ||| 5 }) ∧
    (assemble sample_env 1 (bytes "force any\n")).1 = 0 ∧
    write_target (assemble sample_env 1 (bytes "force any\n")).2 = [83, 67, 1, 1, 5, 0] :=
  ⟨rfl, by decide!, by decide!⟩

/-- C18: a line whose first token is `layerblock`, `remapblock` or `macroblock`
fails with `ERR_INVALID_COMMAND` and leaves the whole state unchanged when a
block is open, and succeeds, setting the open block kind to layerdef, remap or
macro, when none is open. -/
theorem block_open_directives (env : Env) (incl : Option (List Nat) → State → Int × State)
    (st : State) (line name : List Nat) (kind : Nat)
    (hname : (name, kind) ∈ [(bytes "layerblock", BLOCK_LAYERDEF),
      (bytes "remapblock", BLOCK_REMAP), (bytes "macroblock", BLOCK_MACRO)])
    (htok : get_token (strip_comment line) = some name) :
    (st.block_type ≠ BLOCK_NONE → process_line env incl st line = (ERR_INVALID_COMMAND, st)) ∧
    (st.block_type = BLOCK_NONE →
      process_line env incl st line = (0, { st with block_type := kind })) := by
  have f1 : find_command (bytes "layerblock") = .layerdefblock_fn := by decide
  have f2 : find_command (bytes "remapblock") = .remapblock_fn := by decide
  have f3 : find_command (bytes "macroblock") = .macroblock_fn := by decide
  simp only [List.mem_cons, Prod.mk.injEq, List.mem_singleton, List.mem_nil_iff, or_false] at hname
  rcases hname with ⟨rfl, rfl⟩ | ⟨rfl, rfl⟩ | ⟨rfl, rfl⟩
  · have hp : process_line env incl st line =
        cmd_layerdefblock st (skip_token (strip_comment line)) := by
      unfold process_line; simp [htok, f1, call_command]
    rw [hp]
    constructor <;> intro h <;> simp [cmd_layerdefblock, h]
  · have hp : process_line env incl st line =
        cmd_remapblock st (skip_token (strip_comment line)) := by
      unfold process_line; simp [htok, f2, call_command]
    rw [hp]
    constructor <;> intro h <;> simp [cmd_remapblock, h]
  · have hp : process_line env incl st line =
        cmd_macroblock st (skip_token (strip_comment line)) := by
      unfold process_line; simp [htok, f3, call_command]
    rw [hp]
    constructor <;> intro h <;> simp [cmd_macroblock, h]

/-- Witness for C18: `macroblock` with no block open, and with a layerblock
open. -/
theorem block_open_directives_witness :
    process_line sample_env (process_file sample_env 0) (layerdef_state 0 0)
        (bytes "macroblock\n") = (ERR_INVALID_COMMAND, layerdef_state 0 0) ∧
    process_line sample_env (process_file sample_env 0) State.init (bytes "macroblock\n") =
      (0, { State.init with block_type := BLOCK_MACRO }) :=
  ⟨(block_open_directives sample_env (process_file sample_env 0) (layerdef_state 0 0)
      (bytes "macroblock\n") (bytes "macroblock") BLOCK_MACRO (by decide) (by decide)).1
      (by decide),
   (block_open_directives sample_env (process_file sample_env 0) State.init
      (bytes "macroblock\n") (bytes "macroblock") BLOCK_MACRO (by decide) (by decide)).2 rfl⟩

/-- C19: for a line whose first token is none of the 13 names of the command
table, `process_line` returns `ERR_INVALID_COMMAND` when no block is open, and
what `cmd_layerdef`, `cmd_remap` or `cmd_macrostep` returns on the whole
comment-stripped line when a layerdef, remap or macro block is open. -/
theorem unknown_name_dispatch (env : Env) (incl : Option (List Nat) → State → Int × State)
    (st : State) (line t : List Nat)
    (htok : get_token (strip_comment line) = some t)
    (hname : ∀ e ∈ command_map, e.1 ≠ t) :
    command_map.length = 13 ∧
    (st.block_type = BLOCK_NONE → process_line env incl st line = (ERR_INVALID_COMMAND, st)) ∧
    (st.block_type = BLOCK_LAYERDEF →
      process_line env incl st line = cmd_layerdef st (strip_comment line)) ∧
    (st.block_type = BLOCK_REMAP →
      process_line env incl st line = cmd_remap env st (strip_comment line)) ∧
    (st.block_type = BLOCK_MACRO →
      process_line env incl st line = cmd_macrostep env st (strip_comment line)) := by
  have hp : process_line env incl st line = cmd_invalid env st (strip_comment line) := by
    unfold process_line
    simp only [htok, find_command_unknown t hname, call_command, ne_eq, not_true_eq_false,
      if_false]
  rw [hp]
  refine ⟨rfl, ?_, ?_, ?_, ?_⟩ <;> intro h <;>
    simp [cmd_invalid, h, BLOCK_NONE, BLOCK_LAYERDEF, BLOCK_REMAP, BLOCK_MACRO]

/-- Witness for C19: the line `CAPSLOCK ESC` with no block open and inside a
remapblock. -/
theorem unknown_name_dispatch_witness :
    process_line sample_env (process_file sample_env 0) State.init (bytes "CAPSLOCK ESC\n") =
      (ERR_INVALID_COMMAND, State.init) ∧
    process_line sample_env (process_file sample_env 0) (remap_state 1 2 [])
        (bytes "CAPSLOCK ESC\n") =
      cmd_remap sample_env (remap_state 1 2 []) (strip_comment (bytes "CAPSLOCK ESC\n")) :=
  ⟨(unknown_name_dispatch sample_env (process_file sample_env 0) State.init
      (bytes "CAPSLOCK ESC\n") (bytes "CAPSLOCK") (by decide) (by decide)).2.1 rfl,
   (unknown_name_dispatch sample_env (process_file sample_env 0) (remap_state 1 2 [])
      (bytes "CAPSLOCK ESC\n") (bytes "CAPSLOCK") (by decide) (by decide)).2.2.2.1 rfl⟩

/-- C20: a line whose first token is `onbreak` fails with `ERR_INVALID_COMMAND`
when no macro is open; for a macro in its press phase, `onbreak` alone switches
to the release phase with restore-on-release set and `onbreak norestoremeta`
with restore-on-release cleared; in the release phase every accepted step is
appended to the release list. -/
theorem onbreak_switches_phase (env : Env) (incl : Option (List Nat) → State → Int × State)
    (st : State) (line : List Nat)
    (htok : get_token (strip_comment line) = some (bytes "onbreak")) :
    (st.current_macro_phase = -1 → process_line env incl st line = (ERR_INVALID_COMMAND, st)) ∧
    (st.current_macro_phase = 0 → get_token (skip_token (strip_comment line)) = none →
      process_line env incl st line =
        (0, { st with current_macro_phase := 1, current_macro_release_meta := 1 })) ∧
    (st.current_macro_phase = 0 →
      get_token (skip_token (strip_comment line)) = some (bytes "norestoremeta") →
      process_line env incl st line =
        (0, { st with current_macro_phase := 1, current_macro_release_meta := 0 })) ∧
    (∀ (st1 : State) (args : List Nat), st1.current_macro_phase = 1 →
      (parse_macro_cmd env args).1 = false →
      cmd_macrostep env st1 args =
        (0, { st1 with release_mcmd_list := st1.release_mcmd_list ++
                [pair (parse_macro_cmd env args).2.1 (parse_macro_cmd env args).2.2] })) := by
  have f1 : find_command (bytes "onbreak") = .onbreak_fn := by decide
  have hp : process_line env incl st line = cmd_onbreak st (skip_token (strip_comment line)) := by
    unfold process_line; simp [htok, f1, call_command]
  rw [hp]
  refine ⟨fun h => ?_, fun h ha => ?_, fun h ha => ?_, fun st1 args h hparse => ?_⟩
  · simp [cmd_onbreak, h]
  · simp [cmd_onbreak, h, ha]
  · simp [cmd_onbreak, h, ha]
  · simp [cmd_macrostep, h, hparse]

/-- Witness for C20: `onbreak` with no macro open, and `onbreak norestoremeta`
in the press phase of a macro. -/
theorem onbreak_switches_phase_witness :
    process_line sample_env (process_file sample_env 0) State.init (bytes "onbreak\n") =
      (ERR_INVALID_COMMAND, State.init) ∧
    process_line sample_env (process_file sample_env 0)
        (macro_example_state 2 0 1 4 1 1 [pair 1 5] [] [] []) (bytes "onbreak norestoremeta\n") =
      (0, macro_example_state 2 1 0 4 1 1 [pair 1 5] [] [] []) :=
  ⟨(onbreak_switches_phase sample_env (process_file sample_env 0) State.init
      (bytes "onbreak\n") (by decide)).1 rfl,
   (onbreak_switches_phase sample_env (process_file sample_env 0)
      (macro_example_state 2 0 1 4 1 1 [pair 1 5] [] [] []) (bytes "onbreak norestoremeta\n")
      (by decide)).2.2.1 rfl (by decide)⟩

/-- C22, evaluated on the code: for a layerblock whose flags byte has bit 6
clear, `process_block` prints `ifkeyboard any` and `ifselect any` but no `ifset`
line at all; the line `ifset any` is printed only when bit 6 is set and the
scan-set byte that follows is 0. -/
theorem block_without_ifset_line (env : Env) :
    Scdis.process_block env [5, 0, 1, 1, 2] 0 5 =
      (0, bytes "# block length: 5\nifkeyboard any\nifselect any\nlayerblock\n# count: 3\n\tFN1 2\nendblock\n") ∧
    Scdis.process_block env [6, 64, 0, 1, 1, 2] 0 6 =
      (0, bytes "# block length: 6\nifset any\nifkeyboard any\nifselect any\nlayerblock\n# count: 3\n\tFN1 2\nendblock\n") ∧
    Scdis.process_block env [6, 64, 3, 1, 1, 2] 0 6 =
      (0, bytes "# block length: 6\nifset set1 set2 \nifkeyboard any\nifselect any\nlayerblock\n# count: 3\n\tFN1 2\nendblock\n") :=
  ⟨by rfl, by rfl, by rfl⟩

/-- C23, evaluated on the code: for a macro record with one release step,
` process_macro` prints `onbreak norestoremeta` when the release byte is `0x81`
(bit 7 set) or `0x01`, and `onbreak` when it is `0x41` (bit 7 clear, bit 6
set); with no release step it prints no onbreak line. -/
theorem onbreak_line_tests_bit_six :
    Scdis.process_macro sample_env [4, 1, 1, 0, 129, 3, 5] 0 7 =
      (0, bytes "macro A LCTRL  # 01 01\nonbreak norestoremeta\n\tBREAK B \nendmacro\n") ∧
    Scdis.process_macro sample_env [4, 1, 1, 0, 65, 3, 5] 0 7 =
      (0, bytes "macro A LCTRL  # 01 01\nonbreak\n\tBREAK B \nendmacro\n") ∧
    Scdis.process_macro sample_env [4, 1, 1, 0, 1, 3, 5] 0 7 =
      (0, bytes "macro A LCTRL  # 01 01\nonbreak norestoremeta\n\tBREAK B \nendmacro\n") ∧
    Scdis.process_macro sample_env [4, 1, 1, 0, 128] 0 5 =
      (0, bytes "macro A LCTRL  # 01 01\nendmacro\n") := by
  decide!

/-- C25, evaluated on the code: a macro block of declared length 8 holds one
macro record whose press count is 1, so that the record spans 7 bytes where the
block has 5 left. `process_block` returns 0 for it and prints the two bytes
after the block as a step: zeros past the end of the file, or the first two
bytes of the following block, which is then decoded as a block as well. -/
theorem macro_span_past_block_end :
    Scdis.process_block sample_env [83, 67, 1, 1, 0, 0, 8, 2, 1, 4, 1, 1, 1, 0] 6 8 =
      (0, bytes "# block length: 8\nifkeyboard any\nifselect any\nmacroblock\n# macro count: 1\nmacro A LCTRL  # 01 01\n\tNOP \nendmacro\nendblock\n") ∧
    Scdis.process_file sample_env [83, 67, 1, 1, 0, 0, 8, 2, 1, 4, 1, 1, 1, 0] 14 =
      some { ret := 0,
             out := bytes "# length: 14\n# signature: S C\n# version: 1 1\n# block length: 8\nifkeyboard any\nifselect any\nmacroblock\n# macro count: 1\nmacro A LCTRL  # 01 01\n\tNOP \nendmacro\nendblock\n",
             visited := [6] } ∧
    Scdis.process_file sample_env [83, 67, 1, 1, 0, 0, 8, 2, 1, 4, 1, 1, 1, 0, 5, 0, 1, 1, 2] 19 =
      some { ret := 0,
             out := bytes "# length: 19\n# signature: S C\n# version: 1 1\n# block length: 8\nifkeyboard any\nifselect any\nmacroblock\n# macro count: 1\nmacro A LCTRL  # 01 01\n\tSET_META \nendmacro\nendblock\n# block length: 5\nifkeyboard any\nifselect any\nlayerblock\n# count: 3\n\tFN1 2\nendblock\n",
             visited := [6, 14] } := by
  decide!

/-- C26: the table `macro_token_list` has 14 entries with pairwise different
mnemonics and pairwise different codes, the codes being 0..12 and 128; looking
up the name of a code of the table gives the code back, looking up the code of
a mnemonic gives the mnemonic back; every name that is not a mnemonic (such as
`nop` or `Press`) and the NULL name give `INVALID_NUMBER`, which is no code of
the table, and every code outside the table gives `INVALID`, which is no
mnemonic. -/
theorem macro_table_bijection :
    macro_token_list.map Prod.fst =
      [bytes "NOP", bytes "PRESS", bytes "MAKE", bytes "BREAK", bytes "ASSIGN_META",
       bytes "SET_META", bytes "CLEAR_META", bytes "TOGGLE_META", bytes "POP_META",
       bytes "POP_ALL_META", bytes "DELAY", bytes "CLEAR_ALL", bytes "BOOT", bytes "PUSH_META"] ∧
    macro_token_list.map Prod.snd = [0, 1, 2, 3, 4, 5, 6, 7, 8, 9, 10, 11, 12, 128] ∧
    (macro_token_list.map Prod.fst).Nodup ∧ (macro_token_list.map Prod.snd).Nodup ∧
    (∀ c ∈ macro_token_list.map Prod.snd,
      lookup_macro_token_by_name (some (lookup_macro_token_by_value c)) = c) ∧
    (∀ n ∈ macro_token_list.map Prod.fst,
      lookup_macro_token_by_value (lookup_macro_token_by_name (some n)) = n) ∧
    (∀ n, n ∉ macro_token_list.map Prod.fst →
      lookup_macro_token_by_name (some n) = INVALID_NUMBER) ∧
    lookup_macro_token_by_name (some (bytes "nop")) = INVALID_NUMBER ∧
    lookup_macro_token_by_name (some (bytes "Press")) = INVALID_NUMBER ∧
    lookup_macro_token_by_name none = INVALID_NUMBER ∧
    (∀ c, c ∉ macro_token_list.map Prod.snd →
      lookup_macro_token_by_value c = bytes "INVALID") ∧
    INVALID_NUMBER ∉ macro_token_list.map Prod.snd ∧
    bytes "INVALID" ∉ macro_token_list.map Prod.fst :=
  ⟨by decide, by decide, by decide, by decide, by decide, by decide,
   lookup_by_name_unknown, by decide, by decide, rfl, lookup_by_value_unknown,
   by decide, by decide⟩

/-- Witness for C26: the name `push_meta` and the code 13 are outside the
table. -/
theorem macro_table_bijection_witness :
    lookup_macro_token_by_name (some (bytes "push_meta")) = INVALID_NUMBER ∧
    lookup_macro_token_by_value 13 = bytes "INVALID" :=
  ⟨macro_table_bijection.2.2.2.2.2.2.1 (bytes "push_meta") (by decide),
   macro_table_bijection.2.2.2.2.2.2.2.2.2.2.1 13 (by decide)⟩

/-- C27, proved on the code: for a line that consists of whitespace `ws`, a
quote, characters `cs` with no quote and no backslash, a closing quote and a
rest, `get_token` returns the opening quote followed by `cs` (not `cs` alone),
and `skip_token` returns the rest after its leading whitespace. -/
theorem quoted_token_keeps_quote (ws cs rest : List Nat) (hw : ∀ x ∈ ws, isspace x = true)
    (h : ∀ x ∈ cs, x ≠ 34 ∧ x ≠ 92) :
    get_token (ws ++ 34 :: (cs ++ 34 :: rest)) = some (34 :: cs) ∧
    skip_token (ws ++ 34 :: (cs ++ 34 :: rest)) = skip_whitespace rest := by
  have hq := skip_to_end_quote_closed cs rest h
  have hs : skip_whitespace (ws ++ 34 :: (cs ++ 34 :: rest)) = 34 :: (cs ++ 34 :: rest) :=
    dropWhile_append_stop isspace ws _ 34 hw (by decide)
  have hne : ws ++ 34 :: (cs ++ 34 :: rest) ≠ [] := by simp
  constructor
  · rw [get_token_end _ hne, hs]
    simp only [token_end, hq, List.length_cons, List.length_append]
    have hl : cs.length + (rest.length + 1) + 1 - (rest.length + 1) = cs.length + 1 := by omega
    rw [hl]
    simp [List.take_left']
  · rw [skip_token_skip _ hne, hs]
    simp only [token_skip, hq]

/-- Witness for C27: the line ` "a b" c`, whose first token is returned as
`"a b` with its opening quote. -/
theorem quoted_token_keeps_quote_witness :
    (∀ x ∈ bytes " ", isspace x = true) ∧ (∀ x ∈ bytes "a b", x ≠ 34 ∧ x ≠ 92) ∧
    get_token (bytes " " ++ 34 :: (bytes "a b" ++ 34 :: bytes " c")) = some (34 :: bytes "a b") ∧
    skip_token (bytes " " ++ 34 :: (bytes "a b" ++ 34 :: bytes " c")) = bytes "c" :=
  ⟨by decide, by decide,
   quoted_token_keeps_quote (bytes " ") (bytes "a b") (bytes " c") (by decide) (by decide)⟩

/-- C29, proved on the code: for every macro record of at least 5 bytes whose
desired and matched modifier bytes are both 0, ` process_macro` prints only
`endmacro` and returns 1, whatever the step counts and the length are. -/
theorem macro_without_modifiers_fails (env : Env) (buf : List Nat) (b bufend : Nat)
    (h5 : 5 ≤ bufend - b) (hd : Scdis.rd buf (b + 1) = 0) (hm : Scdis.rd buf (b + 2) = 0) :
    Scdis.process_macro env buf b bufend = (1, bytes "endmacro\n") := by
  have h : Scdis.get_macro_match_metas 0 0 = none := by decide
  simp [ Scdis.process_macro, hd, hm, h]
  omega

/-- Witness for C29: the record `04 00 00 00 00`, a macro on key 4 with no
modifier condition and no step. -/
theorem macro_without_modifiers_fails_witness :
    (5 : Nat) ≤ 5 - 0 ∧ Scdis.rd [4, 0, 0, 0, 0] (0 + 1) = 0 ∧
    Scdis.rd [4, 0, 0, 0, 0] (0 + 2) = 0 ∧
    Scdis.process_macro sample_env [4, 0, 0, 0, 0] 0 5 = (1, bytes "endmacro\n") :=
  ⟨by decide, rfl, rfl,
   macro_without_modifiers_fails sample_env [4, 0, 0, 0, 0] 0 5 (by decide) rfl rfl⟩

/-- C30, proved on the code: `process_layerblock` returns 0 exactly when the
body has at least 2 bytes and its length is twice its first byte plus 1; the
one-byte body `[0]`, which is the body the assembler builds for an empty
layerdef list, is rejected with a size mismatch. -/
theorem layerblock_accepts_iff (buf : List Nat) (b bufend : Nat) :
    ((Scdis.process_layerblock buf b bufend).1 = 0 ↔
      2 ≤ bufend - b ∧ bufend - b = 2 * Scdis.rd buf b + 1) ∧
    Scdis.process_layerblock [0] 0 1 =
      (1, bytes "layerblock\n# count: 1\n# ERROR: block size mismatch\n") ∧
    layerdef_body State.init = [0] := by
  refine ⟨?_, rfl, rfl⟩
  unfold Scdis.process_layerblock
  simp only [Nat.shiftLeft_eq, pow_one]
  split_ifs with h
  · simp; omega
  · simp; omega

/-- C21, evaluated on the code: the fourth line of `bad.sc`, `ifkeyboard 0`,
makes its handler return `INVALID_NUMBER`. The run over `bad.sc` and `b.sc`
stops there, with the one block finished before that line and nothing of the
later lines or of `b.sc`, and `scas_main` returns 1 without writing an output
file; but `print_error` is called with `INVALID_NUMBER`, for which it reads
outside `err_messages`, where a failing handler that returns
`ERR_INVALID_ARGS` gets `invalid arguments`. Without the failing line the run
writes the three blocks. -/
theorem first_error_report :
    main_loop error_files_env 1 [bytes "bad.sc", bytes "b.sc"] State.init =
      (INVALID_NUMBER,
       { State.init with block_list := [{ bytes := [5, 0, 1, 1, 1], len := 5 }] }) ∧
    scas_main error_files_env 1 [bytes "bad.sc", bytes "b.sc"] = (1, none) ∧
    process_line error_files_env (process_file error_files_env 0)
      { State.init with block_list := [{ bytes := [5, 0, 1, 1, 1], len := 5 }] }
      (bytes "ifkeyboard 0\n") =
      (INVALID_NUMBER,
       { State.init with block_list := [{ bytes := [5, 0, 1, 1, 1], len := 5 }] }) ∧
    print_error INVALID_NUMBER = none ∧
    print_error ERR_INVALID_ARGS = some (bytes "invalid arguments\n") ∧
    scas_main error_files_env 1 [bytes "good.sc", bytes "b.sc"] =
      (0, some [83, 67, 1, 1, 0, 0, 5, 0, 1, 1, 1, 5, 0, 1, 2, 2, 7, 65, 3, 2, 1, 57, 41]) := by
  decide!

/-- C24, counterexample: on eleven bytes whose first two are `X`, `Y` and on
the three bytes `S C 1`, `process_file` echoes the header and returns 0. -/
theorem wrong_signature_accepted :
    Scdis.process_file sample_env [88, 89, 1, 1, 0, 0, 5, 0, 1, 1, 2] 11 =
      some { ret := 0,
             out := bytes "# length: 11\n# signature: X Y\n# version: 1 1\n# block length: 5\nifkeyboard any\nifselect any\nlayerblock\n# count: 3\n\tFN1 2\nendblock\n",
             visited := [6] } ∧
    Scdis.process_file sample_env [83, 67, 1] 3 =
      some { ret := 0, out := bytes "# length: 3\n# signature: S C\n# version: 1 0\n",
             visited := [] } := by
  decide!

/-- C24, amended: `process_file` does not validate the header. On every buffer
of at most 6 bytes it prints the header text and returns 0, and on every buffer
the return value and the block offsets visited are the same whatever the first
two bytes are: they are those of the buffer with `S`, `C` in their place. -/
theorem header_not_validated (env : Env) (buf : List Nat) (a b : Nat) (rest : List Nat)
    (buflen : Nat) :
    (buflen ≤ 6 → Scdis.process_file env buf buflen =
      some { ret := 0, out := Scdis.header_text buf buflen, visited := [] }) ∧
    (Scdis.process_file env (a :: b :: rest) buflen).map (fun q => (q.ret, q.visited)) =
      (Scdis.process_file env (83 :: 67 :: rest) buflen).map (fun q => (q.ret, q.visited)) := by
  constructor
  · intro hl
    unfold Scdis.process_file Scdis.process_file_fuel
    rw [blocks_loop_done env buf buflen buflen 6 _ (by omega)]
  · have h : ∀ i, 2 ≤ i → Scdis.rd (a :: b :: rest) i = Scdis.rd (83 :: 67 :: rest) i := by
      intro i hi
      obtain ⟨j, rfl⟩ : ∃ j, i = j + 2 := ⟨i - 2, by omega⟩
      rfl
    unfold Scdis.process_file Scdis.process_file_fuel
    rw [blocks_loop_congr env (83 :: 67 :: rest) (a :: b :: rest) 2 h buflen _ _ _ (by decide)]
    exact blocks_loop_out env (83 :: 67 :: rest) buflen _ 6
      { ret := 0, out := Scdis.header_text (83 :: 67 :: rest) buflen, visited := [] }
      (Scdis.header_text (a :: b :: rest) buflen)

/-- Witness for C24: a one-byte buffer, and the signature `X`, `Y` in front of
a layerblock. -/
theorem header_not_validated_witness :
    Scdis.process_file sample_env [88] 1 =
      some { ret := 0, out := Scdis.header_text [88] 1, visited := [] } ∧
    (Scdis.process_file sample_env [88, 89, 1, 1, 0, 0, 5, 0, 1, 1, 2] 11).map
        (fun q => (q.ret, q.visited)) =
      (Scdis.process_file sample_env [83, 67, 1, 1, 0, 0, 5, 0, 1, 1, 2] 11).map
        (fun q => (q.ret, q.visited)) :=
  ⟨(header_not_validated sample_env [88] 88 89 [] 1).1 (by decide),
   (header_not_validated sample_env [] 88 89 [1, 1, 0, 0, 5, 0, 1, 1, 2] 11).2⟩

/-- C28, counterexample: with the modifier table of the claim, the list
`CTRL -LCTRL` is accepted with desired `0x10` and matched `0x01`, for which
`get_macro_match_metas` prints `CTRL`, and that text parses to desired `0x11`
and matched `0x01`. -/
theorem meta_match_round_trip_fails :
    parse_meta_match sample_env (bytes "CTRL -LCTRL") = (1, 16, 1) ∧
    Scdis.get_macro_match_metas 16 1 = some (bytes "CTRL ") ∧
    parse_meta_match sample_env (bytes "CTRL ") = (1, 17, 1) := by
  decide

/-- C28, amended: let `lookup_meta_token` map the twelve names of
`meta_token_list` to their values and every other name to `INVALID_NUMBER`. For
every text that `parse_meta_match` accepts with the result `(desired, matched)`,
where `matched` is not 0 and no pair has its right bit desired and not matched
while its left bit is not desired, `get_macro_match_metas` on the two bytes
prints a text, and `parse_meta_match` accepts that text with the same result. -/
theorem meta_match_round_trip (env : Env)
    (h12 : ∀ e ∈ meta_token_list, env.lookup_meta_token e.1 = e.2)
    (hother : ∀ t, t ∉ meta_token_list.map Prod.fst → env.lookup_meta_token t = INVALID_NUMBER)
    (p : List Nat) (desired matched : Int)
    (hp : parse_meta_match env p = (1, desired, matched))
    (hm : matched ≠ 0)
    (hpair : ∀ i < 4, (u8 desired).testBit (i + 4) = true →
      (u8 matched).testBit (i + 4) = false → (u8 desired).testBit i = true) :
    ∃ s, Scdis.get_macro_match_metas (u8 desired) (u8 matched) = some s ∧
      parse_meta_match env s = (1, desired, matched) := by
  obtain ⟨a, b, rfl, rfl, ha, hb, hab⟩ :=
    parse_accept_inv env h12 hother p.length p 0 0 desired matched (by decide) (by decide)
      (by intro i _ h; simp at h) hp
  have ua : u8 (a : Int) = a := by rw [u8_natCast]; omega
  have ub : u8 (b : Int) = b := by rw [u8_natCast]; omega
  rw [ua, ub] at hpair ⊢
  have hb0 : b ≠ 0 := by rintro rfl; exact hm rfl
  obtain ⟨k1, hk1⟩ := unhanded_loop env h12 ((a &&& (255 - b)) &&& 240) 4 0 none 0 (0, 0) a b rfl
    ⟨by simp, parses_to_nil env, fun _ => rfl⟩
  obtain ⟨k2, hk2⟩ := handed_loop env h12
    (Scdis.match_metas_unhanded ((a &&& (255 - b)) &&& 240) 4 0 none a b).2.1
    (Scdis.match_metas_unhanded ((a &&& (255 - b)) &&& 240) 4 0 none a b).2.2 8 0 _ k1 _ rfl hk1
  rw [round_vals_eq a b ha hb hab hpair] at hk2
  have hget : Scdis.get_macro_match_metas a b =
      Scdis.match_metas_handed
        (Scdis.match_metas_unhanded ((a &&& (255 - b)) &&& 240) 4 0 none a b).2.1
        (Scdis.match_metas_unhanded ((a &&& (255 - b)) &&& 240) 4 0 none a b).2.2 8 0
        (Scdis.match_metas_unhanded ((a &&& (255 - b)) &&& 240) 4 0 none a b).1 := rfl
  rw [← hget] at hk2
  cases hs : Scdis.get_macro_match_metas a b with
  | none =>
    rw [hs] at hk2
    have := hk2.2.2 rfl
    simp only [Prod.mk.injEq] at this
    exact absurd this.2 hb0
  | some s =>
    rw [hs] at hk2
    refine ⟨s, rfl, ?_⟩
    obtain ⟨hlen, hparse, _⟩ := hk2
    simp only [Option.getD_some] at hlen hparse
    have := hparse (s.length - k2) [] rfl
    rw [List.append_nil, Nat.sub_add_cancel hlen, parse_loop_nil] at this
    exact this

/-- Witness for C28: the list `CTRL -LSHIFT RALT`, accepted with desired `0x51`
and matched `0x43`, which is printed as `CTRL -LSHIFT RALT `. -/
theorem meta_match_round_trip_witness :
    parse_meta_match sample_env (bytes "CTRL -LSHIFT RALT") = (1, 81, 67) ∧
    Scdis.get_macro_match_metas 81 67 = some (bytes "CTRL -LSHIFT RALT ") ∧
    ∃ s, Scdis.get_macro_match_metas (u8 81) (u8 67) = some s ∧
      parse_meta_match sample_env s = (1, 81, 67) :=
  ⟨by decide, by decide,
   meta_match_round_trip sample_env (by decide) sample_env_other (bytes "CTRL -LSHIFT RALT")
    81 67 (by decide) (by decide) (by decide)⟩

/-- C31: `process_block` returns 1 with only the block length comment, the line
`# ERROR: block truncated` and `endblock` printed exactly when the length it is
given is less than 2, plus 1 if bit 6 of the flags byte is set, plus 2 if bit 7
is set. -/
theorem truncated_branch_iff (env : Env) (buf : List Nat) (o buflen : Nat) :
    Scdis.process_block env buf o buflen =
        (1, bytes "# block length: " ++ Scdis.dec buflen ++ [10] ++
            bytes "# ERROR: block truncated\n" ++ bytes "endblock\n") ↔
      buflen < 2 + (if Scdis.rd buf (o + 1) &&& 64 ≠ 0 then 1 else 0) +
                   (if Scdis.rd buf (o + 1) &&& 128 ≠ 0 then 2 else 0) := by
  rw [← flags_width]
  constructor
  · intro h
    by_contra hc
    unfold Scdis.process_block at h
    simp only [if_neg hc] at h
    have e1 : bytes "ifset " = 105 :: bytes "fset " := rfl
    have e2 : bytes "ifkeyboard " = 105 :: bytes "fkeyboard " := rfl
    have e3 : bytes "ifkeyboard any\n" = 105 :: bytes "fkeyboard any\n" := rfl
    have eT : bytes "# ERROR: block truncated\n" = 35 :: bytes " ERROR: block truncated\n" := rfl
    by_cases hmis : buflen ≠ Scdis.rd buf o
    · rw [if_pos hmis] at h
      simp only [Prod.mk.injEq, true_and, List.append_assoc, List.append_right_inj] at h
      revert h; decide
    · rw [if_neg hmis] at h
      revert h
      cases (if Scdis.rd buf (o + 1) &&& 64 ≠ 0 then Scdis.get_ifset (Scdis.rd buf (o + 2))
          else some []) with
      | none =>
        intro h
        simp only [Prod.mk.injEq, true_and, List.append_assoc, List.append_right_inj] at h
        revert h; decide
      | some s =>
        intro h
        simp only [Prod.mk.injEq] at h
        have h2 := h.2
        by_cases h64 : Scdis.rd buf (o + 1) &&& 64 ≠ 0 <;>
          by_cases h128 : Scdis.rd buf (o + 1) &&& 128 ≠ 0 <;>
          by_cases h56 : Scdis.rd buf (o + 1) &&& 56 ≠ 0 <;>
          simp only [h64, h128, h56, if_true, if_false, not_true_eq_false, not_false_eq_true,
            ne_eq, List.append_assoc, List.append_right_inj, e1, e2, e3, eT, List.cons_append,
            List.cons.injEq] at h2 <;>
          omega
  · intro h
    unfold Scdis.process_block
    simp only [if_pos h]

/-- C32: after a successful `endblock` the block appended is `emitted_block`;
behind its header it holds, for a layerdef block, the number of entries of the
list, which is at most 126, followed by two bytes per entry; for a remap block,
behind the layer byte, the number of entries, which is at most 125, followed by
two bytes per entry; and for a macro block the number of macros, which is at
most 50, followed by the records of all the macros. -/
theorem endblock_count_byte (st : State) (args : List Nat) (hok : (cmd_endblock st args).1 = 0) :
    (cmd_endblock st args).2.block_list = st.block_list ++ [emitted_block st] ∧
    (st.block_type = BLOCK_LAYERDEF →
      st.layerdef_list.length ≤ 126 ∧
      (emitted_block st).bytes.drop (header_bytes st).length =
        st.layerdef_list.length :: st.layerdef_list.flatMap word_bytes) ∧
    (st.block_type = BLOCK_REMAP →
      st.remap_list.length ≤ 125 ∧
      (emitted_block st).bytes.drop ((header_bytes st).length + 1) =
        st.remap_list.length :: st.remap_list.flatMap word_bytes) ∧
    (st.block_type = BLOCK_MACRO →
      st.macro_list.length ≤ 50 ∧
      (emitted_block st).bytes.drop (header_bytes st).length =
        st.macro_list.length :: (st.macro_list.flatMap macro_bytes).map (fun x => x % 256)) := by
  have ht := cmd_endblock_open st args hok
  have hfit := cmd_endblock_fits st args hok
  have hs := (cmd_endblock_spec st args ht).1 hfit
  have hh := header_bytes_length st
  unfold block_size at hfit
  refine ⟨hs.2, fun h => ?_, fun h => ?_, fun h => ?_⟩
  · have hb : block_body st = layerdef_body st := by simp [block_body, h]
    have hl := word_bytes_flatMap st.layerdef_list
    rw [hb] at hfit
    simp only [layerdef_body, List.length_cons, hl.1] at hfit
    have hn : st.layerdef_list.length ≤ 126 := by omega
    refine ⟨hn, ?_⟩
    rw [emitted_block_drop st _ (by omega), hb, List.map_append, List.drop_left' (by simp)]
    simp only [layerdef_body, List.map_cons, hl.2, Nat.mod_mod]
    rw [Nat.mod_eq_of_lt (by omega)]
  · have hb : block_body st = remap_body st := by
      simp [block_body, h, BLOCK_REMAP, BLOCK_LAYERDEF]
    have hl := word_bytes_flatMap st.remap_list
    rw [hb] at hfit
    simp only [remap_body, List.length_cons, hl.1] at hfit
    have hn : st.remap_list.length ≤ 125 := by omega
    refine ⟨hn, ?_⟩
    rw [emitted_block_drop st _ (by omega), hb, List.map_append, ← List.drop_drop,
      List.drop_left' (by simp)]
    simp only [remap_body, List.map_cons, hl.2, Nat.mod_mod, List.drop_succ_cons, List.drop_zero]
    rw [Nat.mod_eq_of_lt (by omega)]
  · have hb : block_body st = macro_body st := by
      simp [block_body, h, BLOCK_MACRO, BLOCK_LAYERDEF, BLOCK_REMAP]
    have hl := macro_bytes_flatMap st.macro_list
    rw [hb] at hfit
    simp only [macro_body, List.length_cons] at hfit
    have hn : st.macro_list.length ≤ 50 := by omega
    refine ⟨hn, ?_⟩
    rw [emitted_block_drop st _ (by omega), hb, List.map_append, List.drop_left' (by simp)]
    simp only [macro_body, List.map_cons, Nat.mod_mod]
    rw [Nat.mod_eq_of_lt (by omega)]

/-- Witness for C32: a layerdef block of 126 entries under the default
conditions. -/
theorem endblock_count_byte_witness :
    (layerdef_state 0 126).layerdef_list.length ≤ 126 ∧
    (emitted_block (layerdef_state 0 126)).bytes.drop
        (header_bytes (layerdef_state 0 126)).length =
      (layerdef_state 0 126).layerdef_list.length ::
        (layerdef_state 0 126).layerdef_list.flatMap word_bytes :=
  (endblock_count_byte (layerdef_state 0 126) [] (by decide!)).2.1 rfl

/-- C33, evaluated on the code: for the command `SET_META` (5), alone or with
`PUSH_META`, and the value 1 (`LCTRL`), `get_macrostep` prints the name `CTRL`,
read from `metas`, and for the value 3 the names `CTRL SHIFT`; with `CTRL` = 0x11
and `SHIFT` = 0x22 these texts assemble to the values 0x11 and 0x33, where
`LCTRL` assembles to 1. For the value 0x10 the name printed is what lies behind
the end of `metas`, nothing in the sample environment, and the text assembles
to 0. -/
theorem macrostep_prints_unhanded_names (env : Env) :
    Scdis.get_macrostep_metas env 1 = some (bytes "CTRL ") ∧
    Scdis.get_macrostep env 5 1 = some (bytes "SET_META CTRL  ") ∧
    Scdis.get_macrostep env 133 3 = some (bytes "PUSH_META SET_META CTRL SHIFT  ") ∧
    parse_meta_handed sample_env (bytes "CTRL  ") = 17 ∧
    parse_macro_cmd sample_env (bytes "SET_META CTRL  ") = (false, 5, 17) ∧
    parse_macro_cmd sample_env (bytes "SET_META LCTRL") = (false, 5, 1) ∧
    parse_macro_cmd sample_env (bytes "PUSH_META SET_META CTRL SHIFT  ") = (false, 133, 51) ∧
    Scdis.get_macrostep sample_env 5 16 = some (bytes "SET_META ") ∧
    parse_macro_cmd sample_env (bytes "SET_META ") = (false, 5, 0) :=
  ⟨rfl, rfl, rfl, by decide!, by decide!, by decide!, by decide!, by decide!, by decide!⟩

/-- C34: for every function-key mask `m` and layer `n` in 1..255, the body
`01 m n` is printed by `process_layerblock` as a tab, the names `fn_names`
gives for `m`, `n` in decimal and a newline, and `cmd_layerdef` accepts that
line and appends exactly the pair `(m, n)` to the layerdef list. -/
theorem layer_line_round_trip (m n : Nat) (hm1 : 1 ≤ m) (hm : m ≤ 255) (hn1 : 1 ≤ n) (hn : n ≤ 255) (st : State) :
    Scdis.process_layerblock [1, m, n] 0 3 =
      (0, bytes "layerblock\n# count: 3\n" ++
          ([9] ++ Scdis.fn_names 8 m 1 ++ Scdis.dec n ++ [10])) ∧
    cmd_layerdef st ([9] ++ Scdis.fn_names 8 m 1 ++ Scdis.dec n ++ [10]) =
      (0, { st with layerdef_list := st.layerdef_list ++ [pair m n] }) := by
  obtain ⟨d1, d2, d3⟩ := layer_digits n (by omega) hn1
  have hl := layerdef_loop_names (Scdis.dec n ++ [10]) d2 d3 8 m 1
  constructor
  · simp [Scdis.process_layerblock, Scdis.layer_lines, Scdis.rd]
    rfl
  · have e : [9] ++ Scdis.fn_names 8 m 1 ++ Scdis.dec n ++ [10] =
        9 :: (Scdis.fn_names 8 m 1 ++ (Scdis.dec n ++ [10])) := by simp
    have hloop := hl ([9] ++ Scdis.fn_names 8 m 1 ++ Scdis.dec n ++ [10]).length 0 (le_refl _)
      (by decide) (by simp; omega)
    have hs : skip_whitespace (skip_whitespace
        ([9] ++ Scdis.fn_names 8 m 1 ++ Scdis.dec n ++ [10])) =
        Scdis.fn_names 8 m 1 ++ (Scdis.dec n ++ [10]) := by
      rw [e]
      have : skip_whitespace (9 :: (Scdis.fn_names 8 m 1 ++ (Scdis.dec n ++ [10]))) =
          skip_whitespace (Scdis.fn_names 8 m 1 ++ (Scdis.dec n ++ [10])) := by
        simp [skip_whitespace, List.dropWhile, isspace]
      rw [this, hloop.2, hloop.2]
    unfold cmd_layerdef
    simp only [hs, hloop.1, fn_acc_eq m (by omega), d1]
    have hm0 : m ≠ 0 := by omega
    have hu : u8 (n : Int) = n := by rw [u8_natCast]; omega
    simp [hm0, natCast_ne_invalid, hu]

/-- Witness for C34: the mask 5 and the layer 12, printed as `FN1 FN3 12`. -/
theorem layer_line_round_trip_witness :
    [9] ++ Scdis.fn_names 8 5 1 ++ Scdis.dec 12 ++ [10] = bytes "\tFN1 FN3 12\n" ∧
    cmd_layerdef State.init ([9] ++ Scdis.fn_names 8 5 1 ++ Scdis.dec 12 ++ [10]) =
      (0, { State.init with layerdef_list := State.init.layerdef_list ++ [pair 5 12] }) :=
  ⟨by decide,
   (layer_line_round_trip 5 12 (by decide) (by decide) (by decide) (by decide) State.init).2⟩

/-- C35, proved on the code: for a value byte `val`, every index at which
`get_macrostep_metas` reads `metas` is below the 4 entries of that array exactly
when `val` is below 16; for the value 16 the first read is at index 4. -/
theorem metas_reads_in_range_iff (env : Env) (val : Nat) (hv : val < 256) :
    ((∀ j ∈ metas_reads env val 8 0 none, j < Scdis.metas.length) ↔ val < 16) ∧
    Scdis.metas.length = 4 ∧
    (metas_reads env 16 8 0 none).head? = some 4 := by
  refine ⟨⟨fun h => ?_, fun h j hj => ?_⟩, rfl, rfl⟩
  · by_contra hc
    obtain ⟨r0, h0⟩ := metas_reads_low env val 7 0 none (by decide)
    obtain ⟨r1, h1⟩ := metas_reads_low env val 6 1 r0 (by decide)
    obtain ⟨r2, h2⟩ := metas_reads_low env val 5 2 r1 (by decide)
    obtain ⟨r3, h3⟩ := metas_reads_low env val 4 3 r2 (by decide)
    obtain ⟨j, hj, hj4⟩ := metas_reads_high env val hv (by omega) r3
    have := h j (h0 j (h1 j (h2 j (h3 j hj))))
    have hl : Scdis.metas.length = 4 := rfl
    omega
  · have hb := (metas_reads_bit env val 8 0 none j hj).2
    have ht := (and_bit_ne_zero val j).1 hb
    show j < 4
    by_contra hc
    have : val.testBit j = false := by
      apply Nat.testBit_lt_two_pow
      calc val < 2 ^ 4 := h
        _ ≤ 2 ^ j := Nat.pow_le_pow_right (by decide) (by omega)
    rw [this] at ht
    exact Bool.noConfusion ht

/-- Witness for C35: the value 16 (`RCTRL`). -/
theorem metas_reads_in_range_iff_witness :
    ((∀ j ∈ metas_reads sample_env 16 8 0 none, j < Scdis.metas.length) ↔ 16 < 16) ∧
    Scdis.metas.length = 4 ∧
    (metas_reads sample_env 16 8 0 none).head? = some 4 :=
  metas_reads_in_range_iff sample_env 16 (by decide)

/-- C36: when `main` of scas succeeds and writes `bin`, whose blocks are `bs`,
then `process_file` of scdis on the whole of `bin` returns what one call of
`process_block` per block of `bs`, with the block's length, gives: the offsets
visited are the start offsets of the blocks from 6 on, the length byte at each
of them is the block's length and not 0, the zero length message is not
printed, and the last block ends where `bin` ends. `main` of scdis hands the
whole file to `process_file` when it has at most `FILE_BUFSIZ` bytes. -/
theorem assembled_blocks_walk (env : Env) (depth : Nat) (inputs : List (List Nat)) (bin : List Nat)
    (h : scas_main env depth inputs = (0, some bin)) (bs : List Block)
    (hbs : (main_loop env depth inputs State.init).2.block_list = bs) (env2 : Env) :
    Scdis.process_file env2 bin bin.length =
      some (walk_blocks env2 bin bs 6
        { ret := 0, out := Scdis.header_text bin bin.length, visited := [] }) ∧
    (walk_blocks env2 bin bs 6
        { ret := 0, out := Scdis.header_text bin bin.length, visited := [] }).visited =
      block_offsets 6 bs ∧
    (∀ p ∈ (block_offsets 6 bs).zip bs,
      Scdis.rd bin p.1 = p.2.len ∧ p.2.len ≠ 0 ∧ p.1 + p.2.len ≤ bin.length) ∧
    6 + (bs.map (fun b => b.len)).sum = bin.length ∧
    bin.drop 6 = (bs.map (fun b => b.bytes)).flatten ∧
    (bin.length ≤ Scdis.FILE_BUFSIZ →
      Scdis.disassemble env2 bin = Scdis.process_file env2 bin bin.length) := by
  have hg := (main_loop_grows env depth inputs State.init).2 (by simp [State.init])
  rw [hbs] at hg
  obtain ⟨_, _, hout, hlenb⟩ := scas_main_success env depth inputs bin h
  rw [hbs] at hout
  have hbin : bin = [83, 67, 1, 1, (main_loop env depth inputs State.init).2.current_force_flags, 0]
      ++ (bs.map (fun b => b.bytes)).flatten := hout
  have hrd := block_offsets_rd bin bs _ hg hbin
  have hlen3 : bs.length < bin.length + 1 := by
    have := blocks_length_le_sum bs hg
    have h2 := hrd.2
    simp only [List.length_cons, List.length_nil] at h2
    omega
  refine ⟨?_, ?_, hrd.1, hrd.2, ?_, ?_⟩
  · unfold Scdis.process_file Scdis.process_file_fuel
    exact blocks_loop_walk env2 bin bs _ _ _ hg hbin hlen3
  · rw [walk_blocks_visited]; rfl
  · rw [hbin]; rfl
  · intro hle
    unfold Scdis.disassemble
    rw [List.take_of_length_le hle, Nat.min_eq_left hle]

/-- Witness for C36: the two sample files, whose blocks start at 6 and 18. -/
theorem assembled_blocks_walk_witness :
    (walk_blocks sample_env
        [83, 67, 1, 1, 0, 0, 12, 2, 1, 4, 1, 1, 1, 129, 1, 5, 3, 5, 7, 65, 3, 2, 1, 57, 41]
        [{ bytes := [12, 2, 1, 4, 1, 1, 1, 129, 1, 5, 3, 5], len := 12 },
         { bytes := [7, 65, 3, 2, 1, 57, 41], len := 7 }] 6
        { ret := 0,
          out := Scdis.header_text
            [83, 67, 1, 1, 0, 0, 12, 2, 1, 4, 1, 1, 1, 129, 1, 5, 3, 5, 7, 65, 3, 2, 1, 57, 41]
            [83, 67, 1, 1, 0, 0, 12, 2, 1, 4, 1, 1, 1, 129, 1, 5, 3, 5, 7, 65, 3, 2, 1, 57,
              41].length,
          visited := [] }).visited =
      block_offsets 6
        [{ bytes := [12, 2, 1, 4, 1, 1, 1, 129, 1, 5, 3, 5], len := 12 },
         { bytes := [7, 65, 3, 2, 1, 57, 41], len := 7 }] ∧
    block_offsets 6
        [{ bytes := [12, 2, 1, 4, 1, 1, 1, 129, 1, 5, 3, 5], len := 12 },
         { bytes := [7, 65, 3, 2, 1, 57, 41], len := 7 }] = [6, 18] :=
  ⟨(assembled_blocks_walk sample_files_env 2 [bytes "a.sc", bytes "b.sc"]
      [83, 67, 1, 1, 0, 0, 12, 2, 1, 4, 1, 1, 1, 129, 1, 5, 3, 5, 7, 65, 3, 2, 1, 57, 41]
      (by decide!)
      [{ bytes := [12, 2, 1, 4, 1, 1, 1, 129, 1, 5, 3, 5], len := 12 },
       { bytes := [7, 65, 3, 2, 1, 57, 41], len := 7 }] (by decide!) sample_env).2.1,
   rfl⟩

end Sctools
